import Mathlib

/-!
# CELF: a shallow embedding of `celf.h`

The C header `celf.h` implements a small executable-linkable container:
an integer codec, a section builder, a serializer, a deserializer and a
symbol resolver.  This file translates those functions into Lean and proves
properties of the translation.

## Modelling conventions

* A byte (`unsigned char`) is a `Fin 256`.
* A `size_t` is a natural number; every arithmetic operation the source
  performs on a `size_t` is reduced modulo `2 ^ size_bits`.  A sum or product
  that the source computes step by step is reduced once at the end, which gives
  the same value because reduction modulo `2 ^ size_bits` commutes with `+`
  and `*`.
* A pointer to a heap block is an `Option`: `none` is `NULL`, `some b` is a
  block together with its address and its current content.
* The collaborators the header only declares (`celf_malloc`, `celf_link`,
  `celf_make_exec`, `celf_make_ro`, `celf_err`) are parameters (`Env`) or
  recorded in an event log.  `celf_err` is modelled as a reporter that returns.
* Every function runs in `Run`: it produces the log of the events it performed
  and either a value or a memory fault (an access the C program has no right
  to perform: outside of a block, or through `NULL`).
-/

namespace Celf

/-! ## Configuration and constants -/

/-- An `unsigned char`. -/
abbrev Byte := Fin 256

/-- Build configuration of the header: whether `CELF_64` is defined, the width
of `size_t` in bits and `sizeof(celf_entry)` on the target. -/
structure Config where
  CELF_64 : Bool
  size_bits : Nat
  sizeof_entry : Nat
deriving DecidableEq, Repr

/-- The macro `CELF_ALIGNMENT`. -/
def CELF_ALIGNMENT : Nat := 128

/-- The macro `CELF_UINT_SIZE`: 8 under `CELF_64`, 4 otherwise. -/
def CELF_UINT_SIZE (cfg : Config) : Nat := if cfg.CELF_64 then 8 else 4

/-- Section class `CELF_RODATA`. -/
def CELF_RODATA : Byte := 0
/-- Section class `CELF_UDATA`. -/
def CELF_UDATA : Byte := 1
/-- Section class `CELF_ZDATA`. -/
def CELF_ZDATA : Byte := 2
/-- Section class `CELF_IDATA`. -/
def CELF_IDATA : Byte := 3
/-- Section class `CELF_EXECD`. -/
def CELF_EXECD : Byte := 4

/-- Reduction of an arithmetic result to the range of `size_t`. -/
def Config.wrap (cfg : Config) (n : Nat) : Nat := n % 2 ^ cfg.size_bits

/-- A configuration the header can be compiled for: `size_t` holds a codec
integer (`CELF_64` needs a 64-bit `size_t`), and an entry occupies at least one
byte. -/
def Config.ok (cfg : Config) : Prop :=
  8 * CELF_UINT_SIZE cfg ≤ cfg.size_bits ∧ 0 < cfg.sizeof_entry

instance (cfg : Config) : Decidable cfg.ok := by
  unfold Config.ok; infer_instance

/-! ## Data model -/

/-- A `char[256]` name field. -/
abbrev Name256 := { l : List Byte // l.length = 256 }

/-- The 256-byte field whose first bytes are `l` (cut at 256), zero-padded. -/
def Name256.ofList (l : List Byte) : Name256 :=
  ⟨(l ++ List.replicate 256 0).take 256, by
    rw [List.length_take, List.length_append, List.length_replicate]; omega⟩

/-- The struct `celf_entry`. -/
structure celf_entry where
  entry_section : Byte
  entry_offset : Nat
  entry_name : Name256
deriving DecidableEq

/-- The struct `celf_entry_in`; `entry_data` is the memory `entry_data` points
to. -/
structure celf_entry_in where
  entry_name : Name256
  entry_section : Byte
  entry_data : List Byte
  entry_size : Nat
deriving DecidableEq

/-- A heap block of bytes: its address and its content (whose length is the
allocated size). -/
structure Block where
  addr : Nat
  bytes : List Byte
deriving DecidableEq

/-- A heap block holding an array of `celf_entry`. -/
structure EntArr where
  addr : Nat
  cells : List celf_entry
deriving DecidableEq

/-- The struct `celf_file`. -/
structure celf_file where
  entries : Option EntArr
  nentries : Nat
  rodata : Option Block
  rodata_size : Nat
  udata : Option Block
  udata_size : Nat
  zdata : Option Block
  zdata_size : Nat
  idata : Option Block
  idata_size : Nat
  execd : Option Block
  execd_size : Nat
deriving DecidableEq

/-- The initialiser `celf_file retval = {0}`. -/
def celf_file.zero : celf_file :=
  { entries := none, nentries := 0,
    rodata := none, rodata_size := 0,
    udata := none, udata_size := 0,
    zdata := none, zdata_size := 0,
    idata := none, idata_size := 0,
    execd := none, execd_size := 0 }

/-- Numeric value of a block pointer; `NULL` is 0. -/
def ptr_addr : Option Block → Nat
  | none => 0
  | some b => b.addr

/-- The bytes a block pointer gives access to; none through `NULL`. -/
def ptr_bytes : Option Block → List Byte
  | none => []
  | some b => b.bytes

/-- The entries an entry-array pointer gives access to. -/
def ptr_cells : Option EntArr → List celf_entry
  | none => []
  | some a => a.cells

/-! ## Events, faults and the `Run` monad -/

/-- What an execution does that is visible outside of its result. -/
inductive Event where
  /-- bytes `[off, off + len)` of the deserializer input buffer are read -/
  | read (off len : Nat)
  /-- `len` bytes are stored at offset `off` of the block at address `dst` -/
  | write (dst off len : Nat)
  /-- `celf_malloc(sz)` returned address `ret` (`0` for `NULL`) -/
  | malloc (sz ret : Nat)
  /-- `celf_err(msg)` -/
  | err (msg : String)
  /-- `celf_link(&data)`: the container as it is handed to the hook -/
  | link (data : celf_file)
  /-- `celf_make_exec(blk, sz)` -/
  | make_exec (blk sz : Nat)
  /-- `celf_make_ro(blk, sz)` -/
  | make_ro (blk sz : Nat)
deriving DecidableEq

/-- A memory access the C program has no right to perform. -/
inductive Fault where
  | read_out_of_bounds
  | write_out_of_bounds
  | null_pointer
deriving DecidableEq, Repr

/-- How an execution ends. -/
inductive Outcome (α : Type) where
  | ok (a : α)
  | fault (f : Fault)
deriving DecidableEq

/-- An execution: the events performed, and how it ended. -/
structure Run (α : Type) where
  log : List Event
  out : Outcome α

/-- Sequencing: the second part runs only if the first did not fault. -/
def Run.bind {α β : Type} (x : Run α) (f : α → Run β) : Run β :=
  match x.out with
  | .ok a => ⟨x.log ++ (f a).log, (f a).out⟩
  | .fault e => ⟨x.log, .fault e⟩

instance : Monad Run where
  pure a := ⟨[], .ok a⟩
  bind := Run.bind

/-- Record one event. -/
def emit (e : Event) : Run Unit := ⟨[e], .ok ()⟩

/-- Stop on a memory fault. -/
def fault {α : Type} (f : Fault) : Run α := ⟨[], .fault f⟩

/-! ## Collaborators -/

/-- The collaborators of one call.  `malloc k sz` is the address returned by
the `k`-th `celf_malloc` of the call when asked for `sz` bytes (`none` is
`NULL`); `fresh k j` is byte `j` of the indeterminate initial content of that
block and `fresh_entry k j` its `j`-th entry when it is used as an entry array;
`link` is the effect of `celf_link` on the container. -/
structure Env where
  malloc : Nat → Nat → Option Nat
  fresh : Nat → Nat → Byte
  fresh_entry : Nat → Nat → celf_entry
  link : celf_file → celf_file

/-- The `k`-th call `celf_malloc(sz)` of byte memory. -/
def celf_malloc (env : Env) (k sz : Nat) : Run (Option Block) :=
  match env.malloc k sz with
  | none => ⟨[.malloc sz 0], .ok none⟩
  | some a => ⟨[.malloc sz a], .ok (some ⟨a, (List.range sz).map (env.fresh k)⟩)⟩

/-- The `k`-th call `celf_malloc(sz)` whose result is used as a `celf_entry*`:
the block holds `sz / sizeof(celf_entry)` entries. -/
def celf_malloc_entries (cfg : Config) (env : Env) (k sz : Nat) : Run (Option EntArr) :=
  match env.malloc k sz with
  | none => ⟨[.malloc sz 0], .ok none⟩
  | some a =>
    ⟨[.malloc sz a],
      .ok (some ⟨a, (List.range (sz / cfg.sizeof_entry)).map (env.fresh_entry k)⟩)⟩

/-- The call `celf_err(msg)` of a reporter that returns. -/
def celf_err (msg : String) : Run Unit := emit (.err msg)

/-! ## Memory accesses -/

/-- Read `n` bytes at offset `off` of the memory `src`. -/
def load (src : List Byte) (off n : Nat) : Run (List Byte) :=
  if n = 0 then pure []
  else if off + n ≤ src.length then pure ((src.drop off).take n)
  else fault .read_out_of_bounds

/-- Read `n` bytes at offset `off` of the deserializer input buffer. -/
def read_input (bufin : List Byte) (off n : Nat) : Run (List Byte) :=
  if n = 0 then pure []
  else if off + n ≤ bufin.length then ⟨[.read off n], .ok ((bufin.drop off).take n)⟩
  else fault .read_out_of_bounds

/-- Store the bytes `data` at offset `off` of the block `dst` points to. -/
def mem_write (dst : Option Block) (off : Nat) (data : List Byte) : Run (Option Block) :=
  if data.length = 0 then pure dst
  else match dst with
    | none => fault .null_pointer
    | some b =>
      if off + data.length ≤ b.bytes.length then
        ⟨[.write b.addr off data.length],
          .ok (some { b with bytes := b.bytes.take off ++ data ++ b.bytes.drop (off + data.length) })⟩
      else fault .write_out_of_bounds

/-- The function `celf_memset(str, c, n)`. -/
def celf_memset (str : Option Block) (c : Byte) (n : Nat) : Run (Option Block) :=
  mem_write str 0 (List.replicate n c)

/-- The function `celf_memcpy(destination + doff, source + soff, nbytes)`. -/
def celf_memcpy (destination : Option Block) (doff : Nat) (source : List Byte) (soff nbytes : Nat) :
    Run (Option Block) := do
  let data ← load source soff nbytes
  mem_write destination doff data

/-- Apply `f` to cell `i` of an entry array (a store to a field of
`entries[i]`). -/
def store_entry (arr : Option EntArr) (i : Nat) (f : celf_entry → celf_entry) :
    Run (Option EntArr) :=
  match arr with
  | none => fault .null_pointer
  | some a =>
    if h : i < a.cells.length then
      pure (some { a with cells := a.cells.set i (f (a.cells.get ⟨i, h⟩)) })
    else fault .write_out_of_bounds

/-- Read `entries[i]`. -/
def load_entry (arr : Option EntArr) (i : Nat) : Run celf_entry :=
  match arr with
  | none => fault .null_pointer
  | some a =>
    if h : i < a.cells.length then pure (a.cells.get ⟨i, h⟩)
    else fault .read_out_of_bounds

/-! ## Integer codec -/

/-- The statement `retval <<= 8` on a `size_t`. -/
def shl8 (cfg : Config) (retval : Nat) : Nat := cfg.wrap (retval <<< 8)

/-- The function `celf_parse_uint`; `b` is the memory at `where`. -/
def celf_parse_uint (cfg : Config) (b : List Byte) : Nat :=
  let retval := 0
  let retval := retval ||| (b.getD 0 0).val; let retval := shl8 cfg retval
  let retval := retval ||| (b.getD 1 0).val; let retval := shl8 cfg retval
  let retval := retval ||| (b.getD 2 0).val; let retval := shl8 cfg retval
  let retval := retval ||| (b.getD 3 0).val
  if cfg.CELF_64 then
    let retval := shl8 cfg retval
    let retval := retval ||| (b.getD 4 0).val; let retval := shl8 cfg retval
    let retval := retval ||| (b.getD 5 0).val; let retval := shl8 cfg retval
    let retval := retval ||| (b.getD 6 0).val; let retval := shl8 cfg retval
    let retval := retval ||| (b.getD 7 0).val
    retval
  else retval

/-- The conversion of a `size_t` to `unsigned char` in `*b = val >> k`. -/
def to_byte (n : Nat) : Byte := ⟨n % 256, Nat.mod_lt _ (by decide)⟩

/-- The function `celf_write_uint`: the bytes it stores at `where`. -/
def celf_write_uint (cfg : Config) (val : Nat) : List Byte :=
  (if cfg.CELF_64 then
    [to_byte (val >>> 56), to_byte (val >>> 48), to_byte (val >>> 40), to_byte (val >>> 32)]
   else []) ++
  [to_byte (val >>> 24), to_byte (val >>> 16), to_byte (val >>> 8), to_byte val]

/-! ## Name comparison and symbol resolution -/

/-- The loop of `celf_streq_256` with `n` iterations left; `a` and `b` are the
memory at the two pointers. -/
def streq_loop : Nat → List Byte → List Byte → Run Bool
  | 0, _, _ => pure true
  | n + 1, x :: a, y :: b =>
    if x ≠ y then pure false
    else if x = 0 then pure true
    else streq_loop n a b
  | _ + 1, _, _ => fault .read_out_of_bounds

/-- The function `celf_streq_256`. -/
def celf_streq_256 (a b : List Byte) : Run Bool := streq_loop 256 a b

/-- The macro `CELF_MAGIC_INVALID_PTR` (`NULL`). -/
def CELF_MAGIC_INVALID_PTR : Nat := 0

/-- The loop of `celf_resolve_symbol` at index `i` with `k` iterations left.
A pointer result is its numeric value (`base + offset`, not reduced: pointer
arithmetic does not wrap). -/
def resolve_loop (f : celf_file) (sym : List Byte) : Nat → Nat → Run Nat
  | 0, _ => pure CELF_MAGIC_INVALID_PTR
  | k + 1, i => do
    let e ← load_entry f.entries i
    let eq ← celf_streq_256 sym e.entry_name.val
    if eq then
      if e.entry_section = CELF_RODATA then pure (ptr_addr f.rodata + e.entry_offset)
      else if e.entry_section = CELF_IDATA then pure (ptr_addr f.idata + e.entry_offset)
      else if e.entry_section = CELF_ZDATA then pure (ptr_addr f.zdata + e.entry_offset)
      else if e.entry_section = CELF_UDATA then pure (ptr_addr f.udata + e.entry_offset)
      else if e.entry_section = CELF_EXECD then pure (ptr_addr f.execd + e.entry_offset)
      else pure 0
    else resolve_loop f sym k (i + 1)

/-- The function `celf_resolve_symbol`. -/
def celf_resolve_symbol (f : celf_file) (sym : List Byte) : Run Nat :=
  resolve_loop f sym f.nentries 0

/-! ## Deserializer -/

/-- The message of `celf_deserialize` at label `error2`. -/
def fail_err_msg : String :=
  "Buffer was too small for celf_deserialize, most likely a malformed file."

/-- The message of `celf_deserialize` at label `error`. -/
def deserialize_malloc_fail_err_msg : String := "failed malloc in celf_deserialize"

/-- The entry loop of `celf_deserialize` at index `i`, with `k` iterations
left and the read cursor at offset `buf` of the input. -/
def deserialize_entries (cfg : Config) (bufin : List Byte) :
    Nat → Nat → Nat → Option EntArr → Run (Option EntArr)
  | 0, _, _, entries => pure entries
  | k + 1, i, buf, entries => do
    let b ← read_input bufin buf 1
    let entries ← store_entry entries i (fun e => { e with entry_section := b.headD 0 })
    let buf := buf + 1
    let w ← read_input bufin buf (CELF_UINT_SIZE cfg)
    let entries ← store_entry entries i (fun e => { e with entry_offset := celf_parse_uint cfg w })
    let buf := buf + CELF_UINT_SIZE cfg
    let nm ← read_input bufin buf 256
    let entries ← store_entry entries i (fun e => { e with entry_name := Name256.ofList nm })
    let buf := buf + 256
    deserialize_entries cfg bufin k (i + 1) buf entries

/-- A `celf_memcpy` of `n` bytes from offset `buf` of the deserializer input
to the start of `dst`. -/
def copy_input (dst : Option Block) (bufin : List Byte) (buf n : Nat) : Run (Option Block) := do
  let data ← read_input bufin buf n
  mem_write dst 0 data

/-- The function `celf_deserialize`; `bufin` is the memory at the pointer and
`bufsz` the length the caller supplies. -/
def celf_deserialize (cfg : Config) (env : Env) (bufin : List Byte) (bufsz : Nat) :
    Run celf_file :=
  if bufsz < 6 * CELF_UINT_SIZE cfg then do
    celf_err fail_err_msg
    pure celf_file.zero
  else do
    let b ← read_input bufin 0 (CELF_UINT_SIZE cfg)
    let nentries := celf_parse_uint cfg b
    if nentries = 0 then pure celf_file.zero
    else do
      let b ← read_input bufin (CELF_UINT_SIZE cfg) (CELF_UINT_SIZE cfg)
      let rodata_size := celf_parse_uint cfg b
      let b ← read_input bufin (2 * CELF_UINT_SIZE cfg) (CELF_UINT_SIZE cfg)
      let udata_size := celf_parse_uint cfg b
      let b ← read_input bufin (3 * CELF_UINT_SIZE cfg) (CELF_UINT_SIZE cfg)
      let zdata_size := celf_parse_uint cfg b
      let b ← read_input bufin (4 * CELF_UINT_SIZE cfg) (CELF_UINT_SIZE cfg)
      let idata_size := celf_parse_uint cfg b
      let b ← read_input bufin (5 * CELF_UINT_SIZE cfg) (CELF_UINT_SIZE cfg)
      let execd_size := celf_parse_uint cfg b
      let buf := 6 * CELF_UINT_SIZE cfg
      let size_needed := cfg.wrap (rodata_size + idata_size + execd_size
        + nentries * (256 + 1 + CELF_UINT_SIZE cfg) + 6 * CELF_UINT_SIZE cfg)
      if size_needed < bufsz then do
        celf_err fail_err_msg
        pure celf_file.zero
      else do
        let entries ← celf_malloc_entries cfg env 0 (cfg.wrap (cfg.sizeof_entry * nentries))
        let retval := { celf_file.zero with entries := entries }
        if entries.isNone then do
          celf_err deserialize_malloc_fail_err_msg
          pure retval
        else do
          let retval := { retval with nentries := nentries }
          let entries ← deserialize_entries cfg bufin retval.nentries 0 buf retval.entries
          let retval := { retval with entries := entries }
          let buf := buf + nentries * (1 + CELF_UINT_SIZE cfg + 256)
          let rodata ← celf_malloc env 1 rodata_size
          let retval := { retval with rodata := rodata, rodata_size := rodata_size }
          if rodata.isNone then do
            celf_err deserialize_malloc_fail_err_msg
            pure retval
          else do
            let udata ← celf_malloc env 2 udata_size
            let retval := { retval with udata := udata, udata_size := udata_size }
            if udata.isNone then do
              celf_err deserialize_malloc_fail_err_msg
              pure retval
            else do
              let idata ← celf_malloc env 3 idata_size
              let retval := { retval with idata := idata, idata_size := idata_size }
              if idata.isNone then do
                celf_err deserialize_malloc_fail_err_msg
                pure retval
              else do
                let zdata ← celf_malloc env 4 zdata_size
                let retval := { retval with zdata := zdata, zdata_size := zdata_size }
                if zdata.isNone then do
                  celf_err deserialize_malloc_fail_err_msg
                  pure retval
                else do
                  let execd ← celf_malloc env 5 execd_size
                  let retval := { retval with execd := execd, execd_size := execd_size }
                  if execd.isNone then do
                    celf_err deserialize_malloc_fail_err_msg
                    pure retval
                  else do
                    let zdata ← celf_memset retval.zdata 0 zdata_size
                    let retval := { retval with zdata := zdata }
                    let rodata ← copy_input retval.rodata bufin buf rodata_size
                    let retval := { retval with rodata := rodata }
                    let buf := buf + rodata_size
                    let idata ← copy_input retval.idata bufin buf idata_size
                    let retval := { retval with idata := idata }
                    let buf := buf + idata_size
                    let execd ← copy_input retval.execd bufin buf execd_size
                    let retval := { retval with execd := execd }
                    emit (.link retval)
                    let retval := env.link retval
                    emit (.make_exec (ptr_addr retval.execd) execd_size)
                    emit (.make_ro (ptr_addr retval.rodata) rodata_size)
                    pure retval

/-! ## Serializer -/

/-- The message of `celf_serialize` on allocation failure. -/
def serialize_malloc_fail_err_msg : String := "failed malloc in celf_serialize"

/-- The entry loop of `celf_serialize` at index `i`, with `k` iterations left
and the write cursor `r` (an offset into the output block). -/
def serialize_entries (cfg : Config) (d : celf_file) :
    Nat → Nat → Nat → Option Block → Run (Nat × Option Block)
  | 0, _, r, retval => pure (r, retval)
  | k + 1, i, r, retval => do
    let e ← load_entry d.entries i
    let retval ← mem_write retval r [e.entry_section]
    let r := r + 1
    let retval ← mem_write retval r (celf_write_uint cfg e.entry_offset)
    let r := r + CELF_UINT_SIZE cfg
    let retval ← celf_memcpy retval r e.entry_name.val 0 256
    let r := r + 256
    serialize_entries cfg d k (i + 1) r retval

/-- One of the three guarded section copies of `celf_serialize`:
`if(sec && size) { celf_memcpy(r, sec, size); r += size; }`. -/
def serialize_section (sec : Option Block) (size r : Nat) (retval : Option Block) :
    Run (Nat × Option Block) :=
  if sec.isSome ∧ size ≠ 0 then do
    let retval ← celf_memcpy retval r (ptr_bytes sec) 0 size
    pure (r + size, retval)
  else pure (r, retval)

/-- The function `celf_serialize`: the returned pointer, and the value stored
through `needed_out`. -/
def celf_serialize (cfg : Config) (env : Env) (d : celf_file) : Run (Option Block × Nat) := do
  let size_needed := cfg.wrap (d.rodata_size + d.idata_size + d.execd_size
    + d.nentries * (256 + 1 + CELF_UINT_SIZE cfg) + 6 * CELF_UINT_SIZE cfg)
  let retval ← celf_malloc env 0 size_needed
  let r := 0
  if retval.isNone then do
    celf_err serialize_malloc_fail_err_msg
    pure (none, size_needed)
  else do
    let retval ← mem_write retval r (celf_write_uint cfg d.nentries)
    let r := r + CELF_UINT_SIZE cfg
    let retval ← mem_write retval r (celf_write_uint cfg d.rodata_size)
    let r := r + CELF_UINT_SIZE cfg
    let retval ← mem_write retval r (celf_write_uint cfg d.udata_size)
    let r := r + CELF_UINT_SIZE cfg
    let retval ← mem_write retval r (celf_write_uint cfg d.zdata_size)
    let r := r + CELF_UINT_SIZE cfg
    let retval ← mem_write retval r (celf_write_uint cfg d.idata_size)
    let r := r + CELF_UINT_SIZE cfg
    let retval ← mem_write retval r (celf_write_uint cfg d.execd_size)
    let r := r + CELF_UINT_SIZE cfg
    let (r, retval) ← serialize_entries cfg d d.nentries 0 r retval
    let (r, retval) ← serialize_section d.rodata d.rodata_size r retval
    let (r, retval) ← serialize_section d.idata d.idata_size r retval
    let (_, retval) ← serialize_section d.execd d.execd_size r retval
    pure (retval, size_needed)

/-! ## Section builder -/

/-- The message of `celf_build_filestruct` on allocation failure. -/
def build_malloc_fail_err_msg : String := "failed malloc in celf_build_filestruct"

/-- The message of `celf_build_filestruct` on an unknown section class. -/
def sectionid_fail_err_msg : String := "improper section ID."

/-- The three statements computing `needed` from `entry_size`. -/
def needed_of (cfg : Config) (entry_size : Nat) : Nat :=
  let needed := cfg.wrap (entry_size + CELF_ALIGNMENT - 1)
  let needed := needed / CELF_ALIGNMENT
  cfg.wrap (needed * CELF_ALIGNMENT)

/-- Five `size_t` counters, one per section class: the `*_size` locals of the
first loop, the `*_prog` locals of the second. -/
structure Counters where
  rodata : Nat
  udata : Nat
  zdata : Nat
  idata : Nat
  execd : Nat
deriving DecidableEq

/-- All counters at 0. -/
def Counters.zero : Counters := ⟨0, 0, 0, 0, 0⟩

/-- The first loop of `celf_build_filestruct`; `none` when it meets the
`default` case. -/
def build_sizes (cfg : Config) : List celf_entry_in → Counters → Option Counters
  | [], sz => some sz
  | e :: es, sz =>
    let needed := needed_of cfg e.entry_size
    if e.entry_section = 0 then
      build_sizes cfg es { sz with rodata := cfg.wrap (sz.rodata + needed) }
    else if e.entry_section = 1 then
      build_sizes cfg es { sz with udata := cfg.wrap (sz.udata + needed) }
    else if e.entry_section = 2 then
      build_sizes cfg es { sz with zdata := cfg.wrap (sz.zdata + needed) }
    else if e.entry_section = 3 then
      build_sizes cfg es { sz with idata := cfg.wrap (sz.idata + needed) }
    else if e.entry_section = 4 then
      build_sizes cfg es { sz with execd := cfg.wrap (sz.execd + needed) }
    else none

/-- The second loop of `celf_build_filestruct` at index `i`. -/
def build_entries (cfg : Config) :
    List celf_entry_in → Nat → Counters → celf_file → Run celf_file
  | [], _, _, retval => pure retval
  | e :: es, i, prog, retval => do
    let needed := needed_of cfg e.entry_size
    let ents ← store_entry retval.entries i (fun c => { c with entry_section := e.entry_section })
    let ents ← store_entry ents i (fun c => { c with entry_name := e.entry_name })
    let retval := { retval with entries := ents }
    if e.entry_section = 0 then do
      let ents ← store_entry retval.entries i (fun c => { c with entry_offset := prog.rodata })
      let rodata ← celf_memcpy retval.rodata 0 e.entry_data 0 e.entry_size
      build_entries cfg es (i + 1) { prog with rodata := cfg.wrap (prog.rodata + needed) }
        { retval with entries := ents, rodata := rodata }
    else if e.entry_section = 1 then do
      let ents ← store_entry retval.entries i (fun c => { c with entry_offset := prog.udata })
      build_entries cfg es (i + 1) { prog with udata := cfg.wrap (prog.udata + needed) }
        { retval with entries := ents }
    else if e.entry_section = 2 then do
      let ents ← store_entry retval.entries i (fun c => { c with entry_offset := prog.zdata })
      build_entries cfg es (i + 1) { prog with zdata := cfg.wrap (prog.zdata + needed) }
        { retval with entries := ents }
    else if e.entry_section = 3 then do
      let ents ← store_entry retval.entries i (fun c => { c with entry_offset := prog.idata })
      let idata ← celf_memcpy retval.idata 0 e.entry_data 0 e.entry_size
      build_entries cfg es (i + 1) { prog with idata := cfg.wrap (prog.idata + needed) }
        { retval with entries := ents, idata := idata }
    else if e.entry_section = 4 then do
      let ents ← store_entry retval.entries i (fun c => { c with entry_offset := prog.execd })
      let execd ← celf_memcpy retval.execd 0 e.entry_data 0 e.entry_size
      build_entries cfg es (i + 1) { prog with execd := cfg.wrap (prog.execd + needed) }
        { retval with entries := ents, execd := execd }
    else build_entries cfg es (i + 1) prog retval

/-- The function `celf_build_filestruct`; the array `entries` of `nentries`
records is the list `entries`. -/
def celf_build_filestruct (cfg : Config) (env : Env) (entries : List celf_entry_in) :
    Run celf_file :=
  let nentries := entries.length
  match build_sizes cfg entries Counters.zero with
  | none => do
    celf_err sectionid_fail_err_msg
    pure celf_file.zero
  | some sz => do
    let ents ← celf_malloc_entries cfg env 0 (cfg.wrap (cfg.sizeof_entry * nentries))
    let retval := { celf_file.zero with entries := ents }
    if ents.isNone then do
      celf_err build_malloc_fail_err_msg
      pure retval
    else do
      let rodata ← celf_malloc env 1 sz.rodata
      let retval := { retval with rodata := rodata }
      if rodata.isNone then do
        celf_err build_malloc_fail_err_msg
        pure retval
      else do
        let idata ← celf_malloc env 2 sz.idata
        let retval := { retval with idata := idata }
        if idata.isNone then do
          celf_err build_malloc_fail_err_msg
          pure retval
        else do
          let execd ← celf_malloc env 3 sz.execd
          let retval := { retval with execd := execd }
          if execd.isNone then do
            celf_err build_malloc_fail_err_msg
            pure retval
          else do
            let zdata ← celf_memset retval.zdata 0 sz.zdata
            let retval := { retval with zdata := zdata }
            let retval := { retval with
              nentries := nentries,
              rodata_size := sz.rodata,
              udata_size := sz.udata,
              idata_size := sz.idata,
              zdata_size := sz.zdata,
              execd_size := sz.execd }
            build_entries cfg entries 0 Counters.zero retval

/-! ## Vocabulary of the statements

The definitions below are not part of the program: they name the quantities
the theorems talk about. -/

/-- An error report. -/
def Event.is_err : Event → Bool
  | .err _ => true
  | _ => false

/-- A call of the link hook or of the protection adapter. -/
def Event.is_call : Event → Bool
  | .link _ => true
  | .make_exec _ _ => true
  | .make_ro _ _ => true
  | _ => false

/-- A call of `celf_malloc`. -/
def Event.is_malloc : Event → Bool
  | .malloc _ _ => true
  | _ => false

/-- A read of the input buffer or a store to a block. -/
def Event.is_access : Event → Bool
  | .read _ _ => true
  | .write _ _ _ => true
  | _ => false

/-- The event of reading `n` bytes of the input at `off` (nothing for `n = 0`). -/
def read_log (off n : Nat) : List Event := if n = 0 then [] else [.read off n]

/-- The event of storing `n` bytes at offset `off` of the block at `dst`
(nothing for `n = 0`). -/
def write_log (dst off n : Nat) : List Event := if n = 0 then [] else [.write dst off n]

/-- The `k`-th codec integer of the header of the input `bufin`
(`0`: entry count, `1`..`5`: RODATA, UDATA, ZDATA, IDATA, EXECD size). -/
def header_field (cfg : Config) (bufin : List Byte) (k : Nat) : Nat :=
  celf_parse_uint cfg ((bufin.drop (k * CELF_UINT_SIZE cfg)).take (CELF_UINT_SIZE cfg))

/-- The value `size_needed` that `celf_deserialize` computes from the header. -/
def header_size_needed (cfg : Config) (bufin : List Byte) : Nat :=
  cfg.wrap (header_field cfg bufin 1 + header_field cfg bufin 4 + header_field cfg bufin 5
    + header_field cfg bufin 0 * (256 + 1 + CELF_UINT_SIZE cfg) + 6 * CELF_UINT_SIZE cfg)

/-- The size `sizeof(celf_entry) * nentries` of the entry array of the input. -/
def header_entries_size (cfg : Config) (bufin : List Byte) : Nat :=
  cfg.wrap (cfg.sizeof_entry * header_field cfg bufin 0)

/-- The entry encoded at offset `p` of the input. -/
def entry_at (cfg : Config) (bufin : List Byte) (p : Nat) : celf_entry :=
  { entry_section := ((bufin.drop p).take 1).headD 0,
    entry_offset := celf_parse_uint cfg ((bufin.drop (p + 1)).take (CELF_UINT_SIZE cfg)),
    entry_name := Name256.ofList ((bufin.drop (p + 1 + CELF_UINT_SIZE cfg)).take 256) }

/-- The reads of the entry loop of the deserializer: `k` entries from offset
`pos`. -/
def entries_read_log (cfg : Config) : Nat → Nat → List Event
  | 0, _ => []
  | k + 1, pos =>
    [.read pos 1, .read (pos + 1) (CELF_UINT_SIZE cfg), .read (pos + 1 + CELF_UINT_SIZE cfg) 256]
      ++ entries_read_log cfg k (pos + 1 + CELF_UINT_SIZE cfg + 256)

/-- Offset of the section payload in the input: after the header and the entry
table. -/
def payload_offset (cfg : Config) (bufin : List Byte) : Nat :=
  6 * CELF_UINT_SIZE cfg + header_field cfg bufin 0 * (1 + CELF_UINT_SIZE cfg + 256)

/-- The container `celf_deserialize` has built from the input `bufin` when it
calls the link hook: the parsed entry table, RODATA, IDATA and EXECD copied from
the payload, ZDATA zero-filled, UDATA as allocated. -/
def loaded_container (cfg : Config) (env : Env) (bufin : List Byte) : celf_file :=
  { entries := (env.malloc 0 (header_entries_size cfg bufin)).map fun a =>
      ⟨a, (List.range (header_field cfg bufin 0)).map fun j =>
        entry_at cfg bufin (6 * CELF_UINT_SIZE cfg + j * (1 + CELF_UINT_SIZE cfg + 256))⟩,
    nentries := header_field cfg bufin 0,
    rodata := (env.malloc 1 (header_field cfg bufin 1)).map fun a =>
      ⟨a, (bufin.drop (payload_offset cfg bufin)).take (header_field cfg bufin 1)⟩,
    rodata_size := header_field cfg bufin 1,
    udata := (env.malloc 2 (header_field cfg bufin 2)).map fun a =>
      ⟨a, (List.range (header_field cfg bufin 2)).map (env.fresh 2)⟩,
    udata_size := header_field cfg bufin 2,
    zdata := (env.malloc 4 (header_field cfg bufin 3)).map fun a =>
      ⟨a, List.replicate (header_field cfg bufin 3) 0⟩,
    zdata_size := header_field cfg bufin 3,
    idata := (env.malloc 3 (header_field cfg bufin 4)).map fun a =>
      ⟨a, (bufin.drop (payload_offset cfg bufin + header_field cfg bufin 1)).take
        (header_field cfg bufin 4)⟩,
    idata_size := header_field cfg bufin 4,
    execd := (env.malloc 5 (header_field cfg bufin 5)).map fun a =>
      ⟨a, (bufin.drop (payload_offset cfg bufin + header_field cfg bufin 1
        + header_field cfg bufin 4)).take (header_field cfg bufin 5)⟩,
    execd_size := header_field cfg bufin 5 }

/-- The value the `switch` of `celf_resolve_symbol` returns at a matching entry. -/
def switch_value (f : celf_file) (e : celf_entry) : Nat :=
  if e.entry_section = CELF_RODATA then ptr_addr f.rodata + e.entry_offset
  else if e.entry_section = CELF_IDATA then ptr_addr f.idata + e.entry_offset
  else if e.entry_section = CELF_ZDATA then ptr_addr f.zdata + e.entry_offset
  else if e.entry_section = CELF_UDATA then ptr_addr f.udata + e.entry_offset
  else if e.entry_section = CELF_EXECD then ptr_addr f.execd + e.entry_offset
  else 0

/-- Base address of the section of class `sec` in `f`; `none` when `sec` is
not one of the five classes. -/
def section_base (f : celf_file) (sec : Byte) : Option Nat :=
  if sec = CELF_RODATA then some (ptr_addr f.rodata)
  else if sec = CELF_UDATA then some (ptr_addr f.udata)
  else if sec = CELF_ZDATA then some (ptr_addr f.zdata)
  else if sec = CELF_IDATA then some (ptr_addr f.idata)
  else if sec = CELF_EXECD then some (ptr_addr f.execd)
  else none

/-- The error reports of an execution, in order. -/
def Run.errs {α : Type} (r : Run α) : List Event := r.log.filter Event.is_err

/-- The calls of the link hook and of the protection adapter, in order. -/
def Run.calls {α : Type} (r : Run α) : List Event := r.log.filter Event.is_call

/-- The calls of `celf_malloc`, in order. -/
def Run.mallocs {α : Type} (r : Run α) : List Event := r.log.filter Event.is_malloc

/-- The input memory `bufin` holds everything its header announces, and the
entry array computed from the header has room for the announced entries:
the accesses of `celf_deserialize` stay inside their blocks. -/
def deserialize_in_bounds (cfg : Config) (bufin : List Byte) : Prop :=
  header_field cfg bufin 0 ≤ header_entries_size cfg bufin / cfg.sizeof_entry ∧
  payload_offset cfg bufin + header_field cfg bufin 1 + header_field cfg bufin 4
    + header_field cfg bufin 5 ≤ bufin.length

instance (cfg : Config) (bufin : List Byte) : Decidable (deserialize_in_bounds cfg bufin) := by
  unfold deserialize_in_bounds; infer_instance

/-- The six allocations `celf_deserialize` requests for the input `bufin`
(entry array, RODATA, UDATA, IDATA, ZDATA, EXECD) all succeed. -/
def deserialize_allocs_ok (cfg : Config) (env : Env) (bufin : List Byte) : Prop :=
  (env.malloc 0 (header_entries_size cfg bufin)).isSome ∧
  (env.malloc 1 (header_field cfg bufin 1)).isSome ∧
  (env.malloc 2 (header_field cfg bufin 2)).isSome ∧
  (env.malloc 3 (header_field cfg bufin 4)).isSome ∧
  (env.malloc 4 (header_field cfg bufin 3)).isSome ∧
  (env.malloc 5 (header_field cfg bufin 5)).isSome

instance (cfg : Config) (env : Env) (bufin : List Byte) :
    Decidable (deserialize_allocs_ok cfg env bufin) := by
  unfold deserialize_allocs_ok; infer_instance

/-- The `w`-byte big-endian encoding of `v`, most significant byte first (of
`v` modulo `256 ^ w` when `v` does not fit). -/
def be_bytes : Nat → Nat → List Byte
  | 0, _ => []
  | w + 1, v => to_byte (v / 256 ^ w) :: be_bytes w v

/-- Wire form of one entry, in the words of the specification: the 1-byte
section id, the codec-encoded offset, the 256-byte name field. -/
def wire_entry (cfg : Config) (e : celf_entry) : List Byte :=
  [e.entry_section] ++ be_bytes (CELF_UINT_SIZE cfg) e.entry_offset ++ e.entry_name.val

/-- The header of the wire layout: the six codec-encoded sizes, in the order
entry count, RODATA, UDATA, ZDATA, IDATA, EXECD size. -/
def wire_header (cfg : Config) (d : celf_file) : List Byte :=
  be_bytes (CELF_UINT_SIZE cfg) d.nentries
    ++ be_bytes (CELF_UINT_SIZE cfg) d.rodata_size
    ++ be_bytes (CELF_UINT_SIZE cfg) d.udata_size
    ++ be_bytes (CELF_UINT_SIZE cfg) d.zdata_size
    ++ be_bytes (CELF_UINT_SIZE cfg) d.idata_size
    ++ be_bytes (CELF_UINT_SIZE cfg) d.execd_size

/-- The entry table of the wire layout: the entries in table order. -/
def wire_table (cfg : Config) (d : celf_file) : List Byte :=
  (((ptr_cells d.entries).take d.nentries).map (wire_entry cfg)).flatten

/-- Wire layout of a container, in the words of the specification: the six
codec-encoded sizes, the entry table, then the RODATA, the IDATA and the EXECD
payload.  UDATA and ZDATA contribute no bytes. -/
def wire_layout (cfg : Config) (d : celf_file) : List Byte :=
  wire_header cfg d ++ wire_table cfg d
    ++ ptr_bytes d.rodata ++ ptr_bytes d.idata ++ ptr_bytes d.execd

/-- The length of the wire layout of `d`, as an exact natural number. -/
def wire_length (cfg : Config) (d : celf_file) : Nat :=
  d.rodata_size + d.idata_size + d.execd_size
    + d.nentries * (256 + 1 + CELF_UINT_SIZE cfg) + 6 * CELF_UINT_SIZE cfg

/-- The section buffers of `d` hold their declared sizes and the entry table
holds `nentries` entries. -/
def celf_file.sized (d : celf_file) : Prop :=
  d.nentries ≤ (ptr_cells d.entries).length ∧
  (ptr_bytes d.rodata).length = d.rodata_size ∧
  (ptr_bytes d.idata).length = d.idata_size ∧
  (ptr_bytes d.execd).length = d.execd_size

instance (d : celf_file) : Decidable d.sized := by
  unfold celf_file.sized; infer_instance

/-- The counter of section class `sec` (0 for an unknown class). -/
def Counters.get (c : Counters) (sec : Byte) : Nat :=
  if sec = 0 then c.rodata
  else if sec = 1 then c.udata
  else if sec = 2 then c.zdata
  else if sec = 3 then c.idata
  else if sec = 4 then c.execd
  else 0

/-- The counters after `needed` bytes have been added to class `sec`. -/
def Counters.add (cfg : Config) (c : Counters) (sec : Byte) (needed : Nat) : Counters :=
  if sec = 0 then { c with rodata := cfg.wrap (c.rodata + needed) }
  else if sec = 1 then { c with udata := cfg.wrap (c.udata + needed) }
  else if sec = 2 then { c with zdata := cfg.wrap (c.zdata + needed) }
  else if sec = 3 then { c with idata := cfg.wrap (c.idata + needed) }
  else if sec = 4 then { c with execd := cfg.wrap (c.execd + needed) }
  else c

/-- The entries the second loop of the builder stores for the records `es`
when it starts with the cursors `prog`. -/
def built_cells (cfg : Config) : List celf_entry_in → Counters → List celf_entry
  | [], _ => []
  | e :: es, prog =>
    { entry_section := e.entry_section, entry_offset := prog.get e.entry_section,
      entry_name := e.entry_name }
      :: built_cells cfg es (prog.add cfg e.entry_section (needed_of cfg e.entry_size))

/-- The content of the buffer of class `cls` after the second loop of the
builder has processed the records `es`, starting from content `b`: each record
of the class is copied to the start of the buffer. -/
def overlay (cls : Byte) : List celf_entry_in → List Byte → List Byte
  | [], b => b
  | e :: es, b =>
    overlay cls es
      (if e.entry_section = cls then e.entry_data.take e.entry_size ++ b.drop e.entry_size else b)

/-- The declared size of the section of class `sec` in `f` (0 for an unknown
class). -/
def section_size (f : celf_file) (sec : Byte) : Nat :=
  if sec = CELF_RODATA then f.rodata_size
  else if sec = CELF_UDATA then f.udata_size
  else if sec = CELF_ZDATA then f.zdata_size
  else if sec = CELF_IDATA then f.idata_size
  else if sec = CELF_EXECD then f.execd_size
  else 0

/-- The content of the section of class `sec` in `f` (empty for an unknown
class). -/
def section_bytes (f : celf_file) (sec : Byte) : List Byte :=
  if sec = CELF_RODATA then ptr_bytes f.rodata
  else if sec = CELF_UDATA then ptr_bytes f.udata
  else if sec = CELF_ZDATA then ptr_bytes f.zdata
  else if sec = CELF_IDATA then ptr_bytes f.idata
  else if sec = CELF_EXECD then ptr_bytes f.execd
  else []

/-- The length `n` rounded up to a multiple of `CELF_ALIGNMENT`, as an exact
natural number. -/
def round_up (n : Nat) : Nat := (n + (CELF_ALIGNMENT - 1)) / CELF_ALIGNMENT * CELF_ALIGNMENT

/-- The containers `f` and `g` have the same entry count and section sizes,
an entry array of the same capacity and section buffers of the same lengths. -/
def same_shape (f g : celf_file) : Prop :=
  f.nentries = g.nentries ∧ f.rodata_size = g.rodata_size ∧ f.udata_size = g.udata_size ∧
  f.zdata_size = g.zdata_size ∧ f.idata_size = g.idata_size ∧ f.execd_size = g.execd_size ∧
  (ptr_cells f.entries).length = (ptr_cells g.entries).length ∧
  (ptr_bytes f.rodata).length = (ptr_bytes g.rodata).length ∧
  (ptr_bytes f.idata).length = (ptr_bytes g.idata).length ∧
  (ptr_bytes f.execd).length = (ptr_bytes g.execd).length

/-- What a round trip through the wire format preserves. -/
def reloaded (d g : celf_file) : Prop :=
  g.nentries = d.nentries ∧ ptr_cells g.entries = ptr_cells d.entries ∧
  ptr_bytes g.rodata = ptr_bytes d.rodata ∧ ptr_bytes g.idata = ptr_bytes d.idata ∧
  ptr_bytes g.execd = ptr_bytes d.execd

/-- A section class the builder accepts: one of the values 0 to 4. -/
def valid_section (s : Byte) : Prop := s = 0 ∨ s = 1 ∨ s = 2 ∨ s = 3 ∨ s = 4

instance (s : Byte) : Decidable (valid_section s) := by
  unfold valid_section; infer_instance

/-- A section class whose content is stored in the file: RODATA, IDATA or
EXECD. -/
def stored_section (s : Byte) : Prop := s = 0 ∨ s = 3 ∨ s = 4

instance (s : Byte) : Decidable (stored_section s) := by
  unfold stored_section; infer_instance

/-- The counters after the records `es` have been accounted for, starting
from `c`. -/
def count_sizes (cfg : Config) : List celf_entry_in → Counters → Counters
  | [], c => c
  | e :: es, c => count_sizes cfg es (c.add cfg e.entry_section (needed_of cfg e.entry_size))

/-- Sum of the five counters. -/
def Counters.total (c : Counters) : Nat := c.rodata + c.udata + c.zdata + c.idata + c.execd

/-- The container `celf_build_filestruct` returns for the records `recs` when
nothing fails: the entry table, the three stored sections with every record
copied to the start of its section, and no UDATA or ZDATA buffer. -/
def built_container (cfg : Config) (env : Env) (recs : List celf_entry_in) : celf_file :=
  { entries := (env.malloc 0 (cfg.wrap (cfg.sizeof_entry * recs.length))).map fun a =>
      ⟨a, built_cells cfg recs Counters.zero⟩,
    nentries := recs.length,
    rodata := (env.malloc 1 (count_sizes cfg recs Counters.zero).rodata).map fun a =>
      ⟨a, overlay 0 recs
        ((List.range (count_sizes cfg recs Counters.zero).rodata).map (env.fresh 1))⟩,
    rodata_size := (count_sizes cfg recs Counters.zero).rodata,
    udata := none,
    udata_size := (count_sizes cfg recs Counters.zero).udata,
    zdata := none,
    zdata_size := (count_sizes cfg recs Counters.zero).zdata,
    idata := (env.malloc 2 (count_sizes cfg recs Counters.zero).idata).map fun a =>
      ⟨a, overlay 3 recs
        ((List.range (count_sizes cfg recs Counters.zero).idata).map (env.fresh 2))⟩,
    idata_size := (count_sizes cfg recs Counters.zero).idata,
    execd := (env.malloc 3 (count_sizes cfg recs Counters.zero).execd).map fun a =>
      ⟨a, overlay 4 recs
        ((List.range (count_sizes cfg recs Counters.zero).execd).map (env.fresh 3))⟩,
    execd_size := (count_sizes cfg recs Counters.zero).execd }

/-- Every record of a stored class has its content in its section at the offset
its entry records: the `entry_size` bytes of the section from `entry_offset` on
are the record's content. -/
def content_at_cursor (f : celf_file) (recs : List celf_entry_in) : Prop :=
  ∀ p ∈ recs.zip (ptr_cells f.entries), stored_section p.1.entry_section →
    ((section_bytes f p.1.entry_section).drop p.2.entry_offset).take p.1.entry_size
      = p.1.entry_data.take p.1.entry_size

instance (f : celf_file) (recs : List celf_entry_in) : Decidable (content_at_cursor f recs) := by
  unfold content_at_cursor; infer_instance

/-- The number a byte sequence denotes when read big-endian (most significant
byte first). -/
def be_value : List Byte → Nat
  | [] => 0
  | x :: xs => x.val * 256 ^ xs.length + be_value xs

/-- The name a name field denotes: its bytes before the first zero terminator,
or all of them when it has none. -/
def denoted_name (a : List Byte) : List Byte := a.takeWhile (fun x => decide (x ≠ 0))

/-- The four allocations `celf_build_filestruct` requests for the records
`recs` (entry array, RODATA, IDATA, EXECD) all succeed. -/
def build_allocs_ok (cfg : Config) (env : Env) (recs : List celf_entry_in) : Prop :=
  (env.malloc 0 (cfg.wrap (cfg.sizeof_entry * recs.length))).isSome ∧
  (env.malloc 1 (count_sizes cfg recs Counters.zero).rodata).isSome ∧
  (env.malloc 2 (count_sizes cfg recs Counters.zero).idata).isSome ∧
  (env.malloc 3 (count_sizes cfg recs Counters.zero).execd).isSome

instance (cfg : Config) (env : Env) (recs : List celf_entry_in) :
    Decidable (build_allocs_ok cfg env recs) := by
  unfold build_allocs_ok; infer_instance

/-- The container `celf_build_filestruct` holds when it enters its second loop:
the freshly allocated entry array and RODATA, IDATA and EXECD buffers, no UDATA
or ZDATA buffer, the entry count and the five sizes of the first loop. -/
def build_start (cfg : Config) (env : Env) (recs : List celf_entry_in) : celf_file :=
  { entries := (env.malloc 0 (cfg.wrap (cfg.sizeof_entry * recs.length))).map fun a =>
      ⟨a, (List.range (cfg.wrap (cfg.sizeof_entry * recs.length) / cfg.sizeof_entry)).map
        (env.fresh_entry 0)⟩,
    nentries := recs.length,
    rodata := (env.malloc 1 (count_sizes cfg recs Counters.zero).rodata).map fun a =>
      ⟨a, (List.range (count_sizes cfg recs Counters.zero).rodata).map (env.fresh 1)⟩,
    rodata_size := (count_sizes cfg recs Counters.zero).rodata,
    udata := none,
    udata_size := (count_sizes cfg recs Counters.zero).udata,
    zdata := none,
    zdata_size := (count_sizes cfg recs Counters.zero).zdata,
    idata := (env.malloc 2 (count_sizes cfg recs Counters.zero).idata).map fun a =>
      ⟨a, (List.range (count_sizes cfg recs Counters.zero).idata).map (env.fresh 2)⟩,
    idata_size := (count_sizes cfg recs Counters.zero).idata,
    execd := (env.malloc 3 (count_sizes cfg recs Counters.zero).execd).map fun a =>
      ⟨a, (List.range (count_sizes cfg recs Counters.zero).execd).map (env.fresh 3)⟩,
    execd_size := (count_sizes cfg recs Counters.zero).execd }

/-- The entry count and the five section sizes of `f` are all 0. -/
def celf_file.no_sizes (f : celf_file) : Prop :=
  f.nentries = 0 ∧ f.rodata_size = 0 ∧ f.udata_size = 0 ∧ f.zdata_size = 0 ∧
  f.idata_size = 0 ∧ f.execd_size = 0

instance (f : celf_file) : Decidable f.no_sizes := by
  unfold celf_file.no_sizes; infer_instance

/-- The sum of the lengths, each rounded up to a multiple of 128, of the
records of class `cls` in `recs`, as an exact natural number. -/
def class_total (cls : Byte) (recs : List celf_entry_in) : Nat :=
  ((recs.filter (fun e => decide (e.entry_section = cls))).map
    (fun e => round_up e.entry_size)).sum

/-- The number of bytes an event stores into a block. -/
def Event.written : Event → Nat
  | .write _ _ n => n
  | _ => 0

/-- The number of bytes the events of `l` store into blocks. -/
def bytes_written (l : List Event) : Nat := (l.map Event.written).sum

/-- The number of bytes one guarded section copy of `celf_serialize` stores:
`size` when the buffer is present and `size` is not 0, nothing otherwise. -/
def section_copied (sec : Option Block) (size : Nat) : Nat :=
  if sec.isSome ∧ size ≠ 0 then size else 0

/-! ## Concrete configurations and inputs -/

/-- A 32-bit build without `CELF_64`: 4-byte codec integers, 32-bit `size_t`,
`sizeof(celf_entry) = 264`. -/
def cfg32 : Config := { CELF_64 := false, size_bits := 32, sizeof_entry := 264 }

/-- Collaborators that never fail: the `k`-th allocation is at address
`4096 * (k + 1)`, fresh memory holds `0xAA`, the link hook is the no-op of
`CELF_DUMMY_link`. -/
def env_ok : Env :=
  { malloc := fun k _ => some (4096 * (k + 1)),
    fresh := fun _ _ => 0xAA,
    fresh_entry := fun _ _ => ⟨0xAA, 0, Name256.ofList []⟩,
    link := id }

/-- As `env_ok`, but the second allocation of the call (RODATA in
`celf_deserialize`) fails. -/
def env_rodata_fails : Env :=
  { env_ok with malloc := fun k _ => if k = 1 then none else some (4096 * (k + 1)) }

/-- As `env_ok`, but the link hook overwrites every byte of ZDATA with 1. -/
def env_link_patches_zdata : Env :=
  { env_ok with link := fun f =>
      { f with zdata := f.zdata.map fun b => { b with bytes := b.bytes.map fun _ => 1 } } }

/-- The bytes of an ASCII string. -/
def ascii (s : String) : List Byte := s.toList.map fun c => to_byte c.toNat

/-- A wire image for the 32-bit build: one RODATA entry `"a"` at offset 0 and
five empty sections; 24 + 261 = 285 bytes. -/
def one_entry_image : List Byte :=
  [0, 0, 0, 1] ++ List.replicate 20 0 ++ [0] ++ [0, 0, 0, 0] ++ (Name256.ofList (ascii "a")).val

/-- As `one_entry_image`, with a declared ZDATA size of 2. -/
def zdata_image : List Byte :=
  [0, 0, 0, 1] ++ List.replicate 8 0 ++ [0, 0, 0, 2] ++ List.replicate 8 0
    ++ [0] ++ [0, 0, 0, 0] ++ (Name256.ofList (ascii "a")).val

/-- Sixteen bytes of machine code for the scenario of the specification. -/
def code_bytes : List Byte :=
  [0x55, 0x48, 0x89, 0xE5, 0xB8, 0x2A, 0x00, 0x00, 0x00, 0x5D, 0xC3, 0x90, 0x90, 0x90, 0x90, 0x90]

/-- The records of the scenario: `"code"` in EXECD with 16 bytes and `"msg"` in
RODATA with the 5 bytes `"hello"`. -/
def scenario_records : List celf_entry_in :=
  [⟨Name256.ofList (ascii "code"), CELF_EXECD, code_bytes, 16⟩,
   ⟨Name256.ofList (ascii "msg"), CELF_RODATA, ascii "hello", 5⟩]

/-- A container for symbol resolution: `"x"` in RODATA at offset 128, `"bad"`
with the unrecognised section id 7, and a second `"x"` in EXECD at offset 256. -/
def resolve_example : celf_file :=
  { celf_file.zero with
    entries := some ⟨100, [⟨CELF_RODATA, 128, Name256.ofList (ascii "x")⟩,
      ⟨7, 0, Name256.ofList (ascii "bad")⟩,
      ⟨CELF_EXECD, 256, Name256.ofList (ascii "x")⟩]⟩,
    nentries := 3,
    rodata := some ⟨4096, List.replicate 256 0⟩,
    rodata_size := 256,
    execd := some ⟨8192, List.replicate 384 0⟩,
    execd_size := 384 }

/-- Two RODATA records of one byte each: `"a"` with content `[1]` and `"b"` with
content `[2]`. -/
def two_rodata_records : List celf_entry_in :=
  [⟨Name256.ofList (ascii "a"), CELF_RODATA, [1], 1⟩,
   ⟨Name256.ofList (ascii "b"), CELF_RODATA, [2], 1⟩]

/-- One ZDATA record of length 1. -/
def zdata_records : List celf_entry_in :=
  [⟨Name256.ofList (ascii "z"), CELF_ZDATA, [], 1⟩]

/-- A RODATA record followed by a record with the unrecognised class 9. -/
def bad_class_records : List celf_entry_in :=
  [⟨Name256.ofList (ascii "a"), CELF_RODATA, [1], 1⟩,
   ⟨Name256.ofList (ascii "b"), 9, [2], 1⟩]

/-- Two UDATA records that each reserve `2 ^ 31` bytes. -/
def wrap_records : List celf_entry_in :=
  [⟨Name256.ofList (ascii "u"), CELF_UDATA, [], 2147483648⟩,
   ⟨Name256.ofList (ascii "v"), CELF_UDATA, [], 2147483648⟩]

/-- A wire image for the 32-bit build: one RODATA entry `"a"` at offset 0, a
RODATA section holding `"hello"`, the other sections empty; 24 + 261 + 5 = 290
bytes. -/
def rodata_image : List Byte :=
  [0, 0, 0, 1] ++ [0, 0, 0, 5] ++ List.replicate 16 0 ++ [0] ++ [0, 0, 0, 0]
    ++ (Name256.ofList (ascii "a")).val ++ ascii "hello"

/-- A wire image for the 32-bit build with one entry of the unrecognised
section id 9, offset `0x01020304` and a name field with bytes after its
terminator; RODATA holds `"hello"`, the declared UDATA and ZDATA sizes are 7
and 3; 24 + 261 + 5 = 290 bytes. -/
def odd_image : List Byte :=
  [0, 0, 0, 1] ++ [0, 0, 0, 5] ++ [0, 0, 0, 7] ++ [0, 0, 0, 3] ++ List.replicate 8 0
    ++ [9] ++ [1, 2, 3, 4] ++ (Name256.ofList (ascii "ab" ++ [0] ++ ascii "junk")).val
    ++ ascii "hello"

/-! ## Basic facts about `Run` and the memory primitives -/

@[simp] theorem pure_run {α : Type} (a : α) : (pure a : Run α) = ⟨[], .ok a⟩ := rfl

@[simp] theorem bind_ok {α β : Type} (l : List Event) (a : α) (f : α → Run β) :
    ((⟨l, .ok a⟩ : Run α) >>= f) = ⟨l ++ (f a).log, (f a).out⟩ := rfl

@[simp] theorem bind_fault {α β : Type} (l : List Event) (e : Fault) (f : α → Run β) :
    ((⟨l, .fault e⟩ : Run α) >>= f) = ⟨l, .fault e⟩ := rfl

theorem uint_size_cases (cfg : Config) : CELF_UINT_SIZE cfg = 4 ∨ CELF_UINT_SIZE cfg = 8 := by
  unfold CELF_UINT_SIZE; split_ifs <;> simp

theorem uint_size_pos (cfg : Config) : 0 < CELF_UINT_SIZE cfg := by
  rcases uint_size_cases cfg with h | h <;> omega

theorem filter_err_of_access (l : List Event) (h : ∀ e ∈ l, e.is_access = true) :
    l.filter Event.is_err = [] := by
  rw [List.filter_eq_nil_iff]
  intro e he
  have := h e he
  cases e <;> simp_all [Event.is_access, Event.is_err]

theorem filter_call_of_access (l : List Event) (h : ∀ e ∈ l, e.is_access = true) :
    l.filter Event.is_call = [] := by
  rw [List.filter_eq_nil_iff]
  intro e he
  have := h e he
  cases e <;> simp_all [Event.is_access, Event.is_call]

theorem filter_malloc_of_access (l : List Event) (h : ∀ e ∈ l, e.is_access = true) :
    l.filter Event.is_malloc = [] := by
  rw [List.filter_eq_nil_iff]
  intro e he
  have := h e he
  cases e <;> simp_all [Event.is_access, Event.is_malloc]

theorem read_log_access (off n : Nat) : ∀ e ∈ read_log off n, e.is_access = true := by
  intro e he
  unfold read_log at he
  split_ifs at he
  · simp at he
  · simp at he; subst he; rfl

theorem write_log_access (dst off n : Nat) : ∀ e ∈ write_log dst off n, e.is_access = true := by
  intro e he
  unfold write_log at he
  split_ifs at he
  · simp at he
  · simp at he; subst he; rfl

theorem entries_read_log_access (cfg : Config) (k pos : Nat) :
    ∀ e ∈ entries_read_log cfg k pos, e.is_access = true := by
  induction k generalizing pos with
  | zero => simp [entries_read_log]
  | succ k ih =>
    intro e he
    simp only [entries_read_log, List.mem_append, List.mem_cons, List.mem_singleton,
      List.not_mem_nil, or_false] at he
    rcases he with (rfl | rfl | rfl) | he
    · rfl
    · rfl
    · rfl
    · exact ih _ e he

theorem read_input_ok (bufin : List Byte) (off n : Nat) (h : n = 0 ∨ off + n ≤ bufin.length) :
    read_input bufin off n = ⟨read_log off n, .ok ((bufin.drop off).take n)⟩ := by
  unfold read_input read_log
  by_cases hn : n = 0
  · simp [hn]
  · have h2 : off + n ≤ bufin.length := by omega
    simp [hn, h2]

theorem read_input_fault (bufin : List Byte) (off n : Nat) (h : ¬ (n = 0 ∨ off + n ≤ bufin.length)) :
    read_input bufin off n = ⟨[], .fault .read_out_of_bounds⟩ := by
  unfold read_input
  have hn : n ≠ 0 := fun h0 => h (Or.inl h0)
  have h2 : ¬ off + n ≤ bufin.length := fun h0 => h (Or.inr h0)
  simp [hn, h2, fault]

theorem mem_write_full (b : Block) (data : List Byte) (h : data.length = b.bytes.length) :
    mem_write (some b) 0 data = ⟨write_log b.addr 0 data.length, .ok (some ⟨b.addr, data⟩)⟩ := by
  unfold mem_write write_log
  by_cases hn : data.length = 0
  · have hb : b.bytes = [] := List.length_eq_zero.mp (by omega)
    have hd : data = [] := List.length_eq_zero.mp hn
    obtain ⟨addr, bytes⟩ := b
    simp only at hb
    subst hb
    subst hd
    rfl
  · have hle : 0 + data.length ≤ b.bytes.length := by omega
    simp only [hn, if_false, hle, if_true]
    have hdrop : List.drop (0 + data.length) b.bytes = [] := by
      rw [Nat.zero_add, h]; exact List.drop_length b.bytes
    rw [hdrop]
    simp

theorem mem_write_at (addr : Nat) (pre old post data : List Byte) (h : data.length = old.length) :
    mem_write (some ⟨addr, pre ++ old ++ post⟩) pre.length data =
      ⟨write_log addr pre.length data.length, .ok (some ⟨addr, pre ++ data ++ post⟩)⟩ := by
  unfold mem_write write_log
  by_cases hn : data.length = 0
  · have hb : old = [] := List.length_eq_zero.mp (by omega)
    have hd : data = [] := List.length_eq_zero.mp hn
    simp [hb, hd]
  · have hle : pre.length + data.length ≤ (pre ++ old ++ post).length := by
      simp only [List.length_append]; omega
    have ht : (pre ++ old ++ post).take pre.length = pre := by
      rw [List.append_assoc]; exact List.take_left' rfl
    have hd : (pre ++ old ++ post).drop (pre.length + data.length) = post := by
      rw [h, ← List.length_append]; exact List.drop_left' rfl
    simp only [hn, if_false, hle, if_true, ht, hd]

theorem store_entry_at (addr : Nat) (pre post : List celf_entry) (c : celf_entry)
    (f : celf_entry → celf_entry) :
    store_entry (some ⟨addr, pre ++ c :: post⟩) pre.length f =
      ⟨[], .ok (some ⟨addr, pre ++ f c :: post⟩)⟩ := by
  have h : pre.length < (pre ++ c :: post).length := by simp
  have hget : (pre ++ c :: post).get ⟨pre.length, h⟩ = c := by
    simp [List.getElem_append_right]
  simp only [store_entry, h, dite_true, hget, pure_run]
  simp

theorem load_entry_get (arr : Option EntArr) (i : Nat) (e : celf_entry)
    (h : (ptr_cells arr).get? i = some e) : load_entry arr i = ⟨[], .ok e⟩ := by
  cases arr with
  | none => simp [ptr_cells] at h
  | some a =>
    simp only [ptr_cells] at h
    obtain ⟨hi, he⟩ := List.get?_eq_some.mp h
    simp [load_entry, hi, ← he]

/-! ## The entry loop of the deserializer -/

theorem bind_log_forall {α β : Type} (P : Event → Prop) (x : Run α) (f : α → Run β)
    (hx : ∀ e ∈ x.log, P e) (hf : ∀ a, ∀ e ∈ (f a).log, P e) :
    ∀ e ∈ (x >>= f).log, P e := by
  obtain ⟨l, o⟩ := x
  cases o with
  | ok a =>
    intro e he
    simp only [bind_ok, List.mem_append] at he
    rcases he with he | he
    · exact hx e he
    · exact hf a e he
  | fault e' =>
    intro e he
    simp only [bind_fault] at he
    exact hx e he

theorem read_input_log (bufin : List Byte) (off n : Nat) :
    ∀ e ∈ (read_input bufin off n).log, e.is_access = true := by
  by_cases h : n = 0 ∨ off + n ≤ bufin.length
  · rw [read_input_ok _ _ _ h]; exact read_log_access off n
  · rw [read_input_fault _ _ _ h]; simp

theorem store_entry_log (arr : Option EntArr) (i : Nat) (f : celf_entry → celf_entry) :
    (store_entry arr i f).log = [] := by
  unfold store_entry
  cases arr with
  | none => rfl
  | some a =>
    simp only
    split_ifs <;> rfl

theorem store_entry_len (a : EntArr) (i : Nat) (f : celf_entry → celf_entry)
    (h : i < a.cells.length) :
    ∃ a', store_entry (some a) i f = ⟨[], .ok (some a')⟩ ∧
      a'.cells.length = a.cells.length ∧ a'.addr = a.addr := by
  refine ⟨⟨a.addr, a.cells.set i (f (a.cells.get ⟨i, h⟩))⟩, ?_, by simp, rfl⟩
  simp [store_entry, h]

theorem store_entry_fault (a : EntArr) (i : Nat) (f : celf_entry → celf_entry)
    (h : ¬ i < a.cells.length) :
    store_entry (some a) i f = ⟨[], .fault .write_out_of_bounds⟩ := by
  simp [store_entry, h, fault]

theorem deserialize_entries_log (cfg : Config) (bufin : List Byte) (k i pos : Nat)
    (arr : Option EntArr) :
    ∀ e ∈ (deserialize_entries cfg bufin k i pos arr).log, e.is_access = true := by
  induction k generalizing i pos arr with
  | zero => simp [deserialize_entries]
  | succ k ih =>
    simp only [deserialize_entries]
    refine bind_log_forall _ _ _ (read_input_log _ _ _) (fun _ => ?_)
    refine bind_log_forall _ _ _ (by simp [store_entry_log]) (fun _ => ?_)
    refine bind_log_forall _ _ _ (read_input_log _ _ _) (fun _ => ?_)
    refine bind_log_forall _ _ _ (by simp [store_entry_log]) (fun _ => ?_)
    refine bind_log_forall _ _ _ (read_input_log _ _ _) (fun _ => ?_)
    refine bind_log_forall _ _ _ (by simp [store_entry_log]) (fun _ => ?_)
    exact ih _ _ _

theorem deserialize_entries_ok (cfg : Config) (bufin : List Byte) (k pos addr : Nat)
    (pre mid post : List celf_entry) (hmid : mid.length = k)
    (hp : pos + k * (1 + CELF_UINT_SIZE cfg + 256) ≤ bufin.length) :
    deserialize_entries cfg bufin k pre.length pos (some ⟨addr, pre ++ mid ++ post⟩) =
      ⟨entries_read_log cfg k pos, .ok (some ⟨addr, pre
        ++ (List.range k).map (fun j => entry_at cfg bufin (pos + j * (1 + CELF_UINT_SIZE cfg + 256)))
        ++ post⟩)⟩ := by
  induction k generalizing pos pre mid with
  | zero =>
    have : mid = [] := List.length_eq_zero.mp hmid
    simp [deserialize_entries, this, entries_read_log]
  | succ k ih =>
    have hW := uint_size_pos cfg
    have hmul : (k + 1) * (1 + CELF_UINT_SIZE cfg + 256) =
        k * (1 + CELF_UINT_SIZE cfg + 256) + (1 + CELF_UINT_SIZE cfg + 256) := by ring
    obtain ⟨c, mid', rfl⟩ : ∃ c mid', mid = c :: mid' := by
      cases mid with
      | nil => simp at hmid
      | cons c m => exact ⟨c, m, rfl⟩
    have hrun := ih (pos + 1 + CELF_UINT_SIZE cfg + 256)
      (pre ++ [entry_at cfg bufin pos]) mid' (by simpa using hmid) (by omega)
    simp only [deserialize_entries]
    rw [read_input_ok bufin pos 1 (by omega)]
    simp only [bind_ok, List.append_assoc, List.cons_append]
    rw [store_entry_at]
    simp only [bind_ok]
    rw [read_input_ok bufin (pos + 1) _ (by omega)]
    simp only [bind_ok]
    rw [store_entry_at]
    simp only [bind_ok]
    rw [read_input_ok bufin (pos + 1 + CELF_UINT_SIZE cfg) 256 (by omega)]
    simp only [bind_ok]
    rw [store_entry_at]
    simp only [bind_ok]
    have hlen : (pre ++ [entry_at cfg bufin pos]).length = pre.length + 1 := by simp
    rw [hlen] at hrun
    simp only [List.append_assoc, List.singleton_append, List.cons_append, List.nil_append] at hrun
    simp only [entry_at] at hrun
    rw [hrun]
    have hmap : (List.range (k + 1)).map
          (fun j => entry_at cfg bufin (pos + j * (1 + CELF_UINT_SIZE cfg + 256))) =
        entry_at cfg bufin pos :: (List.range k).map (fun j =>
          entry_at cfg bufin (pos + 1 + CELF_UINT_SIZE cfg + 256
            + j * (1 + CELF_UINT_SIZE cfg + 256))) := by
      rw [List.range_succ_eq_map, List.map_cons, List.map_map]
      refine congrArg₂ _ (by simp) (List.map_congr_left ?_)
      intro j _
      simp only [Function.comp, Nat.succ_eq_add_one]
      congr 1
      ring
    rw [hmap]
    have hr : ∀ n, read_log pos 1 ++ ([] ++ (read_log (pos + 1) (CELF_UINT_SIZE cfg) ++ ([] ++
        (read_log (pos + 1 + CELF_UINT_SIZE cfg) 256 ++ ([] ++ entries_read_log cfg n
          (pos + 1 + CELF_UINT_SIZE cfg + 256)))))) = entries_read_log cfg (n + 1) pos := by
      intro n
      have h1 : read_log pos 1 = [.read pos 1] := by simp [read_log]
      have h2 : read_log (pos + 1) (CELF_UINT_SIZE cfg) = [.read (pos + 1) (CELF_UINT_SIZE cfg)] := by
        simp [read_log]; omega
      have h3 : read_log (pos + 1 + CELF_UINT_SIZE cfg) 256
          = [.read (pos + 1 + CELF_UINT_SIZE cfg) 256] := by simp [read_log]
      rw [h1, h2, h3]
      simp [entries_read_log]
    rw [hr]
    simp only [List.nil_append, List.append_assoc, List.cons_append, List.singleton_append,
      entry_at]

theorem deserialize_entries_fault (cfg : Config) (bufin : List Byte) (k i pos : Nat) (arr : EntArr)
    (h : ¬ (k = 0 ∨ (i + k ≤ arr.cells.length ∧
      pos + k * (1 + CELF_UINT_SIZE cfg + 256) ≤ bufin.length))) :
    ∃ e, (deserialize_entries cfg bufin k i pos (some arr)).out = .fault e := by
  induction k generalizing i pos arr with
  | zero => simp at h
  | succ k ih =>
    have hW := uint_size_pos cfg
    have hmul : (k + 1) * (1 + CELF_UINT_SIZE cfg + 256) =
        k * (1 + CELF_UINT_SIZE cfg + 256) + (1 + CELF_UINT_SIZE cfg + 256) := by ring
    simp only [deserialize_entries]
    by_cases hr1 : pos + 1 ≤ bufin.length
    swap
    · rw [read_input_fault bufin pos 1 (by omega)]; exact ⟨_, rfl⟩
    rw [read_input_ok bufin pos 1 (by omega)]
    simp only [bind_ok]
    by_cases hi : i < arr.cells.length
    swap
    · rw [store_entry_fault arr i _ hi]; exact ⟨_, rfl⟩
    obtain ⟨a1, hs1, hl1, _⟩ := store_entry_len arr i
      (fun e => { e with entry_section := (List.take 1 (List.drop pos bufin)).headD 0 }) hi
    rw [hs1]
    simp only [bind_ok]
    by_cases hr2 : pos + 1 + CELF_UINT_SIZE cfg ≤ bufin.length
    swap
    · rw [read_input_fault bufin (pos + 1) _ (by omega)]; exact ⟨_, rfl⟩
    rw [read_input_ok bufin (pos + 1) _ (by omega)]
    simp only [bind_ok]
    obtain ⟨a2, hs2, hl2, _⟩ := store_entry_len a1 i
      (fun e => { e with entry_offset := (celf_parse_uint cfg
        (List.take (CELF_UINT_SIZE cfg) (List.drop (pos + 1) bufin))) }) (by omega)
    rw [hs2]
    simp only [bind_ok]
    by_cases hr3 : pos + 1 + CELF_UINT_SIZE cfg + 256 ≤ bufin.length
    swap
    · rw [read_input_fault bufin (pos + 1 + CELF_UINT_SIZE cfg) 256 (by omega)]; exact ⟨_, rfl⟩
    rw [read_input_ok bufin (pos + 1 + CELF_UINT_SIZE cfg) 256 (by omega)]
    simp only [bind_ok]
    obtain ⟨a3, hs3, hl3, _⟩ := store_entry_len a2 i
      (fun e => { e with entry_name := (Name256.ofList
        (List.take 256 (List.drop (pos + 1 + CELF_UINT_SIZE cfg) bufin))) }) (by omega)
    rw [hs3]
    simp only [bind_ok]
    exact ih (i + 1) (pos + 1 + CELF_UINT_SIZE cfg + 256) a3 (by
      intro hc
      apply h
      right
      rcases hc with rfl | ⟨hc1, hc2⟩
      · constructor <;> omega
      · constructor <;> omega)


/-! ## Every execution of the deserializer -/

theorem malloc_entries_none (cfg : Config) (env : Env) (k sz : Nat) (h : env.malloc k sz = none) :
    celf_malloc_entries cfg env k sz = ⟨[.malloc sz 0], .ok none⟩ := by
  simp [celf_malloc_entries, h]

theorem malloc_entries_some (cfg : Config) (env : Env) (k sz a : Nat) (h : env.malloc k sz = some a) :
    celf_malloc_entries cfg env k sz =
      ⟨[.malloc sz a], .ok (some ⟨a, (List.range (sz / cfg.sizeof_entry)).map (env.fresh_entry k)⟩)⟩ := by
  simp [celf_malloc_entries, h]

theorem malloc_none (env : Env) (k sz : Nat) (h : env.malloc k sz = none) :
    celf_malloc env k sz = ⟨[.malloc sz 0], .ok none⟩ := by
  simp [celf_malloc, h]

theorem malloc_some (env : Env) (k sz a : Nat) (h : env.malloc k sz = some a) :
    celf_malloc env k sz = ⟨[.malloc sz a], .ok (some ⟨a, (List.range sz).map (env.fresh k)⟩)⟩ := by
  simp [celf_malloc, h]

theorem header_field_zero (cfg : Config) (bufin : List Byte) :
    celf_parse_uint cfg (List.take (CELF_UINT_SIZE cfg) (List.drop 0 bufin)) = header_field cfg bufin 0 := by
  simp [header_field]

theorem header_field_one (cfg : Config) (bufin : List Byte) :
    celf_parse_uint cfg (List.take (CELF_UINT_SIZE cfg) (List.drop (CELF_UINT_SIZE cfg) bufin))
      = header_field cfg bufin 1 := by
  simp [header_field]

theorem header_field_mul (cfg : Config) (bufin : List Byte) (k : Nat) :
    celf_parse_uint cfg (List.take (CELF_UINT_SIZE cfg) (List.drop (k * CELF_UINT_SIZE cfg) bufin))
      = header_field cfg bufin k := rfl

theorem option_cases (o : Option Nat) : o = none ∨ ∃ a, o = some a := by
  cases o with
  | none => exact Or.inl rfl
  | some a => exact Or.inr ⟨a, rfl⟩

theorem header_cap_le (cfg : Config) (bufin : List Byte) :
    header_entries_size cfg bufin / cfg.sizeof_entry ≤ header_field cfg bufin 0 := by
  unfold header_entries_size Config.wrap
  rcases Nat.eq_zero_or_pos cfg.sizeof_entry with h | h
  · simp [h]
  · calc cfg.sizeof_entry * header_field cfg bufin 0 % 2 ^ cfg.size_bits / cfg.sizeof_entry
        ≤ cfg.sizeof_entry * header_field cfg bufin 0 / cfg.sizeof_entry :=
          Nat.div_le_div_right (Nat.mod_le _ _)
      _ = header_field cfg bufin 0 := Nat.mul_div_cancel_left _ h

theorem take_drop_length (bufin : List Byte) (off n : Nat) (h : n = 0 ∨ off + n ≤ bufin.length) :
    ((bufin.drop off).take n).length = n := by
  rw [List.length_take, List.length_drop]
  omega

theorem filter_err_read_log (off n : Nat) : (read_log off n).filter Event.is_err = [] :=
  filter_err_of_access _ (read_log_access off n)

theorem filter_call_read_log (off n : Nat) : (read_log off n).filter Event.is_call = [] :=
  filter_call_of_access _ (read_log_access off n)

theorem filter_err_write_log (dst off n : Nat) :
    (write_log dst off n).filter Event.is_err = [] :=
  filter_err_of_access _ (write_log_access dst off n)

theorem filter_call_write_log (dst off n : Nat) :
    (write_log dst off n).filter Event.is_call = [] :=
  filter_call_of_access _ (write_log_access dst off n)

theorem filter_err_entries_log (cfg : Config) (k pos : Nat) :
    (entries_read_log cfg k pos).filter Event.is_err = [] :=
  filter_err_of_access _ (entries_read_log_access cfg k pos)

theorem filter_call_entries_log (cfg : Config) (k pos : Nat) :
    (entries_read_log cfg k pos).filter Event.is_call = [] :=
  filter_call_of_access _ (entries_read_log_access cfg k pos)

theorem in_bounds_elim (cfg : Config) (bufin : List Byte) (h : deserialize_in_bounds cfg bufin) :
    6 * CELF_UINT_SIZE cfg ≤ bufin.length ∧
    header_field cfg bufin 0 ≤ header_entries_size cfg bufin / cfg.sizeof_entry ∧
    6 * CELF_UINT_SIZE cfg + header_field cfg bufin 0 * (1 + CELF_UINT_SIZE cfg + 256)
      ≤ bufin.length ∧
    payload_offset cfg bufin + header_field cfg bufin 1 ≤ bufin.length ∧
    payload_offset cfg bufin + header_field cfg bufin 1 + header_field cfg bufin 4
      ≤ bufin.length ∧
    payload_offset cfg bufin + header_field cfg bufin 1 + header_field cfg bufin 4
      + header_field cfg bufin 5 ≤ bufin.length := by
  obtain ⟨h1, h2⟩ := h
  have hpo : payload_offset cfg bufin = 6 * CELF_UINT_SIZE cfg
      + header_field cfg bufin 0 * (1 + CELF_UINT_SIZE cfg + 256) := rfl
  refine ⟨?_, h1, ?_, ?_, ?_, h2⟩ <;> omega

set_option maxHeartbeats 4000000 in
theorem deserialize_run_aux (cfg : Config) (env : Env) (bufin : List Byte) (bufsz : Nat)
    (r : Run celf_file) (hr : r = celf_deserialize cfg env bufin bufsz) :
    (∃ e, r.out = .fault e ∧ r.errs = [] ∧ r.calls = [] ∧ ¬ deserialize_in_bounds cfg bufin) ∨
    (r.out = .ok celf_file.zero ∧ r.errs = [.err fail_err_msg] ∧ r.calls = [] ∧ r.mallocs = [] ∧
      (bufsz < 6 * CELF_UINT_SIZE cfg ∨
        (header_field cfg bufin 0 ≠ 0 ∧ header_size_needed cfg bufin < bufsz))) ∨
    (6 * CELF_UINT_SIZE cfg ≤ bufsz ∧ header_field cfg bufin 0 = 0 ∧
      r = ⟨[.read 0 (CELF_UINT_SIZE cfg)], .ok celf_file.zero⟩) ∨
    (6 * CELF_UINT_SIZE cfg ≤ bufsz ∧ header_field cfg bufin 0 ≠ 0 ∧
      ¬ header_size_needed cfg bufin < bufsz ∧
      r.errs = [.err deserialize_malloc_fail_err_msg] ∧ r.calls = [] ∧
      ¬ deserialize_allocs_ok cfg env bufin ∧
      ∃ f, r.out = .ok f ∧
        ((env.malloc 0 (header_entries_size cfg bufin) = none ∧ f = celf_file.zero) ∨
         ((env.malloc 0 (header_entries_size cfg bufin)).isSome ∧ f.entries.isSome ∧
           f.nentries = header_field cfg bufin 0 ∧ f.execd = none))) ∨
    (6 * CELF_UINT_SIZE cfg ≤ bufsz ∧ header_field cfg bufin 0 ≠ 0 ∧
      ¬ header_size_needed cfg bufin < bufsz ∧
      r.errs = [] ∧
      r.calls =
        [.link (loaded_container cfg env bufin),
         .make_exec (ptr_addr (env.link (loaded_container cfg env bufin)).execd)
           (header_field cfg bufin 5),
         .make_ro (ptr_addr (env.link (loaded_container cfg env bufin)).rodata)
           (header_field cfg bufin 1)] ∧
      r.out = .ok (env.link (loaded_container cfg env bufin)) ∧
      deserialize_allocs_ok cfg env bufin ∧ deserialize_in_bounds cfg bufin) := by
  have hW := uint_size_pos cfg
  have hflt : ∀ (_ : ¬ deserialize_in_bounds cfg bufin) (l : List Event) (e : Fault), r = ⟨l, .fault e⟩ →
      l.filter Event.is_err = [] → l.filter Event.is_call = [] →
      ∃ e, r.out = .fault e ∧ r.errs = [] ∧ r.calls = [] ∧ ¬ deserialize_in_bounds cfg bufin := by
    intro hnb l e h he hc
    subst h
    exact ⟨e, rfl, he, hc, hnb⟩
  by_cases h1 : bufsz < 6 * CELF_UINT_SIZE cfg
  · right; left
    subst hr
    simp [celf_deserialize, h1, celf_err, emit, Run.errs, Run.calls, Run.mallocs, Event.is_err,
      Event.is_call, Event.is_malloc]
  have h1' : 6 * CELF_UINT_SIZE cfg ≤ bufsz := by omega
  unfold celf_deserialize at hr
  simp only [h1, if_false] at hr
  by_cases hr0 : CELF_UINT_SIZE cfg ≤ bufin.length
  swap
  · left
    rw [read_input_fault bufin 0 _ (by omega)] at hr
    exact hflt (fun hb => by have := in_bounds_elim cfg bufin hb; omega) _ _ hr rfl rfl
  rw [read_input_ok bufin 0 _ (by omega)] at hr
  simp only [bind_ok, header_field_zero] at hr
  have hrl : ∀ off, read_log off (CELF_UINT_SIZE cfg) = [.read off (CELF_UINT_SIZE cfg)] := by
    intro off; simp [read_log]; omega
  by_cases hn : header_field cfg bufin 0 = 0
  · right; right; left
    simp only [hn, if_true, hrl, pure_run, List.append_nil] at hr
    exact ⟨h1', hn, hr⟩
  simp only [hn, if_false] at hr
  have hsn : cfg.wrap (header_field cfg bufin 1 + header_field cfg bufin 4 + header_field cfg bufin 5
      + header_field cfg bufin 0 * (256 + 1 + CELF_UINT_SIZE cfg) + 6 * CELF_UINT_SIZE cfg)
      = header_size_needed cfg bufin := rfl
  have hes : cfg.wrap (cfg.sizeof_entry * header_field cfg bufin 0)
      = header_entries_size cfg bufin := rfl
  by_cases hr1 : 2 * CELF_UINT_SIZE cfg ≤ bufin.length
  swap
  · left
    rw [read_input_fault bufin (CELF_UINT_SIZE cfg) _ (by omega)] at hr
    exact hflt (fun hb => by have := in_bounds_elim cfg bufin hb; omega) _ _ hr (by simp [hrl, Event.is_err]) (by simp [hrl, Event.is_call])
  rw [read_input_ok bufin (CELF_UINT_SIZE cfg) _ (by omega)] at hr
  simp only [bind_ok, header_field_one] at hr
  by_cases hr2 : 3 * CELF_UINT_SIZE cfg ≤ bufin.length
  swap
  · left
    rw [read_input_fault bufin (2 * CELF_UINT_SIZE cfg) _ (by omega)] at hr
    exact hflt (fun hb => by have := in_bounds_elim cfg bufin hb; omega) _ _ hr (by simp [hrl, Event.is_err]) (by simp [hrl, Event.is_call])
  rw [read_input_ok bufin (2 * CELF_UINT_SIZE cfg) _ (by omega)] at hr
  simp only [bind_ok, header_field_mul] at hr
  by_cases hr3 : 4 * CELF_UINT_SIZE cfg ≤ bufin.length
  swap
  · left
    rw [read_input_fault bufin (3 * CELF_UINT_SIZE cfg) _ (by omega)] at hr
    exact hflt (fun hb => by have := in_bounds_elim cfg bufin hb; omega) _ _ hr (by simp [hrl, Event.is_err]) (by simp [hrl, Event.is_call])
  rw [read_input_ok bufin (3 * CELF_UINT_SIZE cfg) _ (by omega)] at hr
  simp only [bind_ok, header_field_mul] at hr
  by_cases hr4 : 5 * CELF_UINT_SIZE cfg ≤ bufin.length
  swap
  · left
    rw [read_input_fault bufin (4 * CELF_UINT_SIZE cfg) _ (by omega)] at hr
    exact hflt (fun hb => by have := in_bounds_elim cfg bufin hb; omega) _ _ hr (by simp [hrl, Event.is_err]) (by simp [hrl, Event.is_call])
  rw [read_input_ok bufin (4 * CELF_UINT_SIZE cfg) _ (by omega)] at hr
  simp only [bind_ok, header_field_mul] at hr
  by_cases hr5 : 6 * CELF_UINT_SIZE cfg ≤ bufin.length
  swap
  · left
    rw [read_input_fault bufin (5 * CELF_UINT_SIZE cfg) _ (by omega)] at hr
    exact hflt (fun hb => by have := in_bounds_elim cfg bufin hb; omega) _ _ hr (by simp [hrl, Event.is_err]) (by simp [hrl, Event.is_call])
  rw [read_input_ok bufin (5 * CELF_UINT_SIZE cfg) _ (by omega)] at hr
  simp only [bind_ok, header_field_mul, hsn, hes, hrl] at hr
  by_cases hsz : header_size_needed cfg bufin < bufsz
  · right; left
    simp only [hsz, if_true, celf_err, emit, bind_ok, pure_run] at hr
    subst hr
    refine ⟨rfl, ?_, ?_, ?_, Or.inr ⟨hn, hsz⟩⟩
    · simp [Run.errs, Event.is_err]
    · simp [Run.calls, Event.is_call]
    · simp [Run.mallocs, Event.is_malloc]
  simp only [hsz, if_false] at hr
  rcases option_cases (env.malloc 0 (header_entries_size cfg bufin)) with hm0 | ⟨a0, hm0⟩
  · right; right; right; left
    rw [malloc_entries_none cfg env 0 _ hm0] at hr
    simp only [bind_ok, Option.isNone_none, if_true, celf_err, emit, pure_run] at hr
    subst hr
    refine ⟨h1', hn, hsz, ?_, ?_, ?_, celf_file.zero, ?_, Or.inl ⟨hm0, rfl⟩⟩
    · simp [Run.errs, Event.is_err]
    · simp [Run.calls, Event.is_call]
    · intro ha
      have := ha.1
      simp [hm0] at this
    · simp [celf_file.zero]
  · rw [malloc_entries_some cfg env 0 _ a0 hm0] at hr
    simp only [bind_ok, Option.isNone_some, Bool.false_eq_true, if_false] at hr
    have hcap := header_cap_le cfg bufin
    have hel := deserialize_entries_log cfg bufin (header_field cfg bufin 0) 0
      (6 * CELF_UINT_SIZE cfg) (some ⟨a0, List.map (env.fresh_entry 0)
        (List.range (header_entries_size cfg bufin / cfg.sizeof_entry))⟩)
    by_cases hloop : header_field cfg bufin 0 ≤ header_entries_size cfg bufin / cfg.sizeof_entry ∧
      6 * CELF_UINT_SIZE cfg + header_field cfg bufin 0 * (1 + CELF_UINT_SIZE cfg + 256)
        ≤ bufin.length
    swap
    · left
      obtain ⟨e, he⟩ := deserialize_entries_fault cfg bufin (header_field cfg bufin 0) 0
        (6 * CELF_UINT_SIZE cfg) ⟨a0, List.map (env.fresh_entry 0)
          (List.range (header_entries_size cfg bufin / cfg.sizeof_entry))⟩
        (by simp only [List.length_map, List.length_range, Nat.zero_add]; tauto)
      rcases hL : deserialize_entries cfg bufin (header_field cfg bufin 0) 0
        (6 * CELF_UINT_SIZE cfg) (some ⟨a0, List.map (env.fresh_entry 0)
          (List.range (header_entries_size cfg bufin / cfg.sizeof_entry))⟩) with ⟨llog, lout⟩
      rw [hL] at hr he hel
      simp only at he hel
      subst he
      simp only [bind_fault] at hr
      exact hflt (fun hb => by have := in_bounds_elim cfg bufin hb; omega) _ _ hr
        (by simp [Event.is_err, filter_err_of_access _ hel])
        (by simp [Event.is_call, filter_call_of_access _ hel])
    have hcapn : header_entries_size cfg bufin / cfg.sizeof_entry = header_field cfg bufin 0 := by
      omega
    have hok := deserialize_entries_ok cfg bufin (header_field cfg bufin 0)
      (6 * CELF_UINT_SIZE cfg) a0 [] (List.map (env.fresh_entry 0)
        (List.range (header_entries_size cfg bufin / cfg.sizeof_entry))) []
      (by simp [hcapn]) hloop.2
    simp only [List.nil_append, List.append_nil, List.length_nil] at hok
    rw [hok] at hr
    simp only [bind_ok] at hr
    have herr : ∀ (_ : ¬ deserialize_allocs_ok cfg env bufin) (l : List Event) (f : celf_file),
        r = ⟨l ++ [.err deserialize_malloc_fail_err_msg], .ok f⟩ →
        l.filter Event.is_err = [] → l.filter Event.is_call = [] →
        f.entries.isSome → f.nentries = header_field cfg bufin 0 → f.execd = none →
        6 * CELF_UINT_SIZE cfg ≤ bufsz ∧ header_field cfg bufin 0 ≠ 0 ∧
          ¬ header_size_needed cfg bufin < bufsz ∧
          r.errs = [.err deserialize_malloc_fail_err_msg] ∧ r.calls = [] ∧
          ¬ deserialize_allocs_ok cfg env bufin ∧
          ∃ f, r.out = .ok f ∧
            ((env.malloc 0 (header_entries_size cfg bufin) = none ∧ f = celf_file.zero) ∨
             ((env.malloc 0 (header_entries_size cfg bufin)).isSome ∧ f.entries.isSome ∧
               f.nentries = header_field cfg bufin 0 ∧ f.execd = none)) := by
      intro hna l f h he hc h1 h2 h3
      subst h
      refine ⟨h1', hn, hsz, ?_, ?_, hna, f, rfl, Or.inr ⟨by simp [hm0], h1, h2, h3⟩⟩
      · simp [Run.errs, he, Event.is_err]
      · simp [Run.calls, hc, Event.is_call]
    -- RODATA allocation
    rcases option_cases (env.malloc 1 (header_field cfg bufin 1)) with hm1 | ⟨a1, hm1⟩
    · right; right; right; left
      rw [malloc_none env 1 _ hm1] at hr
      simp only [bind_ok, Option.isNone_none, if_true, celf_err, emit, pure_run,
        List.append_nil, ← List.append_assoc] at hr
      exact herr (fun ha => by have := ha.2.1; simp [hm1] at this) _ _ hr
        (by simp [Event.is_err, filter_err_entries_log])
        (by simp [Event.is_call, filter_call_entries_log]) rfl rfl rfl
    rw [malloc_some env 1 _ a1 hm1] at hr
    simp only [bind_ok, Option.isNone_some, Bool.false_eq_true, if_false] at hr
    -- UDATA allocation
    rcases option_cases (env.malloc 2 (header_field cfg bufin 2)) with hm2 | ⟨a2, hm2⟩
    · right; right; right; left
      rw [malloc_none env 2 _ hm2] at hr
      simp only [bind_ok, Option.isNone_none, if_true, celf_err, emit, pure_run,
        List.append_nil, ← List.append_assoc] at hr
      exact herr (fun ha => by have := ha.2.2.1; simp [hm2] at this) _ _ hr
        (by simp [Event.is_err, filter_err_entries_log])
        (by simp [Event.is_call, filter_call_entries_log]) rfl rfl rfl
    rw [malloc_some env 2 _ a2 hm2] at hr
    simp only [bind_ok, Option.isNone_some, Bool.false_eq_true, if_false] at hr
    -- IDATA allocation
    rcases option_cases (env.malloc 3 (header_field cfg bufin 4)) with hm3 | ⟨a3, hm3⟩
    · right; right; right; left
      rw [malloc_none env 3 _ hm3] at hr
      simp only [bind_ok, Option.isNone_none, if_true, celf_err, emit, pure_run,
        List.append_nil, ← List.append_assoc] at hr
      exact herr (fun ha => by have := ha.2.2.2.1; simp [hm3] at this) _ _ hr
        (by simp [Event.is_err, filter_err_entries_log])
        (by simp [Event.is_call, filter_call_entries_log]) rfl rfl rfl
    rw [malloc_some env 3 _ a3 hm3] at hr
    simp only [bind_ok, Option.isNone_some, Bool.false_eq_true, if_false] at hr
    -- ZDATA allocation
    rcases option_cases (env.malloc 4 (header_field cfg bufin 3)) with hm4 | ⟨a4, hm4⟩
    · right; right; right; left
      rw [malloc_none env 4 _ hm4] at hr
      simp only [bind_ok, Option.isNone_none, if_true, celf_err, emit, pure_run,
        List.append_nil, ← List.append_assoc] at hr
      exact herr (fun ha => by have := ha.2.2.2.2.1; simp [hm4] at this) _ _ hr
        (by simp [Event.is_err, filter_err_entries_log])
        (by simp [Event.is_call, filter_call_entries_log]) rfl rfl rfl
    rw [malloc_some env 4 _ a4 hm4] at hr
    simp only [bind_ok, Option.isNone_some, Bool.false_eq_true, if_false] at hr
    -- EXECD allocation
    rcases option_cases (env.malloc 5 (header_field cfg bufin 5)) with hm5 | ⟨a5, hm5⟩
    · right; right; right; left
      rw [malloc_none env 5 _ hm5] at hr
      simp only [bind_ok, Option.isNone_none, if_true, celf_err, emit, pure_run,
        List.append_nil, ← List.append_assoc] at hr
      exact herr (fun ha => by have := ha.2.2.2.2.2; simp [hm5] at this) _ _ hr
        (by simp [Event.is_err, filter_err_entries_log])
        (by simp [Event.is_call, filter_call_entries_log]) rfl rfl rfl
    rw [malloc_some env 5 _ a5 hm5] at hr
    simp only [bind_ok, Option.isNone_some, Bool.false_eq_true, if_false] at hr
    -- zero-fill of ZDATA
    have hz := mem_write_full ⟨a4, (List.range (header_field cfg bufin 3)).map (env.fresh 4)⟩
      (List.replicate (header_field cfg bufin 3) 0) (by simp)
    simp only [celf_memset, copy_input] at hr
    rw [hz] at hr
    simp only [bind_ok] at hr
    have hpo : 6 * CELF_UINT_SIZE cfg + header_field cfg bufin 0 * (1 + CELF_UINT_SIZE cfg + 256)
        = payload_offset cfg bufin := rfl
    simp only [hpo] at hr
    -- copy of RODATA
    by_cases hc1 : header_field cfg bufin 1 = 0 ∨
        payload_offset cfg bufin + header_field cfg bufin 1 ≤ bufin.length
    swap
    · left
      rw [read_input_fault bufin _ _ hc1] at hr
      simp only [bind_fault] at hr
      exact hflt (fun hb => by have := in_bounds_elim cfg bufin hb; omega) _ _ hr
        (by simp [Event.is_err, filter_err_entries_log, filter_err_write_log, filter_err_read_log])
        (by simp [Event.is_call, filter_call_entries_log, filter_call_write_log,
          filter_call_read_log])
    rw [read_input_ok bufin _ _ hc1] at hr
    simp only [bind_ok] at hr
    rw [mem_write_full ⟨a1, _⟩ _ (by simp [take_drop_length _ _ _ hc1])] at hr
    simp only [bind_ok] at hr
    -- copy of IDATA
    by_cases hc4 : header_field cfg bufin 4 = 0 ∨
        payload_offset cfg bufin + header_field cfg bufin 1 + header_field cfg bufin 4 ≤ bufin.length
    swap
    · left
      rw [read_input_fault bufin _ _ hc4] at hr
      simp only [bind_fault] at hr
      exact hflt (fun hb => by have := in_bounds_elim cfg bufin hb; omega) _ _ hr
        (by simp [Event.is_err, filter_err_entries_log, filter_err_write_log, filter_err_read_log])
        (by simp [Event.is_call, filter_call_entries_log, filter_call_write_log,
          filter_call_read_log])
    rw [read_input_ok bufin _ _ hc4] at hr
    simp only [bind_ok] at hr
    rw [mem_write_full ⟨a3, _⟩ _ (by simp [take_drop_length _ _ _ hc4])] at hr
    simp only [bind_ok] at hr
    -- copy of EXECD
    by_cases hc5 : header_field cfg bufin 5 = 0 ∨
        payload_offset cfg bufin + header_field cfg bufin 1 + header_field cfg bufin 4 + header_field cfg bufin 5 ≤ bufin.length
    swap
    · left
      rw [read_input_fault bufin _ _ hc5] at hr
      simp only [bind_fault] at hr
      exact hflt (fun hb => by have := in_bounds_elim cfg bufin hb; omega) _ _ hr
        (by simp [Event.is_err, filter_err_entries_log, filter_err_write_log, filter_err_read_log])
        (by simp [Event.is_call, filter_call_entries_log, filter_call_write_log,
          filter_call_read_log])
    rw [read_input_ok bufin _ _ hc5] at hr
    simp only [bind_ok] at hr
    rw [mem_write_full ⟨a5, _⟩ _ (by simp [take_drop_length _ _ _ hc5])] at hr
    simp only [bind_ok] at hr
    simp only [emit, bind_ok, pure_run, List.append_nil] at hr
    have hc : ({
        entries := some ⟨a0, (List.range (header_field cfg bufin 0)).map (fun j =>
          entry_at cfg bufin (6 * CELF_UINT_SIZE cfg + j * (1 + CELF_UINT_SIZE cfg + 256)))⟩,
        nentries := header_field cfg bufin 0,
        rodata := some ⟨a1, (bufin.drop (payload_offset cfg bufin)).take
          (header_field cfg bufin 1)⟩,
        rodata_size := header_field cfg bufin 1,
        udata := some ⟨a2, (List.range (header_field cfg bufin 2)).map (env.fresh 2)⟩,
        udata_size := header_field cfg bufin 2,
        zdata := some ⟨a4, List.replicate (header_field cfg bufin 3) 0⟩,
        zdata_size := header_field cfg bufin 3,
        idata := some ⟨a3, (bufin.drop (payload_offset cfg bufin + header_field cfg bufin 1)).take
          (header_field cfg bufin 4)⟩,
        idata_size := header_field cfg bufin 4,
        execd := some ⟨a5, (bufin.drop (payload_offset cfg bufin + header_field cfg bufin 1
          + header_field cfg bufin 4)).take (header_field cfg bufin 5)⟩,
        execd_size := header_field cfg bufin 5 } : celf_file)
        = loaded_container cfg env bufin := by
      unfold loaded_container
      rw [hm0, hm1, hm2, hm3, hm4, hm5]
      rfl
    rw [hc] at hr
    right; right; right; right
    subst hr
    have hpo' : payload_offset cfg bufin = 6 * CELF_UINT_SIZE cfg
        + header_field cfg bufin 0 * (1 + CELF_UINT_SIZE cfg + 256) := rfl
    refine ⟨h1', hn, hsz, ?_, ?_, rfl,
      ⟨by simp [hm0], by simp [hm1], by simp [hm2], by simp [hm3], by simp [hm4], by simp [hm5]⟩,
      ⟨hloop.1, by omega⟩⟩
    · simp [Run.errs, Event.is_err, filter_err_entries_log, filter_err_write_log,
        filter_err_read_log]
    · simp [Run.calls, Event.is_call, filter_call_entries_log, filter_call_write_log,
        filter_call_read_log]


/-! ## The serializer -/

theorem bind_out {α β : Type} (x : Run α) (f : α → Run β) (a : α) (h : x.out = .ok a) :
    (x >>= f).out = (f a).out := by
  obtain ⟨l, o⟩ := x
  simp only at h
  subst h
  rfl

theorem mem_write_step (addr r : Nat) (done rest data : List Byte) (hr : r = done.length)
    (hlen : data.length ≤ rest.length) :
    (mem_write (some ⟨addr, done ++ rest⟩) r data).out =
      .ok (some ⟨addr, done ++ data ++ rest.drop data.length⟩) := by
  subst hr
  have h := mem_write_at addr done (rest.take data.length) (rest.drop data.length) data
    (by rw [List.length_take]; omega)
  rw [List.append_assoc, List.take_append_drop] at h
  rw [h]

theorem to_byte_shift (v k : Nat) : to_byte (v >>> (8 * k)) = to_byte (v / 256 ^ k) := by
  rw [Nat.shiftRight_eq_div_pow, Nat.pow_mul]

theorem write_uint_eq (cfg : Config) (v : Nat) :
    celf_write_uint cfg v = be_bytes (CELF_UINT_SIZE cfg) v := by
  have h7 := to_byte_shift v 7
  have h6 := to_byte_shift v 6
  have h5 := to_byte_shift v 5
  have h4 := to_byte_shift v 4
  have h3 := to_byte_shift v 3
  have h2 := to_byte_shift v 2
  have h1 := to_byte_shift v 1
  norm_num at h1 h2 h3 h4 h5 h6 h7
  unfold celf_write_uint CELF_UINT_SIZE
  cases cfg.CELF_64 <;> simp [be_bytes, h1, h2, h3, h4, h5, h6, h7]

theorem be_bytes_length (w v : Nat) : (be_bytes w v).length = w := by
  induction w with
  | zero => rfl
  | succ w ih => simp [be_bytes, ih]

theorem wire_entry_length (cfg : Config) (e : celf_entry) :
    (wire_entry cfg e).length = 1 + CELF_UINT_SIZE cfg + 256 := by
  simp only [wire_entry, List.length_append, List.length_singleton, be_bytes_length,
    e.entry_name.property]

theorem load_full (src : List Byte) (n : Nat) (h : src.length = n) :
    (load src 0 n).out = .ok src := by
  unfold load
  by_cases hn : n = 0
  · have : src = [] := List.length_eq_zero.mp (by omega)
    simp [hn, this]
  · have hle : 0 + n ≤ src.length := by omega
    simp only [hn, if_false, hle, if_true, pure_run, List.drop_zero]
    rw [List.take_of_length_le (by omega)]

theorem memcpy_step (addr r : Nat) (done rest src : List Byte) (n : Nat) (hn : src.length = n)
    (hr : r = done.length) (hlen : n ≤ rest.length) :
    (celf_memcpy (some ⟨addr, done ++ rest⟩) r src 0 n).out =
      .ok (some ⟨addr, done ++ src ++ rest.drop n⟩) := by
  unfold celf_memcpy
  rw [bind_out _ _ _ (load_full src n hn), mem_write_step addr r done rest src hr (by omega), hn]

theorem serialize_entries_out (cfg : Config) (d : celf_file) (k i r addr : Nat)
    (done rest : List Byte) (hr : r = done.length)
    (hi : i + k ≤ (ptr_cells d.entries).length)
    (hlen : k * (1 + CELF_UINT_SIZE cfg + 256) ≤ rest.length) :
    (serialize_entries cfg d k i r (some ⟨addr, done ++ rest⟩)).out =
      .ok (r + k * (1 + CELF_UINT_SIZE cfg + 256),
        some ⟨addr, done
          ++ ((((ptr_cells d.entries).drop i).take k).map (wire_entry cfg)).flatten
          ++ rest.drop (k * (1 + CELF_UINT_SIZE cfg + 256))⟩) := by
  induction k generalizing i r done rest with
  | zero => simp [serialize_entries]
  | succ k ih =>
    have hmul : (k + 1) * (1 + CELF_UINT_SIZE cfg + 256) =
        k * (1 + CELF_UINT_SIZE cfg + 256) + (1 + CELF_UINT_SIZE cfg + 256) := by ring
    have hilt : i < (ptr_cells d.entries).length := by omega
    have hget : (ptr_cells d.entries).get? i = some ((ptr_cells d.entries).get ⟨i, hilt⟩) :=
      List.get?_eq_get hilt
    generalize (ptr_cells d.entries).get ⟨i, hilt⟩ = e at hget
    have hdrop : (ptr_cells d.entries).drop i = e :: (ptr_cells d.entries).drop (i + 1) := by
      rw [List.drop_eq_getElem_cons hilt]
      congr 1
      have := List.get?_eq_some.mp hget
      obtain ⟨_, h2⟩ := this
      simpa using h2
    simp only [serialize_entries]
    rw [bind_out _ _ _ (congrArg Run.out (load_entry_get _ _ _ hget))]
    rw [bind_out _ _ _ (mem_write_step addr r done rest [e.entry_section] hr
      (by simp only [List.length_singleton]; omega))]
    rw [bind_out _ _ _ (mem_write_step addr (r + 1) (done ++ [e.entry_section])
      (rest.drop [e.entry_section].length) (celf_write_uint cfg e.entry_offset)
      (by simp [hr]) (by
        rw [write_uint_eq, be_bytes_length, List.length_drop, List.length_singleton]; omega))]
    rw [bind_out _ _ _ (memcpy_step addr (r + 1 + CELF_UINT_SIZE cfg)
      (done ++ [e.entry_section] ++ celf_write_uint cfg e.entry_offset)
      ((rest.drop [e.entry_section].length).drop (celf_write_uint cfg e.entry_offset).length)
      e.entry_name.val 256 e.entry_name.property
      (by simp only [hr, List.length_append, List.length_singleton, write_uint_eq,
        be_bytes_length]) (by
        rw [write_uint_eq, be_bytes_length, List.length_drop, List.length_drop,
          List.length_singleton]; omega))]
    rw [ih (i + 1) (r + 1 + CELF_UINT_SIZE cfg + 256)
      (done ++ [e.entry_section] ++ celf_write_uint cfg e.entry_offset ++ e.entry_name.val)
      (((rest.drop [e.entry_section].length).drop (celf_write_uint cfg e.entry_offset).length).drop 256)
      (by simp only [hr, List.length_append, List.length_singleton, write_uint_eq,
        be_bytes_length, e.entry_name.property])
      (by omega)
      (by
        rw [write_uint_eq, be_bytes_length, List.length_drop, List.length_drop, List.length_drop,
          List.length_singleton]; omega)]
    rw [hdrop]
    simp only [List.take_succ_cons, List.map_cons, List.flatten_cons, wire_entry, write_uint_eq,
      be_bytes_length, List.length_singleton, List.drop_drop, List.append_assoc]
    have e1 : r + 1 + CELF_UINT_SIZE cfg + 256 + k * (1 + CELF_UINT_SIZE cfg + 256)
        = r + (k + 1) * (1 + CELF_UINT_SIZE cfg + 256) := by omega
    have e2 : 1 + CELF_UINT_SIZE cfg + 256 + k * (1 + CELF_UINT_SIZE cfg + 256)
        = (k + 1) * (1 + CELF_UINT_SIZE cfg + 256) := by omega
    rw [e1, e2]

theorem serialize_section_out (sec : Option Block) (size r addr : Nat) (done rest : List Byte)
    (hsec : (ptr_bytes sec).length = size) (hr : r = done.length) (hlen : size ≤ rest.length) :
    (serialize_section sec size r (some ⟨addr, done ++ rest⟩)).out =
      .ok (r + size, some ⟨addr, done ++ ptr_bytes sec ++ rest.drop size⟩) := by
  unfold serialize_section
  by_cases h : sec.isSome ∧ size ≠ 0
  · simp only [h, and_self, ne_eq, not_false_eq_true, if_true]
    rw [bind_out _ _ _ (memcpy_step addr r done rest (ptr_bytes sec) size hsec hr hlen)]
    rfl
  · simp only [h, if_false, pure_run]
    have hz : size = 0 := by
      by_contra hne
      apply h
      refine ⟨?_, hne⟩
      cases sec with
      | none => simp [ptr_bytes] at hsec; omega
      | some b => rfl
    subst hz
    have : ptr_bytes sec = [] := List.length_eq_zero.mp hsec
    simp [this]

theorem wrap_of_lt (cfg : Config) (n : Nat) (h : n < 2 ^ cfg.size_bits) : cfg.wrap n = n :=
  Nat.mod_eq_of_lt h

theorem bind_mem_write_step {β : Type} (addr r : Nat) (done rest data : List Byte)
    (f : Option Block → Run β) (hr : r = done.length) (hlen : data.length ≤ rest.length) :
    (mem_write (some ⟨addr, done ++ rest⟩) r data >>= f).out =
      (f (some ⟨addr, done ++ data ++ rest.drop data.length⟩)).out :=
  bind_out _ _ _ (mem_write_step addr r done rest data hr hlen)

theorem bind_serialize_entries {β : Type} (cfg : Config) (d : celf_file) (k i r addr : Nat)
    (done rest : List Byte) (f : Nat × Option Block → Run β) (hr : r = done.length)
    (hi : i + k ≤ (ptr_cells d.entries).length)
    (hlen : k * (1 + CELF_UINT_SIZE cfg + 256) ≤ rest.length) :
    (serialize_entries cfg d k i r (some ⟨addr, done ++ rest⟩) >>= f).out =
      (f (r + k * (1 + CELF_UINT_SIZE cfg + 256),
        some ⟨addr, done
          ++ ((((ptr_cells d.entries).drop i).take k).map (wire_entry cfg)).flatten
          ++ rest.drop (k * (1 + CELF_UINT_SIZE cfg + 256))⟩)).out :=
  bind_out _ _ _ (serialize_entries_out cfg d k i r addr done rest hr hi hlen)

theorem bind_serialize_section {β : Type} (sec : Option Block) (size r addr : Nat)
    (done rest : List Byte) (f : Nat × Option Block → Run β)
    (hsec : (ptr_bytes sec).length = size) (hr : r = done.length) (hlen : size ≤ rest.length) :
    (serialize_section sec size r (some ⟨addr, done ++ rest⟩) >>= f).out =
      (f (r + size, some ⟨addr, done ++ ptr_bytes sec ++ rest.drop size⟩)).out :=
  bind_out _ _ _ (serialize_section_out sec size r addr done rest hsec hr hlen)

theorem serialize_out (cfg : Config) (env : Env) (d : celf_file) (a : Nat)
    (hd : d.sized) (hfit : wire_length cfg d < 2 ^ cfg.size_bits)
    (hm : env.malloc 0 (wire_length cfg d) = some a) :
    (celf_serialize cfg env d).out = .ok (some ⟨a, wire_layout cfg d⟩, wire_length cfg d) := by
  obtain ⟨hn, hro, hid, hex⟩ := hd
  have hW := uint_size_pos cfg
  unfold celf_serialize
  have hsz : cfg.wrap (d.rodata_size + d.idata_size + d.execd_size
      + d.nentries * (256 + 1 + CELF_UINT_SIZE cfg) + 6 * CELF_UINT_SIZE cfg)
      = wire_length cfg d := wrap_of_lt cfg _ hfit
  simp only [hsz]
  rw [bind_out _ _ _ (congrArg Run.out (malloc_some env 0 _ a hm))]
  simp only [Option.isNone_some, Bool.false_eq_true, if_false, write_uint_eq]
  generalize hfresh : (List.range (wire_length cfg d)).map (env.fresh 0) = fresh
  have hfl : fresh.length = wire_length cfg d := by rw [← hfresh]; simp
  generalize hL : wire_length cfg d = L at hfl
  unfold wire_length at hL
  have hS : d.nentries * (256 + 1 + CELF_UINT_SIZE cfg)
      = d.nentries * (1 + CELF_UINT_SIZE cfg + 256) := by ring
  rw [hS] at hL
  clear hsz hfresh hm hfit
  rw [show fresh = [] ++ fresh from rfl]
  rw [bind_mem_write_step]
  rotate_left
  · simp only [List.length_nil]
  · simp only [be_bytes_length]; omega
  rw [bind_mem_write_step]
  rotate_left
  · simp only [List.length_append, List.length_nil, be_bytes_length]
  · simp only [List.length_drop, be_bytes_length]; omega
  rw [bind_mem_write_step]
  rotate_left
  · simp only [List.length_append, List.length_nil, be_bytes_length]
  · simp only [List.length_drop, be_bytes_length]; omega
  rw [bind_mem_write_step]
  rotate_left
  · simp only [List.length_append, List.length_nil, be_bytes_length]
  · simp only [List.length_drop, be_bytes_length]; omega
  rw [bind_mem_write_step]
  rotate_left
  · simp only [List.length_append, List.length_nil, be_bytes_length]
  · simp only [List.length_drop, be_bytes_length]; omega
  rw [bind_mem_write_step]
  rotate_left
  · simp only [List.length_append, List.length_nil, be_bytes_length]
  · simp only [List.length_drop, be_bytes_length]; omega
  rw [bind_serialize_entries]
  rotate_left
  · simp only [List.length_append, List.length_nil, be_bytes_length]
  · omega
  · simp only [List.length_drop, be_bytes_length]; omega
  dsimp only
  rw [bind_serialize_section]
  rotate_left
  · exact hro
  · simp only [List.length_append, List.length_nil, be_bytes_length, List.length_flatten,
      List.map_map, Function.comp_def, wire_entry_length, List.map_const', List.sum_replicate,
      List.length_take, List.length_drop, List.length_map, smul_eq_mul]
    rw [Nat.min_eq_left (by omega)]
  · simp only [List.length_drop, be_bytes_length]; omega
  dsimp only
  rw [bind_serialize_section]
  rotate_left
  · exact hid
  · simp only [List.length_append, List.length_nil, be_bytes_length, List.length_flatten,
      List.map_map, Function.comp_def, wire_entry_length, List.map_const', List.sum_replicate,
      List.length_take, List.length_drop, List.length_map, smul_eq_mul, hro]
    rw [Nat.min_eq_left (by omega)]
  · simp only [List.length_drop, be_bytes_length]; omega
  dsimp only
  rw [bind_serialize_section]
  rotate_left
  · exact hex
  · simp only [List.length_append, List.length_nil, be_bytes_length, List.length_flatten,
      List.map_map, Function.comp_def, wire_entry_length, List.map_const', List.sum_replicate,
      List.length_take, List.length_drop, List.length_map, smul_eq_mul, hro, hid]
    rw [Nat.min_eq_left (by omega)]
  · simp only [List.length_drop, be_bytes_length]; omega
  dsimp only
  have hnil : List.drop d.execd_size (List.drop d.idata_size (List.drop d.rodata_size
      (List.drop (d.nentries * (1 + CELF_UINT_SIZE cfg + 256))
        (List.drop (be_bytes (CELF_UINT_SIZE cfg) d.execd_size).length
          (List.drop (be_bytes (CELF_UINT_SIZE cfg) d.idata_size).length
            (List.drop (be_bytes (CELF_UINT_SIZE cfg) d.zdata_size).length
              (List.drop (be_bytes (CELF_UINT_SIZE cfg) d.udata_size).length
                (List.drop (be_bytes (CELF_UINT_SIZE cfg) d.rodata_size).length
                  (List.drop (be_bytes (CELF_UINT_SIZE cfg) d.nentries).length
                    fresh))))))))) = [] := by
    apply List.drop_eq_nil_of_le
    simp only [List.length_drop, be_bytes_length]
    omega
  rw [hnil]
  simp only [pure_run, wire_layout, wire_header, wire_table, List.nil_append, List.append_nil,
    List.drop_zero]

/-! ## The integer codec -/

theorem or_shl8 (cfg : Config) (r b k : Nat) (hr : r < 256 ^ k) (hb : b < 256)
    (hk : 8 * (k + 1) ≤ cfg.size_bits) :
    shl8 cfg r ||| b = r * 256 + b ∧ r * 256 + b < 256 ^ (k + 1) := by
  have hlt : r * 256 + b < 256 ^ (k + 1) := by
    rw [pow_succ]
    nlinarith
  have hpow : (256 : Nat) ^ (k + 1) ≤ 2 ^ cfg.size_bits := by
    have : (256 : Nat) = 2 ^ 8 := by norm_num
    rw [this, ← pow_mul]
    exact Nat.pow_le_pow_right (by norm_num) hk
  refine ⟨?_, hlt⟩
  unfold shl8 Config.wrap
  rw [Nat.shiftLeft_eq, Nat.mod_eq_of_lt (by norm_num; omega)]
  rw [Nat.mul_comm r (2 ^ 8), ← Nat.mul_add_lt_is_or (by norm_num; exact hb)]

theorem parse_be_bytes (cfg : Config) (hcfg : cfg.ok) (v : Nat) :
    celf_parse_uint cfg (be_bytes (CELF_UINT_SIZE cfg) v) = v % 256 ^ CELF_UINT_SIZE cfg := by
  obtain ⟨hbits, -⟩ := hcfg
  have hb : ∀ n, (to_byte n).val < 256 := fun n => (to_byte n).isLt
  have hv : ∀ n, (to_byte n).val = n % 256 := fun n => rfl
  unfold celf_parse_uint
  unfold CELF_UINT_SIZE at hbits ⊢
  cases h64 : cfg.CELF_64
  · simp only [h64, Bool.false_eq_true, if_false] at hbits ⊢
    simp only [be_bytes, List.getD_cons_zero, List.getD_cons_succ, Nat.zero_or]
    obtain ⟨e1, l1⟩ := or_shl8 cfg (to_byte (v / 256 ^ 3)).val _ 1
      (by rw [pow_one]; exact hb _) (hb (v / 256 ^ 2))
      (by omega)
    rw [e1]
    obtain ⟨e2, l2⟩ := or_shl8 cfg _ _ 2 l1 (hb (v / 256 ^ 1)) (by omega)
    rw [e2]
    obtain ⟨e3, l3⟩ := or_shl8 cfg _ _ 3 l2 (hb (v / 256 ^ 0)) (by omega)
    rw [e3]
    simp only [hv]
    norm_num
    omega
  · simp only [h64, if_true] at hbits ⊢
    simp only [be_bytes, List.getD_cons_zero, List.getD_cons_succ, Nat.zero_or]
    obtain ⟨e1, l1⟩ := or_shl8 cfg (to_byte (v / 256 ^ 7)).val _ 1
      (by rw [pow_one]; exact hb _) (hb (v / 256 ^ 6))
      (by omega)
    rw [e1]
    obtain ⟨e2, l2⟩ := or_shl8 cfg _ _ 2 l1 (hb (v / 256 ^ 5)) (by omega)
    rw [e2]
    obtain ⟨e3, l3⟩ := or_shl8 cfg _ _ 3 l2 (hb (v / 256 ^ 4)) (by omega)
    rw [e3]
    obtain ⟨e4, l4⟩ := or_shl8 cfg _ _ 4 l3 (hb (v / 256 ^ 3)) (by omega)
    rw [e4]
    obtain ⟨e5, l5⟩ := or_shl8 cfg _ _ 5 l4 (hb (v / 256 ^ 2)) (by omega)
    rw [e5]
    obtain ⟨e6, l6⟩ := or_shl8 cfg _ _ 6 l5 (hb (v / 256 ^ 1)) (by omega)
    rw [e6]
    obtain ⟨e7, l7⟩ := or_shl8 cfg _ _ 7 l6 (hb (v / 256 ^ 0)) (by omega)
    rw [e7]
    simp only [hv]
    norm_num
    omega

/-! ## Reading back a serialized container -/

theorem slice_append {α : Type} (pre mid post : List α) (off n : Nat)
    (h1 : pre.length = off) (h2 : mid.length = n) :
    ((pre ++ mid ++ post).drop off).take n = mid := by
  rw [List.append_assoc, List.drop_left' h1, List.take_left' h2]

theorem wire_header_length (cfg : Config) (d : celf_file) :
    (wire_header cfg d).length = 6 * CELF_UINT_SIZE cfg := by
  simp only [wire_header, List.length_append, be_bytes_length]
  omega

theorem wire_table_length (cfg : Config) (d : celf_file)
    (hn : d.nentries ≤ (ptr_cells d.entries).length) :
    (wire_table cfg d).length = d.nentries * (1 + CELF_UINT_SIZE cfg + 256) := by
  simp only [wire_table, List.length_flatten, List.map_map, Function.comp_def, wire_entry_length,
    List.map_const', List.sum_replicate, List.length_take, smul_eq_mul]
  rw [Nat.min_eq_left hn]

theorem wire_layout_length (cfg : Config) (d : celf_file) (hd : d.sized) :
    (wire_layout cfg d).length = wire_length cfg d := by
  obtain ⟨hn, hro, hid, hex⟩ := hd
  simp only [wire_layout, List.length_append, wire_header_length, wire_table_length cfg d hn,
    hro, hid, hex, wire_length]
  ring

theorem header_field_layout (cfg : Config) (hcfg : cfg.ok) (d : celf_file) :
    header_field cfg (wire_layout cfg d) 0 = d.nentries % 256 ^ CELF_UINT_SIZE cfg ∧
    header_field cfg (wire_layout cfg d) 1 = d.rodata_size % 256 ^ CELF_UINT_SIZE cfg ∧
    header_field cfg (wire_layout cfg d) 2 = d.udata_size % 256 ^ CELF_UINT_SIZE cfg ∧
    header_field cfg (wire_layout cfg d) 3 = d.zdata_size % 256 ^ CELF_UINT_SIZE cfg ∧
    header_field cfg (wire_layout cfg d) 4 = d.idata_size % 256 ^ CELF_UINT_SIZE cfg ∧
    header_field cfg (wire_layout cfg d) 5 = d.execd_size % 256 ^ CELF_UINT_SIZE cfg := by
  have key : ∀ (k v : Nat) (pre post : List Byte), pre.length = k * CELF_UINT_SIZE cfg →
      wire_layout cfg d = pre ++ be_bytes (CELF_UINT_SIZE cfg) v ++ post →
      header_field cfg (wire_layout cfg d) k = v % 256 ^ CELF_UINT_SIZE cfg := by
    intro k v pre post hp hl
    unfold header_field
    rw [hl, slice_append pre _ post _ _ hp (be_bytes_length _ _), parse_be_bytes cfg hcfg]
  have hl : ∀ R, R = wire_table cfg d ++ (ptr_bytes d.rodata ++ (ptr_bytes d.idata
      ++ ptr_bytes d.execd)) →
      wire_layout cfg d = be_bytes (CELF_UINT_SIZE cfg) d.nentries
        ++ (be_bytes (CELF_UINT_SIZE cfg) d.rodata_size
        ++ (be_bytes (CELF_UINT_SIZE cfg) d.udata_size
        ++ (be_bytes (CELF_UINT_SIZE cfg) d.zdata_size
        ++ (be_bytes (CELF_UINT_SIZE cfg) d.idata_size
        ++ (be_bytes (CELF_UINT_SIZE cfg) d.execd_size ++ R))))) := by
    intro R hR
    rw [hR]
    simp only [wire_layout, wire_header, List.append_assoc]
  generalize hR : wire_table cfg d ++ (ptr_bytes d.rodata ++ (ptr_bytes d.idata
      ++ ptr_bytes d.execd)) = R
  have hl := hl R hR.symm
  generalize hb0 : be_bytes (CELF_UINT_SIZE cfg) d.nentries = b0 at hl
  generalize hb1 : be_bytes (CELF_UINT_SIZE cfg) d.rodata_size = b1 at hl
  generalize hb2 : be_bytes (CELF_UINT_SIZE cfg) d.udata_size = b2 at hl
  generalize hb3 : be_bytes (CELF_UINT_SIZE cfg) d.zdata_size = b3 at hl
  generalize hb4 : be_bytes (CELF_UINT_SIZE cfg) d.idata_size = b4 at hl
  generalize hb5 : be_bytes (CELF_UINT_SIZE cfg) d.execd_size = b5 at hl
  have l0 : b0.length = CELF_UINT_SIZE cfg := by rw [← hb0, be_bytes_length]
  have l1 : b1.length = CELF_UINT_SIZE cfg := by rw [← hb1, be_bytes_length]
  have l2 : b2.length = CELF_UINT_SIZE cfg := by rw [← hb2, be_bytes_length]
  have l3 : b3.length = CELF_UINT_SIZE cfg := by rw [← hb3, be_bytes_length]
  have l4 : b4.length = CELF_UINT_SIZE cfg := by rw [← hb4, be_bytes_length]
  refine ⟨key 0 d.nentries [] (b1 ++ (b2 ++ (b3 ++ (b4 ++ (b5 ++ R))))) ?_ ?_,
    key 1 d.rodata_size b0 (b2 ++ (b3 ++ (b4 ++ (b5 ++ R)))) ?_ ?_,
    key 2 d.udata_size (b0 ++ b1) (b3 ++ (b4 ++ (b5 ++ R))) ?_ ?_,
    key 3 d.zdata_size (b0 ++ b1 ++ b2) (b4 ++ (b5 ++ R)) ?_ ?_,
    key 4 d.idata_size (b0 ++ b1 ++ b2 ++ b3) (b5 ++ R) ?_ ?_,
    key 5 d.execd_size (b0 ++ b1 ++ b2 ++ b3 ++ b4) R ?_ ?_⟩
  all_goals first
    | (simp only [List.length_append, List.length_nil, l0, l1, l2, l3, l4]; omega)
    | (rw [hl]; simp only [hb0, hb1, hb2, hb3, hb4, hb5, List.append_assoc, List.nil_append])

theorem drop_add_eq {α : Type} (l : List α) (a b : Nat) :
    l.drop (a + b) = (l.drop a).drop b := by
  rw [List.drop_drop]

theorem flatten_drop_uniform {α : Type} (chunks : List (List α)) (S j : Nat)
    (h : ∀ c ∈ chunks, c.length = S) :
    chunks.flatten.drop (j * S) = (chunks.drop j).flatten := by
  induction j generalizing chunks with
  | zero => simp
  | succ j ih =>
    cases chunks with
    | nil => simp
    | cons c cs =>
      have hc : c.length = S := h c (List.mem_cons_self _ _)
      have hmul : (j + 1) * S = S + j * S := by ring
      rw [hmul, List.flatten_cons, drop_add_eq, List.drop_left' hc, List.drop_succ_cons]
      exact ih cs (fun c' hc' => h c' (List.mem_cons_of_mem _ hc'))

theorem name_ofList_val (nm : Name256) : Name256.ofList nm.val = nm := by
  apply Subtype.ext
  simp only [Name256.ofList]
  exact List.take_left' nm.property

theorem entry_at_wire (cfg : Config) (hcfg : cfg.ok) (bufin : List Byte) (p : Nat)
    (e : celf_entry) (X : List Byte) (hdrop : bufin.drop p = wire_entry cfg e ++ X)
    (hoff : e.entry_offset < 256 ^ CELF_UINT_SIZE cfg) :
    entry_at cfg bufin p = e := by
  have h1 : bufin.drop (p + 1) = be_bytes (CELF_UINT_SIZE cfg) e.entry_offset
      ++ (e.entry_name.val ++ X) := by
    rw [drop_add_eq, hdrop]
    simp [wire_entry]
  have h2 : bufin.drop (p + 1 + CELF_UINT_SIZE cfg) = e.entry_name.val ++ X := by
    rw [drop_add_eq, h1]
    exact List.drop_left' (be_bytes_length _ _)
  unfold entry_at
  rw [h2, h1, hdrop, List.take_left' (be_bytes_length _ _), List.take_left' e.entry_name.property,
    parse_be_bytes cfg hcfg, Nat.mod_eq_of_lt hoff, name_ofList_val]
  simp [wire_entry]

theorem layout_entries (cfg : Config) (hcfg : cfg.ok) (d : celf_file)
    (hlen : (ptr_cells d.entries).length = d.nentries)
    (hoff : ∀ e ∈ ptr_cells d.entries, e.entry_offset < 256 ^ CELF_UINT_SIZE cfg) :
    (List.range d.nentries).map (fun j => entry_at cfg (wire_layout cfg d)
      (6 * CELF_UINT_SIZE cfg + j * (1 + CELF_UINT_SIZE cfg + 256))) = ptr_cells d.entries := by
  apply List.ext_getElem
  · simp [hlen]
  · intro j h1 h2
    simp only [List.getElem_map, List.getElem_range]
    have hj : j < (ptr_cells d.entries).length := h2
    have htake : (ptr_cells d.entries).take d.nentries = ptr_cells d.entries := by
      rw [← hlen]; exact List.take_length _
    have hdj : (ptr_cells d.entries).drop j
        = (ptr_cells d.entries)[j] :: (ptr_cells d.entries).drop (j + 1) :=
      List.drop_eq_getElem_cons hj
    apply entry_at_wire cfg hcfg _ _ _
      ((((ptr_cells d.entries).drop (j + 1)).map (wire_entry cfg)).flatten
        ++ (ptr_bytes d.rodata ++ (ptr_bytes d.idata ++ ptr_bytes d.execd)))
    · simp only [wire_layout, List.append_assoc]
      rw [drop_add_eq, List.drop_left' (wire_header_length cfg d)]
      rw [List.drop_append_of_le_length]
      · simp only [wire_table, htake]
        rw [flatten_drop_uniform _ _ _ (by
          intro c hc
          obtain ⟨e, -, rfl⟩ := List.mem_map.mp hc
          exact wire_entry_length cfg e)]
        rw [← List.map_drop, hdj]
        simp only [List.map_cons, List.flatten_cons, List.append_assoc]
      · rw [wire_table_length cfg d (by omega)]
        exact Nat.mul_le_mul_right _ (by omega)
    · exact hoff _ (List.getElem_mem _)

theorem layout_payload (cfg : Config) (d : celf_file)
    (hlen : d.nentries ≤ (ptr_cells d.entries).length) :
    (wire_layout cfg d).drop (6 * CELF_UINT_SIZE cfg
        + d.nentries * (1 + CELF_UINT_SIZE cfg + 256))
      = ptr_bytes d.rodata ++ (ptr_bytes d.idata ++ ptr_bytes d.execd) := by
  simp only [wire_layout, List.append_assoc]
  rw [drop_add_eq, List.drop_left' (wire_header_length cfg d),
    List.drop_left' (wire_table_length cfg d hlen)]

theorem deserialize_ok (cfg : Config) (env : Env) (bufin : List Byte) (bufsz : Nat)
    (h6 : 6 * CELF_UINT_SIZE cfg ≤ bufsz) (hn : header_field cfg bufin 0 ≠ 0)
    (hsz : ¬ header_size_needed cfg bufin < bufsz)
    (hb : deserialize_in_bounds cfg bufin) (ha : deserialize_allocs_ok cfg env bufin) :
    (celf_deserialize cfg env bufin bufsz).out = .ok (env.link (loaded_container cfg env bufin)) ∧
    (celf_deserialize cfg env bufin bufsz).errs = [] ∧
    (celf_deserialize cfg env bufin bufsz).calls =
      [.link (loaded_container cfg env bufin),
       .make_exec (ptr_addr (env.link (loaded_container cfg env bufin)).execd)
         (header_field cfg bufin 5),
       .make_ro (ptr_addr (env.link (loaded_container cfg env bufin)).rodata)
         (header_field cfg bufin 1)] := by
  rcases deserialize_run_aux cfg env bufin bufsz _ rfl with
    ⟨e, -, -, -, hnb⟩ | ⟨-, -, -, -, hrej⟩ | ⟨-, h0, -⟩ | ⟨-, -, -, -, -, hna, -⟩ |
    ⟨-, -, -, he, hc, ho, -, -⟩
  · exact (hnb hb).elim
  · rcases hrej with h | ⟨-, h⟩
    · omega
    · exact (hsz h).elim
  · exact (hn h0).elim
  · exact (hna ha).elim
  · exact ⟨ho, he, hc⟩

theorem loaded_layout (cfg : Config) (hcfg : cfg.ok) (env : Env) (d : celf_file)
    (hcells : (ptr_cells d.entries).length = d.nentries)
    (hrep : d.nentries < 256 ^ CELF_UINT_SIZE cfg ∧ d.rodata_size < 256 ^ CELF_UINT_SIZE cfg ∧
      d.idata_size < 256 ^ CELF_UINT_SIZE cfg ∧ d.execd_size < 256 ^ CELF_UINT_SIZE cfg)
    (hoff : ∀ e ∈ ptr_cells d.entries, e.entry_offset < 256 ^ CELF_UINT_SIZE cfg)
    (hd : d.sized) (ha : deserialize_allocs_ok cfg env (wire_layout cfg d)) :
    (loaded_container cfg env (wire_layout cfg d)).nentries = d.nentries ∧
    ptr_cells (loaded_container cfg env (wire_layout cfg d)).entries = ptr_cells d.entries ∧
    (loaded_container cfg env (wire_layout cfg d)).rodata_size = d.rodata_size ∧
    (loaded_container cfg env (wire_layout cfg d)).idata_size = d.idata_size ∧
    (loaded_container cfg env (wire_layout cfg d)).execd_size = d.execd_size ∧
    ptr_bytes (loaded_container cfg env (wire_layout cfg d)).rodata = ptr_bytes d.rodata ∧
    ptr_bytes (loaded_container cfg env (wire_layout cfg d)).idata = ptr_bytes d.idata ∧
    ptr_bytes (loaded_container cfg env (wire_layout cfg d)).execd = ptr_bytes d.execd := by
  obtain ⟨h0, h1, -, -, h4, h5⟩ := header_field_layout cfg hcfg d
  obtain ⟨r0, r1, r4, r5⟩ := hrep
  rw [Nat.mod_eq_of_lt r0] at h0
  rw [Nat.mod_eq_of_lt r1] at h1
  rw [Nat.mod_eq_of_lt r4] at h4
  rw [Nat.mod_eq_of_lt r5] at h5
  obtain ⟨hn, hro, hid, hex⟩ := hd
  obtain ⟨a0, a1, -, a3, -, a5⟩ := ha
  obtain ⟨x0, e0⟩ := Option.isSome_iff_exists.mp a0
  obtain ⟨x1, e1⟩ := Option.isSome_iff_exists.mp a1
  obtain ⟨x3, e3⟩ := Option.isSome_iff_exists.mp a3
  obtain ⟨x5, e5⟩ := Option.isSome_iff_exists.mp a5
  have hpay := layout_payload cfg d hn
  have hpo : payload_offset cfg (wire_layout cfg d)
      = 6 * CELF_UINT_SIZE cfg + d.nentries * (1 + CELF_UINT_SIZE cfg + 256) := by
    unfold payload_offset; rw [h0]
  have hents := layout_entries cfg hcfg d hcells hoff
  have hes : header_entries_size cfg (wire_layout cfg d)
      = cfg.wrap (cfg.sizeof_entry * d.nentries) := by
    unfold header_entries_size; rw [h0]
  rw [hes] at e0
  rw [h1] at e1
  rw [h4] at e3
  rw [h5] at e5
  refine ⟨h0, ?_, h1, h4, h5, ?_, ?_, ?_⟩
  · simp only [loaded_container, hes, h0, hents]
    rw [e0]
    rfl
  · simp only [loaded_container, h1, hpo, hpay]
    rw [e1]
    exact List.take_left' hro
  · simp only [loaded_container, h1, h4, hpo]
    rw [e3, drop_add_eq, hpay, List.drop_left' hro]
    exact List.take_left' hid
  · simp only [loaded_container, h1, h4, h5, hpo]
    rw [e5, drop_add_eq, drop_add_eq, hpay, List.drop_left' hro, List.drop_left' hid]
    exact List.take_of_length_le (by omega)

theorem layout_deserializable (cfg : Config) (hcfg : cfg.ok) (d : celf_file)
    (hrep : d.nentries < 256 ^ CELF_UINT_SIZE cfg ∧ d.rodata_size < 256 ^ CELF_UINT_SIZE cfg ∧
      d.idata_size < 256 ^ CELF_UINT_SIZE cfg ∧ d.execd_size < 256 ^ CELF_UINT_SIZE cfg)
    (hd : d.sized) (hfit : wire_length cfg d < 2 ^ cfg.size_bits)
    (hcap : d.nentries ≤ cfg.wrap (cfg.sizeof_entry * d.nentries) / cfg.sizeof_entry) :
    header_field cfg (wire_layout cfg d) 0 = d.nentries ∧
    header_size_needed cfg (wire_layout cfg d) = wire_length cfg d ∧
    deserialize_in_bounds cfg (wire_layout cfg d) := by
  obtain ⟨h0, h1, -, -, h4, h5⟩ := header_field_layout cfg hcfg d
  obtain ⟨r0, r1, r4, r5⟩ := hrep
  rw [Nat.mod_eq_of_lt r0] at h0
  rw [Nat.mod_eq_of_lt r1] at h1
  rw [Nat.mod_eq_of_lt r4] at h4
  rw [Nat.mod_eq_of_lt r5] at h5
  have hlen := wire_layout_length cfg d hd
  refine ⟨h0, ?_, ?_, ?_⟩
  · unfold header_size_needed
    rw [h0, h1, h4, h5]
    exact wrap_of_lt cfg _ hfit
  · unfold header_entries_size
    rw [h0]
    exact hcap
  · unfold payload_offset
    rw [h0, h1, h4, h5, hlen]
    unfold wire_length
    have : d.nentries * (256 + 1 + CELF_UINT_SIZE cfg)
        = d.nentries * (1 + CELF_UINT_SIZE cfg + 256) := by ring
    omega

/-! ## The section builder -/

theorem bind_out_inv {α β : Type} (x : Run α) (f : α → Run β) (b : β)
    (h : (x >>= f).out = .ok b) : ∃ a, x.out = .ok a ∧ (f a).out = .ok b := by
  obtain ⟨l, o⟩ := x
  cases o with
  | ok a => exact ⟨a, rfl, h⟩
  | fault e => simp only [bind_fault] at h; cases h

theorem store_entry_shape (arr arr' : Option EntArr) (i : Nat) (g : celf_entry → celf_entry)
    (h : (store_entry arr i g).out = .ok arr') :
    (ptr_cells arr').length = (ptr_cells arr).length ∧ i < (ptr_cells arr).length := by
  unfold store_entry at h
  cases arr with
  | none => simp [fault] at h
  | some a =>
    simp only at h
    split_ifs at h with hi
    · simp only [pure_run, Outcome.ok.injEq] at h
      subst h
      simp [ptr_cells, hi]
    · simp [fault] at h

theorem mem_write_shape (dst dst' : Option Block) (off : Nat) (data : List Byte)
    (h : (mem_write dst off data).out = .ok dst') :
    (ptr_bytes dst').length = (ptr_bytes dst).length := by
  unfold mem_write at h
  split_ifs at h with h0
  · simp only [pure_run, Outcome.ok.injEq] at h
    rw [h]
  · cases dst with
    | none => simp [fault] at h
    | some b =>
      simp only at h
      split_ifs at h with hle
      · simp only [Outcome.ok.injEq] at h
        subst h
        simp only [ptr_bytes, List.length_append, List.length_take, List.length_drop]
        omega
      · simp [fault] at h

theorem memcpy_shape (dst dst' : Option Block) (doff : Nat) (src : List Byte) (soff n : Nat)
    (h : (celf_memcpy dst doff src soff n).out = .ok dst') :
    (ptr_bytes dst').length = (ptr_bytes dst).length := by
  unfold celf_memcpy at h
  obtain ⟨data, -, h2⟩ := bind_out_inv _ _ _ h
  exact mem_write_shape _ _ _ _ h2

theorem same_shape_refl (f : celf_file) : same_shape f f :=
  ⟨rfl, rfl, rfl, rfl, rfl, rfl, rfl, rfl, rfl, rfl⟩

theorem build_entries_shape (cfg : Config) (es : List celf_entry_in) (i : Nat) (prog : Counters)
    (retval f : celf_file) (h : (build_entries cfg es i prog retval).out = .ok f) :
    same_shape f retval ∧ (es ≠ [] → i + es.length ≤ (ptr_cells retval.entries).length) := by
  induction es generalizing i prog retval with
  | nil =>
    simp only [build_entries, pure_run, Outcome.ok.injEq] at h
    subst h
    exact ⟨same_shape_refl _, fun h => (h rfl).elim⟩
  | cons e es ih =>
    simp only [build_entries] at h
    obtain ⟨e1, h1, h⟩ := bind_out_inv _ _ _ h
    obtain ⟨e2, h2, h⟩ := bind_out_inv _ _ _ h
    obtain ⟨l1, hi⟩ := store_entry_shape _ _ _ _ h1
    obtain ⟨l2, -⟩ := store_entry_shape _ _ _ _ h2
    have hlen : ∀ (g : celf_file), same_shape f g ∧
        (es ≠ [] → i + 1 + es.length ≤ (ptr_cells g.entries).length) →
        (ptr_cells g.entries).length = (ptr_cells retval.entries).length →
        i + (e :: es).length ≤ (ptr_cells retval.entries).length := by
      intro g hg hl
      by_cases hes : es = []
      · subst hes; simp only [List.length_cons, List.length_nil]; omega
      · have := hg.2 hes
        simp only [List.length_cons]
        omega
    split_ifs at h with c0 c1 c2 c3 c4
    · obtain ⟨e3, h3, h⟩ := bind_out_inv _ _ _ h
      obtain ⟨b, h4, h⟩ := bind_out_inv _ _ _ h
      obtain ⟨l3, -⟩ := store_entry_shape _ _ _ _ h3
      have l4 := memcpy_shape _ _ _ _ _ _ h4
      have hg := ih _ _ _ h
      refine ⟨?_, fun _ => hlen _ hg (by simp only; omega)⟩
      obtain ⟨⟨s1, s2, s3, s4, s5, s6, s7, s8, s9, s10⟩, -⟩ := hg
      simp only at s1 s2 s3 s4 s5 s6 s7 s8 s9 s10
      exact ⟨s1, s2, s3, s4, s5, s6, by omega, by omega, s9, s10⟩
    · obtain ⟨e3, h3, h⟩ := bind_out_inv _ _ _ h
      obtain ⟨l3, -⟩ := store_entry_shape _ _ _ _ h3
      have hg := ih _ _ _ h
      refine ⟨?_, fun _ => hlen _ hg (by simp only; omega)⟩
      obtain ⟨⟨s1, s2, s3, s4, s5, s6, s7, s8, s9, s10⟩, -⟩ := hg
      simp only at s1 s2 s3 s4 s5 s6 s7 s8 s9 s10
      exact ⟨s1, s2, s3, s4, s5, s6, by omega, s8, s9, s10⟩
    · obtain ⟨e3, h3, h⟩ := bind_out_inv _ _ _ h
      obtain ⟨l3, -⟩ := store_entry_shape _ _ _ _ h3
      have hg := ih _ _ _ h
      refine ⟨?_, fun _ => hlen _ hg (by simp only; omega)⟩
      obtain ⟨⟨s1, s2, s3, s4, s5, s6, s7, s8, s9, s10⟩, -⟩ := hg
      simp only at s1 s2 s3 s4 s5 s6 s7 s8 s9 s10
      exact ⟨s1, s2, s3, s4, s5, s6, by omega, s8, s9, s10⟩
    · obtain ⟨e3, h3, h⟩ := bind_out_inv _ _ _ h
      obtain ⟨b, h4, h⟩ := bind_out_inv _ _ _ h
      obtain ⟨l3, -⟩ := store_entry_shape _ _ _ _ h3
      have l4 := memcpy_shape _ _ _ _ _ _ h4
      have hg := ih _ _ _ h
      refine ⟨?_, fun _ => hlen _ hg (by simp only; omega)⟩
      obtain ⟨⟨s1, s2, s3, s4, s5, s6, s7, s8, s9, s10⟩, -⟩ := hg
      simp only at s1 s2 s3 s4 s5 s6 s7 s8 s9 s10
      exact ⟨s1, s2, s3, s4, s5, s6, by omega, s8, by omega, s10⟩
    · obtain ⟨e3, h3, h⟩ := bind_out_inv _ _ _ h
      obtain ⟨b, h4, h⟩ := bind_out_inv _ _ _ h
      obtain ⟨l3, -⟩ := store_entry_shape _ _ _ _ h3
      have l4 := memcpy_shape _ _ _ _ _ _ h4
      have hg := ih _ _ _ h
      refine ⟨?_, fun _ => hlen _ hg (by simp only; omega)⟩
      obtain ⟨⟨s1, s2, s3, s4, s5, s6, s7, s8, s9, s10⟩, -⟩ := hg
      simp only at s1 s2 s3 s4 s5 s6 s7 s8 s9 s10
      exact ⟨s1, s2, s3, s4, s5, s6, by omega, s8, s9, by omega⟩
    · have hg := ih _ _ _ h
      refine ⟨?_, fun _ => hlen _ hg (by simp only; omega)⟩
      obtain ⟨⟨s1, s2, s3, s4, s5, s6, s7, s8, s9, s10⟩, -⟩ := hg
      simp only at s1 s2 s3 s4 s5 s6 s7 s8 s9 s10
      exact ⟨s1, s2, s3, s4, s5, s6, by omega, s8, s9, s10⟩

theorem build_shape (cfg : Config) (env : Env) (recs : List celf_entry_in) (f : celf_file)
    (h : (celf_build_filestruct cfg env recs).out = .ok f)
    (ha : ∀ k sz, (env.malloc k sz).isSome) :
    f = celf_file.zero ∨
    (f.nentries = recs.length ∧
      (ptr_cells f.entries).length
        = cfg.wrap (cfg.sizeof_entry * recs.length) / cfg.sizeof_entry ∧
      (recs ≠ [] → recs.length ≤ (ptr_cells f.entries).length) ∧
      (ptr_bytes f.rodata).length = f.rodata_size ∧
      (ptr_bytes f.idata).length = f.idata_size ∧
      (ptr_bytes f.execd).length = f.execd_size ∧
      (recs = [] → f.rodata_size = 0 ∧ f.idata_size = 0 ∧ f.execd_size = 0)) := by
  unfold celf_build_filestruct at h
  cases hs : build_sizes cfg recs Counters.zero with
  | none =>
    left
    simp only [hs, celf_err, emit, bind_ok, pure_run, Outcome.ok.injEq] at h
    exact h.symm
  | some sz =>
    right
    simp only [hs] at h
    obtain ⟨a0, h0⟩ := Option.isSome_iff_exists.mp (ha 0 (cfg.wrap (cfg.sizeof_entry * recs.length)))
    obtain ⟨a1, h1⟩ := Option.isSome_iff_exists.mp (ha 1 sz.rodata)
    obtain ⟨a2, h2⟩ := Option.isSome_iff_exists.mp (ha 2 sz.idata)
    obtain ⟨a3, h3⟩ := Option.isSome_iff_exists.mp (ha 3 sz.execd)
    rw [bind_out _ _ _ (congrArg Run.out (malloc_entries_some cfg env 0 _ a0 h0))] at h
    simp only [Option.isNone_some, Bool.false_eq_true, if_false] at h
    rw [bind_out _ _ _ (congrArg Run.out (malloc_some env 1 _ a1 h1))] at h
    simp only [Option.isNone_some, Bool.false_eq_true, if_false] at h
    rw [bind_out _ _ _ (congrArg Run.out (malloc_some env 2 _ a2 h2))] at h
    simp only [Option.isNone_some, Bool.false_eq_true, if_false] at h
    rw [bind_out _ _ _ (congrArg Run.out (malloc_some env 3 _ a3 h3))] at h
    simp only [Option.isNone_some, Bool.false_eq_true, if_false] at h
    obtain ⟨z, -, h⟩ := bind_out_inv _ _ _ h
    obtain ⟨⟨s1, s2, s3, s4, s5, s6, s7, s8, s9, s10⟩, hcap⟩ := build_entries_shape _ _ _ _ _ _ h
    simp only [ptr_cells, ptr_bytes, List.length_map, List.length_range, Nat.zero_add] at *
    refine ⟨s1, s7, ?_, by omega, by omega, by omega, ?_⟩
    · intro hne
      have := hcap hne
      omega
    · intro hnil
      subst hnil
      simp only [build_sizes, Option.some.injEq] at hs
      subst hs
      simp only [Counters.zero] at s2 s5 s6
      exact ⟨s2, s5, s6⟩

/-! ## Serialize, then deserialize -/

theorem cap_le (cfg : Config) (n : Nat) : cfg.wrap (cfg.sizeof_entry * n) / cfg.sizeof_entry ≤ n := by
  unfold Config.wrap
  rcases Nat.eq_zero_or_pos cfg.sizeof_entry with h | h
  · simp [h]
  · calc cfg.sizeof_entry * n % 2 ^ cfg.size_bits / cfg.sizeof_entry
        ≤ cfg.sizeof_entry * n / cfg.sizeof_entry := Nat.div_le_div_right (Nat.mod_le _ _)
      _ = n := Nat.mul_div_cancel_left _ h

theorem roundtrip_nonempty (cfg : Config) (hcfg : cfg.ok) (envS envD : Env) (d : celf_file)
    (hd : d.sized) (hcells : (ptr_cells d.entries).length = d.nentries) (hn0 : d.nentries ≠ 0)
    (hcap : d.nentries ≤ cfg.wrap (cfg.sizeof_entry * d.nentries) / cfg.sizeof_entry)
    (hrep : d.nentries < 256 ^ CELF_UINT_SIZE cfg ∧ d.rodata_size < 256 ^ CELF_UINT_SIZE cfg ∧
      d.idata_size < 256 ^ CELF_UINT_SIZE cfg ∧ d.execd_size < 256 ^ CELF_UINT_SIZE cfg)
    (hoff : ∀ e ∈ ptr_cells d.entries, e.entry_offset < 256 ^ CELF_UINT_SIZE cfg)
    (hfit : wire_length cfg d < 2 ^ cfg.size_bits)
    (hS : ∀ k sz, (envS.malloc k sz).isSome) (hD : ∀ k sz, (envD.malloc k sz).isSome) :
    ∃ a, (celf_serialize cfg envS d).out = .ok (some ⟨a, wire_layout cfg d⟩, wire_length cfg d) ∧
      (wire_layout cfg d).length = wire_length cfg d ∧
      (celf_deserialize cfg envD (wire_layout cfg d) (wire_length cfg d)).out
        = .ok (envD.link (loaded_container cfg envD (wire_layout cfg d))) ∧
      (celf_deserialize cfg envD (wire_layout cfg d) (wire_length cfg d)).errs = [] ∧
      reloaded d (loaded_container cfg envD (wire_layout cfg d)) ∧
      (loaded_container cfg envD (wire_layout cfg d)).rodata_size = d.rodata_size ∧
      (loaded_container cfg envD (wire_layout cfg d)).idata_size = d.idata_size ∧
      (loaded_container cfg envD (wire_layout cfg d)).execd_size = d.execd_size := by
  obtain ⟨a, ha⟩ := Option.isSome_iff_exists.mp (hS 0 (wire_length cfg d))
  have hser := serialize_out cfg envS d a hd hfit ha
  obtain ⟨h0, hneed, hb⟩ := layout_deserializable cfg hcfg d hrep hd hfit hcap
  have hallocs : deserialize_allocs_ok cfg envD (wire_layout cfg d) :=
    ⟨hD _ _, hD _ _, hD _ _, hD _ _, hD _ _, hD _ _⟩
  have h6 : 6 * CELF_UINT_SIZE cfg ≤ wire_length cfg d := by unfold wire_length; omega
  obtain ⟨ho, he, -⟩ := deserialize_ok cfg envD (wire_layout cfg d) (wire_length cfg d) h6
    (by rw [h0]; exact hn0) (by rw [hneed]; omega) hb hallocs
  obtain ⟨l0, l1, l2, l3, l4, l5, l6, l7⟩ := loaded_layout cfg hcfg envD d hcells hrep hoff hd hallocs
  exact ⟨a, hser, wire_layout_length cfg d hd, ho, he, ⟨l0, l1, l5, l6, l7⟩, l2, l3, l4⟩

theorem roundtrip_empty (cfg : Config) (hcfg : cfg.ok) (envS envD : Env) (d : celf_file)
    (hd : d.sized) (hn0 : d.nentries = 0) (hcells : ptr_cells d.entries = [])
    (hro : d.rodata_size = 0) (hid : d.idata_size = 0) (hex : d.execd_size = 0)
    (hfit : wire_length cfg d < 2 ^ cfg.size_bits)
    (hS : ∀ k sz, (envS.malloc k sz).isSome) :
    ∃ a, (celf_serialize cfg envS d).out = .ok (some ⟨a, wire_layout cfg d⟩, wire_length cfg d) ∧
      (wire_layout cfg d).length = wire_length cfg d ∧
      (celf_deserialize cfg envD (wire_layout cfg d) (wire_length cfg d)).out
        = .ok celf_file.zero ∧
      (celf_deserialize cfg envD (wire_layout cfg d) (wire_length cfg d)).errs = [] ∧
      reloaded d celf_file.zero := by
  obtain ⟨a, ha⟩ := Option.isSome_iff_exists.mp (hS 0 (wire_length cfg d))
  have hser := serialize_out cfg envS d a hd hfit ha
  have hW := uint_size_pos cfg
  have hlen := wire_layout_length cfg d hd
  have hwl : wire_length cfg d = 6 * CELF_UINT_SIZE cfg := by
    unfold wire_length; rw [hn0, hro, hid, hex]; omega
  obtain ⟨h0, -⟩ := header_field_layout cfg hcfg d
  rw [hn0, Nat.zero_mod] at h0
  obtain ⟨-, r1, r2, r3⟩ := hd
  refine ⟨a, hser, hlen, ?_, ?_, ⟨hn0.symm, hcells.symm, ?_, ?_, ?_⟩⟩
  · rcases deserialize_run_aux cfg envD (wire_layout cfg d) (wire_length cfg d) _ rfl with
      ⟨e, -, -, -, hnb⟩ | ⟨-, -, -, -, hrej⟩ | ⟨-, -, hr⟩ | ⟨-, hne, -⟩ | ⟨-, hne, -⟩
    · exfalso
      apply hnb
      refine ⟨by rw [h0]; exact Nat.zero_le _, ?_⟩
      obtain ⟨-, h1, -, -, h4, h5⟩ := header_field_layout cfg hcfg d
      unfold payload_offset
      rw [h0, h1, h4, h5, hro, hid, hex, hlen, hwl]
      simp
    · rcases hrej with h | ⟨h, -⟩
      · omega
      · exact (h h0).elim
    · rw [hr]
    · exact (hne h0).elim
    · exact (hne h0).elim
  · rcases deserialize_run_aux cfg envD (wire_layout cfg d) (wire_length cfg d) _ rfl with
      ⟨e, -, he, -⟩ | ⟨-, -, -, -, hrej⟩ | ⟨-, -, hr⟩ | ⟨-, hne, -⟩ | ⟨-, hne, -⟩
    · exact he
    · rcases hrej with h | ⟨h, -⟩
      · omega
      · exact (h h0).elim
    · rw [hr]; rfl
    · exact (hne h0).elim
    · exact (hne h0).elim
  · show [] = ptr_bytes d.rodata
    exact (List.length_eq_zero.mp (by omega)).symm
  · show [] = ptr_bytes d.idata
    exact (List.length_eq_zero.mp (by omega)).symm
  · show [] = ptr_bytes d.execd
    exact (List.length_eq_zero.mp (by omega)).symm

/-! ## What the builder computes -/

theorem load_front (src : List Byte) (n : Nat) (h : n ≤ src.length) :
    (load src 0 n).out = .ok (src.take n) := by
  unfold load
  by_cases hn : n = 0
  · simp [hn]
  · have hle : 0 + n ≤ src.length := by omega
    simp only [hn, if_false, hle, if_true, pure_run, List.drop_zero]

theorem memcpy_base (addr : Nat) (R src : List Byte) (n : Nat) (hs : n ≤ src.length)
    (hr : n ≤ R.length) :
    (celf_memcpy (some ⟨addr, R⟩) 0 src 0 n).out = .ok (some ⟨addr, src.take n ++ R.drop n⟩) := by
  unfold celf_memcpy
  rw [bind_out _ _ _ (load_front src n hs)]
  have h := mem_write_step addr 0 [] R (src.take n) rfl (by rw [List.length_take]; omega)
  simp only [List.nil_append, List.length_take, Nat.min_eq_left hs] at h
  exact h

theorem overlay_length (cls : Byte) (es : List celf_entry_in) (b : List Byte)
    (hread : ∀ e ∈ es, e.entry_section = cls → e.entry_size ≤ e.entry_data.length)
    (hfit : ∀ e ∈ es, e.entry_section = cls → e.entry_size ≤ b.length) :
    (overlay cls es b).length = b.length := by
  induction es generalizing b with
  | nil => rfl
  | cons e es ih =>
    simp only [overlay]
    have hstep : (if e.entry_section = cls then e.entry_data.take e.entry_size
        ++ b.drop e.entry_size else b).length = b.length := by
      split_ifs with hc
      · have h1 := hread e (List.mem_cons_self _ _) hc
        have h2 := hfit e (List.mem_cons_self _ _) hc
        simp only [List.length_append, List.length_take, List.length_drop]
        omega
      · rfl
    rw [ih _ (fun x hx => hread x (List.mem_cons_of_mem _ hx))
      (fun x hx hc => by rw [hstep]; exact hfit x (List.mem_cons_of_mem _ hx) hc), hstep]

theorem build_entries_ok (cfg : Config) (es : List celf_entry_in) (prog : Counters)
    (a0 ar ai ax : Nat) (pre mid post : List celf_entry) (R I X : List Byte)
    (n ro ud zd id ex : Nat) (u z : Option Block)
    (hmid : mid.length = es.length)
    (hcls : ∀ e ∈ es, valid_section e.entry_section)
    (hread : ∀ e ∈ es, stored_section e.entry_section → e.entry_size ≤ e.entry_data.length)
    (hR : ∀ e ∈ es, e.entry_section = 0 → e.entry_size ≤ R.length)
    (hI : ∀ e ∈ es, e.entry_section = 3 → e.entry_size ≤ I.length)
    (hX : ∀ e ∈ es, e.entry_section = 4 → e.entry_size ≤ X.length) :
    (build_entries cfg es pre.length prog
      { entries := some ⟨a0, pre ++ mid ++ post⟩, nentries := n,
        rodata := some ⟨ar, R⟩, rodata_size := ro, udata := u, udata_size := ud,
        zdata := z, zdata_size := zd, idata := some ⟨ai, I⟩, idata_size := id,
        execd := some ⟨ax, X⟩, execd_size := ex }).out =
      .ok { entries := some ⟨a0, pre ++ built_cells cfg es prog ++ post⟩, nentries := n,
            rodata := some ⟨ar, overlay 0 es R⟩, rodata_size := ro, udata := u, udata_size := ud,
            zdata := z, zdata_size := zd, idata := some ⟨ai, overlay 3 es I⟩, idata_size := id,
            execd := some ⟨ax, overlay 4 es X⟩, execd_size := ex } := by
  induction es generalizing prog pre mid R I X with
  | nil =>
    have : mid = [] := List.length_eq_zero.mp hmid
    subst this
    simp [build_entries, built_cells, overlay]
  | cons e es ih =>
    obtain ⟨c, mid', rfl⟩ : ∃ c mid', mid = c :: mid' := by
      cases mid with
      | nil => simp at hmid
      | cons c m => exact ⟨c, m, rfl⟩
    have hmid' : mid'.length = es.length := by simpa using hmid
    have hcls' : ∀ x ∈ es, valid_section x.entry_section :=
      fun x hx => hcls x (List.mem_cons_of_mem _ hx)
    have hread' : ∀ x ∈ es, stored_section x.entry_section → x.entry_size ≤ x.entry_data.length :=
      fun x hx => hread x (List.mem_cons_of_mem _ hx)
    have hst : ∀ (c' : celf_entry) (g : celf_entry → celf_entry),
        (store_entry (some ⟨a0, pre ++ c' :: (mid' ++ post)⟩) pre.length g).out
          = .ok (some ⟨a0, pre ++ g c' :: (mid' ++ post)⟩) :=
      fun c' g => congrArg Run.out (store_entry_at a0 pre (mid' ++ post) c' g)
    simp only [build_entries, List.append_assoc, List.cons_append]
    rw [bind_out _ _ _ (hst _ _)]
    rw [bind_out _ _ _ (hst _ _)]
    simp only [built_cells, overlay]
    rcases hcls e (List.mem_cons_self _ _) with h | h | h | h | h
    · have hsz := hread e (List.mem_cons_self _ _) (Or.inl h)
      have hfit := hR e (List.mem_cons_self _ _) h
      simp only [h, Fin.reduceEq, if_true, if_false]
      rw [bind_out _ _ _ (hst _ _)]
      rw [bind_out _ _ _ (memcpy_base ar R e.entry_data e.entry_size hsz hfit)]
      have hih := ih (prog.add cfg 0 (needed_of cfg e.entry_size))
        (pre ++ [⟨0, prog.get 0, e.entry_name⟩])
        mid' (e.entry_data.take e.entry_size ++ R.drop e.entry_size) I X hmid' hcls' hread'
        (fun x hx hc => by
          have := hR x (List.mem_cons_of_mem _ hx) hc
          simp only [List.length_append, List.length_take, List.length_drop]
          omega)
        (fun x hx => hI x (List.mem_cons_of_mem _ hx))
        (fun x hx => hX x (List.mem_cons_of_mem _ hx))
      simp only [List.length_append, List.length_singleton, List.append_assoc,
        List.singleton_append] at hih
      simp only [Counters.add, Counters.get, Fin.reduceEq, if_true, if_false] at hih ⊢
      exact hih
    · simp only [h, Fin.reduceEq, if_true, if_false]
      rw [bind_out _ _ _ (hst _ _)]
      have hih := ih (prog.add cfg 1 (needed_of cfg e.entry_size))
        (pre ++ [⟨1, prog.get 1, e.entry_name⟩])
        mid' R I X hmid' hcls' hread'
        (fun x hx => hR x (List.mem_cons_of_mem _ hx))
        (fun x hx => hI x (List.mem_cons_of_mem _ hx))
        (fun x hx => hX x (List.mem_cons_of_mem _ hx))
      simp only [List.length_append, List.length_singleton, List.append_assoc,
        List.singleton_append] at hih
      simp only [Counters.add, Counters.get, Fin.reduceEq, if_true, if_false] at hih ⊢
      exact hih
    · simp only [h, Fin.reduceEq, if_true, if_false]
      rw [bind_out _ _ _ (hst _ _)]
      have hih := ih (prog.add cfg 2 (needed_of cfg e.entry_size))
        (pre ++ [⟨2, prog.get 2, e.entry_name⟩])
        mid' R I X hmid' hcls' hread'
        (fun x hx => hR x (List.mem_cons_of_mem _ hx))
        (fun x hx => hI x (List.mem_cons_of_mem _ hx))
        (fun x hx => hX x (List.mem_cons_of_mem _ hx))
      simp only [List.length_append, List.length_singleton, List.append_assoc,
        List.singleton_append] at hih
      simp only [Counters.add, Counters.get, Fin.reduceEq, if_true, if_false] at hih ⊢
      exact hih
    · have hsz := hread e (List.mem_cons_self _ _) (Or.inr (Or.inl h))
      have hfit := hI e (List.mem_cons_self _ _) h
      simp only [h, Fin.reduceEq, if_true, if_false]
      rw [bind_out _ _ _ (hst _ _)]
      rw [bind_out _ _ _ (memcpy_base ai I e.entry_data e.entry_size hsz hfit)]
      have hih := ih (prog.add cfg 3 (needed_of cfg e.entry_size))
        (pre ++ [⟨3, prog.get 3, e.entry_name⟩])
        mid' R (e.entry_data.take e.entry_size ++ I.drop e.entry_size) X hmid' hcls' hread'
        (fun x hx => hR x (List.mem_cons_of_mem _ hx))
        (fun x hx hc => by
          have := hI x (List.mem_cons_of_mem _ hx) hc
          simp only [List.length_append, List.length_take, List.length_drop]
          omega)
        (fun x hx => hX x (List.mem_cons_of_mem _ hx))
      simp only [List.length_append, List.length_singleton, List.append_assoc,
        List.singleton_append] at hih
      simp only [Counters.add, Counters.get, Fin.reduceEq, if_true, if_false] at hih ⊢
      exact hih
    · have hsz := hread e (List.mem_cons_self _ _) (Or.inr (Or.inr h))
      have hfit := hX e (List.mem_cons_self _ _) h
      simp only [h, Fin.reduceEq, if_true, if_false]
      rw [bind_out _ _ _ (hst _ _)]
      rw [bind_out _ _ _ (memcpy_base ax X e.entry_data e.entry_size hsz hfit)]
      have hih := ih (prog.add cfg 4 (needed_of cfg e.entry_size))
        (pre ++ [⟨4, prog.get 4, e.entry_name⟩])
        mid' R I (e.entry_data.take e.entry_size ++ X.drop e.entry_size) hmid' hcls' hread'
        (fun x hx => hR x (List.mem_cons_of_mem _ hx))
        (fun x hx => hI x (List.mem_cons_of_mem _ hx))
        (fun x hx hc => by
          have := hX x (List.mem_cons_of_mem _ hx) hc
          simp only [List.length_append, List.length_take, List.length_drop]
          omega)
      simp only [List.length_append, List.length_singleton, List.append_assoc,
        List.singleton_append] at hih
      simp only [Counters.add, Counters.get, Fin.reduceEq, if_true, if_false] at hih ⊢
      exact hih

/-! ## Counters, entries and contents for records of distinct classes -/

theorem add_get_ne (cfg : Config) (c : Counters) (s cls : Byte) (k : Nat) (hne : s ≠ cls) :
    (c.add cfg s k).get cls = c.get cls := by
  unfold Counters.add
  by_cases h0 : s = 0
  · have hc : ¬ cls = 0 := fun h => hne (h0.trans h.symm)
    rw [if_pos h0]
    simp only [Counters.get, hc, if_false]
  rw [if_neg h0]
  by_cases h1 : s = 1
  · have hc : ¬ cls = 1 := fun h => hne (h1.trans h.symm)
    rw [if_pos h1]
    simp only [Counters.get, hc, if_false]
  rw [if_neg h1]
  by_cases h2 : s = 2
  · have hc : ¬ cls = 2 := fun h => hne (h2.trans h.symm)
    rw [if_pos h2]
    simp only [Counters.get, hc, if_false]
  rw [if_neg h2]
  by_cases h3 : s = 3
  · have hc : ¬ cls = 3 := fun h => hne (h3.trans h.symm)
    rw [if_pos h3]
    simp only [Counters.get, hc, if_false]
  rw [if_neg h3]
  by_cases h4 : s = 4
  · have hc : ¬ cls = 4 := fun h => hne (h4.trans h.symm)
    rw [if_pos h4]
    simp only [Counters.get, hc, if_false]
  rw [if_neg h4]

theorem add_get_eq (cfg : Config) (c : Counters) (s : Byte) (k : Nat) (hs : valid_section s) :
    (c.add cfg s k).get s = cfg.wrap (c.get s + k) := by
  rcases hs with h | h | h | h | h <;> subst h <;> simp [Counters.add, Counters.get]

theorem count_sizes_absent (cfg : Config) (es : List celf_entry_in) (c : Counters) (cls : Byte)
    (h : ∀ x ∈ es, x.entry_section ≠ cls) :
    (count_sizes cfg es c).get cls = c.get cls := by
  induction es generalizing c with
  | nil => rfl
  | cons e es ih =>
    simp only [count_sizes]
    rw [ih _ (fun x hx => h x (List.mem_cons_of_mem _ hx)),
      add_get_ne cfg c _ _ _ (h e (List.mem_cons_self _ _))]

theorem count_sizes_unique (cfg : Config) (es : List celf_entry_in) (c : Counters)
    (e : celf_entry_in) (he : e ∈ es)
    (hd : es.Pairwise (fun a b => a.entry_section ≠ b.entry_section))
    (hv : ∀ x ∈ es, valid_section x.entry_section) :
    (count_sizes cfg es c).get e.entry_section
      = cfg.wrap (c.get e.entry_section + needed_of cfg e.entry_size) := by
  induction es generalizing c with
  | nil => cases he
  | cons x es ih =>
    rw [List.pairwise_cons] at hd
    simp only [count_sizes]
    rcases List.mem_cons.mp he with rfl | hmem
    · rw [count_sizes_absent cfg es _ _ (fun y hy => (hd.1 y hy).symm),
        add_get_eq cfg c _ _ (hv _ (List.mem_cons_self _ _))]
    · rw [ih _ hmem hd.2 (fun y hy => hv y (List.mem_cons_of_mem _ hy)),
        add_get_ne cfg c _ _ _ (hd.1 e hmem)]

theorem build_sizes_valid (cfg : Config) (es : List celf_entry_in) (c : Counters)
    (hv : ∀ x ∈ es, valid_section x.entry_section) :
    build_sizes cfg es c = some (count_sizes cfg es c) := by
  induction es generalizing c with
  | nil => rfl
  | cons e es ih =>
    have hrest := fun c' => ih c' (fun y hy => hv y (List.mem_cons_of_mem _ hy))
    simp only [build_sizes, count_sizes]
    rcases hv e (List.mem_cons_self _ _) with h | h | h | h | h <;>
      simp [h, hrest, Counters.add]

theorem built_cells_distinct (cfg : Config) (es : List celf_entry_in) (prog : Counters)
    (hd : es.Pairwise (fun a b => a.entry_section ≠ b.entry_section))
    (h0 : ∀ x ∈ es, prog.get x.entry_section = 0) :
    built_cells cfg es prog = es.map (fun e =>
      ({ entry_section := e.entry_section, entry_offset := 0, entry_name := e.entry_name }
        : celf_entry)) := by
  induction es generalizing prog with
  | nil => rfl
  | cons e es ih =>
    rw [List.pairwise_cons] at hd
    simp only [built_cells, List.map_cons]
    rw [h0 e (List.mem_cons_self _ _), ih _ hd.2 (fun x hx => by
      rw [add_get_ne cfg prog _ _ _ (hd.1 x hx)]
      exact h0 x (List.mem_cons_of_mem _ hx))]

theorem overlay_absent (cls : Byte) (es : List celf_entry_in) (b : List Byte)
    (h : ∀ x ∈ es, x.entry_section ≠ cls) : overlay cls es b = b := by
  induction es generalizing b with
  | nil => rfl
  | cons e es ih =>
    simp only [overlay, h e (List.mem_cons_self _ _), if_false]
    exact ih _ (fun x hx => h x (List.mem_cons_of_mem _ hx))

theorem overlay_unique (es : List celf_entry_in) (b : List Byte) (e : celf_entry_in)
    (he : e ∈ es) (hd : es.Pairwise (fun a b => a.entry_section ≠ b.entry_section)) :
    overlay e.entry_section es b = e.entry_data.take e.entry_size ++ b.drop e.entry_size := by
  induction es generalizing b with
  | nil => cases he
  | cons x es ih =>
    rw [List.pairwise_cons] at hd
    simp only [overlay]
    rcases List.mem_cons.mp he with rfl | hmem
    · simp only [if_true]
      exact overlay_absent _ es _ (fun y hy => (hd.1 y hy).symm)
    · simp only [hd.1 e hmem, if_false]
      exact ih _ hmem hd.2

theorem needed_of_le (cfg : Config) (n : Nat) : needed_of cfg n ≤ round_up n := by
  unfold needed_of round_up Config.wrap CELF_ALIGNMENT
  calc (n + 128 - 1) % 2 ^ cfg.size_bits / 128 * 128 % 2 ^ cfg.size_bits
      ≤ (n + 128 - 1) % 2 ^ cfg.size_bits / 128 * 128 := Nat.mod_le _ _
    _ ≤ (n + (128 - 1)) / 128 * 128 :=
        Nat.mul_le_mul_right _ (Nat.div_le_div_right (Nat.mod_le _ _))

theorem needed_of_eq (cfg : Config) (n : Nat) (h : n + 127 < 2 ^ cfg.size_bits) :
    needed_of cfg n = round_up n := by
  unfold needed_of round_up Config.wrap CELF_ALIGNMENT
  have h1 : (n + 128 - 1) % 2 ^ cfg.size_bits = n + 127 := Nat.mod_eq_of_lt (by omega)
  rw [h1]
  have h2 : (n + 127) / 128 * 128 ≤ n + 127 := Nat.div_mul_le_self _ _
  rw [Nat.mod_eq_of_lt (by omega)]

theorem le_round_up (n : Nat) : n ≤ round_up n := by
  unfold round_up CELF_ALIGNMENT
  omega

theorem add_total (cfg : Config) (c : Counters) (s : Byte) (k : Nat) :
    (c.add cfg s k).total ≤ c.total + k := by
  have h0 := Nat.mod_le (c.rodata + k) (2 ^ cfg.size_bits)
  have h1 := Nat.mod_le (c.udata + k) (2 ^ cfg.size_bits)
  have h2 := Nat.mod_le (c.zdata + k) (2 ^ cfg.size_bits)
  have h3 := Nat.mod_le (c.idata + k) (2 ^ cfg.size_bits)
  have h4 := Nat.mod_le (c.execd + k) (2 ^ cfg.size_bits)
  unfold Counters.add Counters.total Config.wrap
  split_ifs <;> (try dsimp only) <;> omega

theorem count_sizes_total (cfg : Config) (es : List celf_entry_in) (c : Counters) :
    (count_sizes cfg es c).total ≤ c.total + (es.map (fun e => round_up e.entry_size)).sum := by
  induction es generalizing c with
  | nil => simp [count_sizes]
  | cons e es ih =>
    simp only [count_sizes, List.map_cons, List.sum_cons]
    have h1 := ih (c.add cfg e.entry_section (needed_of cfg e.entry_size))
    have h2 := add_total cfg c e.entry_section (needed_of cfg e.entry_size)
    have h3 := needed_of_le cfg e.entry_size
    omega

/-! ## The builder on well-formed records -/

/-- The builder succeeds with `built_container` when every class is valid, no
record asks for ZDATA, every allocation succeeds and the copies stay inside the
records and the sections. -/
theorem build_ok (cfg : Config) (env : Env) (recs : List celf_entry_in)
    (hs : 0 < cfg.sizeof_entry)
    (hcap : cfg.sizeof_entry * recs.length < 2 ^ cfg.size_bits)
    (hcls : ∀ e ∈ recs, valid_section e.entry_section)
    (hz : (count_sizes cfg recs Counters.zero).zdata = 0)
    (halloc : ∀ k sz, (env.malloc k sz).isSome)
    (hread : ∀ e ∈ recs, stored_section e.entry_section → e.entry_size ≤ e.entry_data.length)
    (hR : ∀ e ∈ recs, e.entry_section = 0 →
      e.entry_size ≤ (count_sizes cfg recs Counters.zero).rodata)
    (hI : ∀ e ∈ recs, e.entry_section = 3 →
      e.entry_size ≤ (count_sizes cfg recs Counters.zero).idata)
    (hX : ∀ e ∈ recs, e.entry_section = 4 →
      e.entry_size ≤ (count_sizes cfg recs Counters.zero).execd) :
    (celf_build_filestruct cfg env recs).out = .ok (built_container cfg env recs) := by
  obtain ⟨a0, h0⟩ := Option.isSome_iff_exists.mp
    (halloc 0 (cfg.wrap (cfg.sizeof_entry * recs.length)))
  obtain ⟨a1, h1⟩ := Option.isSome_iff_exists.mp
    (halloc 1 (count_sizes cfg recs Counters.zero).rodata)
  obtain ⟨a2, h2⟩ := Option.isSome_iff_exists.mp
    (halloc 2 (count_sizes cfg recs Counters.zero).idata)
  obtain ⟨a3, h3⟩ := Option.isSome_iff_exists.mp
    (halloc 3 (count_sizes cfg recs Counters.zero).execd)
  have hw : cfg.wrap (cfg.sizeof_entry * recs.length) / cfg.sizeof_entry = recs.length := by
    rw [wrap_of_lt cfg _ hcap]
    exact Nat.mul_div_cancel_left _ hs
  have hbe := build_entries_ok cfg recs Counters.zero a0 a1 a2 a3 []
    ((List.range recs.length).map (env.fresh_entry 0)) []
    ((List.range (count_sizes cfg recs Counters.zero).rodata).map (env.fresh 1))
    ((List.range (count_sizes cfg recs Counters.zero).idata).map (env.fresh 2))
    ((List.range (count_sizes cfg recs Counters.zero).execd).map (env.fresh 3))
    recs.length (count_sizes cfg recs Counters.zero).rodata
    (count_sizes cfg recs Counters.zero).udata (count_sizes cfg recs Counters.zero).zdata
    (count_sizes cfg recs Counters.zero).idata (count_sizes cfg recs Counters.zero).execd
    none none (by simp) hcls hread (by simpa using hR) (by simpa using hI) (by simpa using hX)
  simp only [List.nil_append, List.append_nil, List.length_nil] at hbe
  unfold celf_build_filestruct
  simp only [build_sizes_valid cfg recs Counters.zero hcls]
  simp only [celf_malloc_entries, celf_malloc, h0, h1, h2, h3, hw, hz, celf_memset, mem_write,
    celf_file.zero, bind_ok, Option.isNone_some, Bool.false_eq_true, if_false,
    List.length_replicate, if_true, pure_run]
  simp only [hz] at hbe
  rw [hbe]
  simp only [built_container, h0, h1, h2, h3, hz, Option.map_some']

/-! ## Symbol resolution -/

theorem streq_loop_log (n : Nat) (a b : List Byte) : (streq_loop n a b).log = [] := by
  induction n generalizing a b with
  | zero => simp [streq_loop]
  | succ n ih =>
    cases a with
    | nil => simp [streq_loop, fault]
    | cons x a =>
      cases b with
      | nil => simp [streq_loop, fault]
      | cons y b =>
        simp only [streq_loop]
        split_ifs <;> simp [ih]

theorem streq_run (a b : List Byte) (r : Bool) (h : (celf_streq_256 a b).out = .ok r) :
    celf_streq_256 a b = ⟨[], .ok r⟩ := by
  have hl : (celf_streq_256 a b).log = [] := streq_loop_log 256 a b
  cases hr : celf_streq_256 a b with
  | mk l o => rw [hr] at h hl; simp only at h hl; rw [h, hl]

theorem resolve_loop_miss (f : celf_file) (sym : List Byte) (k i : Nat)
    (h : ∀ j, i ≤ j → j < i + k → ∃ e, (ptr_cells f.entries).get? j = some e ∧
      (celf_streq_256 sym e.entry_name.val).out = .ok false) :
    resolve_loop f sym k i = ⟨[], .ok CELF_MAGIC_INVALID_PTR⟩ := by
  induction k generalizing i with
  | zero => simp [resolve_loop]
  | succ k ih =>
    obtain ⟨e, he, hs⟩ := h i (le_refl _) (by omega)
    have hrest := ih (i + 1) (fun j h1 h2 => h j (by omega) (by omega))
    simp [resolve_loop, load_entry_get _ _ _ he, streq_run _ _ _ hs, hrest]

theorem resolve_loop_hit (f : celf_file) (sym : List Byte) (k i m : Nat) (e : celf_entry)
    (him : i ≤ m) (hmk : m < i + k) (he : (ptr_cells f.entries).get? m = some e)
    (hs : (celf_streq_256 sym e.entry_name.val).out = .ok true)
    (h : ∀ j, i ≤ j → j < m → ∃ e', (ptr_cells f.entries).get? j = some e' ∧
      (celf_streq_256 sym e'.entry_name.val).out = .ok false) :
    resolve_loop f sym k i = ⟨[], .ok (switch_value f e)⟩ := by
  induction k generalizing i with
  | zero => omega
  | succ k ih =>
    by_cases hi : i = m
    · subst hi
      simp only [resolve_loop, load_entry_get _ _ _ he, streq_run _ _ _ hs, bind_ok, switch_value]
      split_ifs <;> rfl
    · obtain ⟨e', he', hs'⟩ := h i (le_refl _) (by omega)
      have hrest := ih (i + 1) (by omega) (by omega) (fun j h1 h2 => h j (by omega) h2)
      simp [resolve_loop, load_entry_get _ _ _ he', streq_run _ _ _ hs', hrest]

theorem switch_value_base (f : celf_file) (e : celf_entry) :
    (∀ base, section_base f e.entry_section = some base →
      switch_value f e = base + e.entry_offset) ∧
    (section_base f e.entry_section = none → switch_value f e = CELF_MAGIC_INVALID_PTR) := by
  unfold section_base switch_value
  constructor
  · intro base hb
    split_ifs at hb with h0 h1 h2 h3 h4 <;> simp_all [CELF_RODATA, CELF_UDATA, CELF_ZDATA, CELF_IDATA, CELF_EXECD]
  · intro hb
    split_ifs at hb with h0 h1 h2 h3 h4
    simp [h0, h1, h2, h3, h4, CELF_MAGIC_INVALID_PTR]

theorem streq_loop_refl (n : Nat) (a : List Byte) (h : n ≤ a.length) :
    streq_loop n a a = ⟨[], .ok true⟩ := by
  induction n generalizing a with
  | zero => rfl
  | succ n ih =>
    cases a with
    | nil => simp at h
    | cons x a =>
      simp only [streq_loop, ne_eq, not_true_eq_false, if_false]
      split_ifs
      · rfl
      · exact ih a (by simpa using h)

theorem streq_loop_symm (n : Nat) (a b : List Byte) : streq_loop n a b = streq_loop n b a := by
  induction n generalizing a b with
  | zero => rfl
  | succ n ih =>
    cases a with
    | nil => cases b <;> rfl
    | cons x a =>
      cases b with
      | nil => rfl
      | cons y b =>
        simp only [streq_loop]
        by_cases hxy : x = y
        · subst hxy
          rw [ih a b]
        · have hyx : ¬ y = x := fun h => hxy h.symm
          simp [hxy, hyx]

theorem take_get (l : List celf_entry) (k : Nat) (P : celf_entry → Prop) (hk : k ≤ l.length)
    (h : ∀ e ∈ l.take k, P e) (j : Nat) (hj : j < k) : ∃ e, l.get? j = some e ∧ P e := by
  have hjl : j < l.length := by omega
  refine ⟨l[j], ?_, ?_⟩
  · rw [List.get?_eq_getElem?, List.getElem?_eq_getElem hjl]
  · apply h
    have hjt : j < (l.take k).length := by rw [List.length_take]; omega
    have : (l.take k)[j] = l[j] := (List.getElem_take' l hjl hj).symm
    rw [← this]
    exact List.getElem_mem _

/-! ## Records of pairwise distinct stored classes -/

theorem stored_length_le (recs : List celf_entry_in)
    (hcls : ∀ e ∈ recs, stored_section e.entry_section)
    (hd : recs.Pairwise (fun a b => a.entry_section ≠ b.entry_section)) : recs.length ≤ 3 := by
  have hnd : (recs.map (fun e => e.entry_section)).Nodup := by
    unfold List.Nodup
    rw [List.pairwise_map]
    exact hd
  have hsub : recs.map (fun e => e.entry_section) ⊆ [0, 3, 4] := by
    intro s hs
    obtain ⟨e, he, rfl⟩ := List.mem_map.mp hs
    rcases hcls e he with h | h | h <;> simp [h]
  have := (List.subperm_of_subset hnd hsub).length_le
  simpa using this

theorem round_up_le (n : Nat) : round_up n ≤ n + 127 := by
  unfold round_up CELF_ALIGNMENT
  exact Nat.div_mul_le_self _ _

theorem round_up_size_fits (cfg : Config) (hcfg : cfg.ok) (n : Nat)
    (h : round_up n < 256 ^ CELF_UINT_SIZE cfg) : n + 127 < 2 ^ cfg.size_bits := by
  have hle : 256 ^ CELF_UINT_SIZE cfg ≤ 2 ^ cfg.size_bits := by
    have : (256 : Nat) ^ CELF_UINT_SIZE cfg = 2 ^ (8 * CELF_UINT_SIZE cfg) := by
      rw [Nat.pow_mul]
    rw [this]
    exact Nat.pow_le_pow_right (by decide) hcfg.1
  have hdvd : ∃ k, 256 ^ CELF_UINT_SIZE cfg = 128 * k := by
    rcases uint_size_cases cfg with h4 | h8
    · exact ⟨2 * 256 ^ 3, by rw [h4]; norm_num⟩
    · exact ⟨2 * 256 ^ 7, by rw [h8]; norm_num⟩
  obtain ⟨k, hk⟩ := hdvd
  have hr : round_up n = (n + 127) / 128 * 128 := rfl
  have := Nat.div_add_mod (n + 127) 128
  have := Nat.mod_lt (n + 127) (show 128 > 0 by decide)
  omega

theorem built_section (cfg : Config) (env : Env) (recs : List celf_entry_in) (e : celf_entry_in)
    (he : e ∈ recs)
    (hcls : ∀ x ∈ recs, stored_section x.entry_section)
    (hd : recs.Pairwise (fun a b => a.entry_section ≠ b.entry_section))
    (halloc : ∀ k sz, (env.malloc k sz).isSome)
    (hsize : e.entry_size + 127 < 2 ^ cfg.size_bits)
    (hread : e.entry_size ≤ e.entry_data.length) :
    (count_sizes cfg recs Counters.zero).get e.entry_section = round_up e.entry_size ∧
    section_size (built_container cfg env recs) e.entry_section = round_up e.entry_size ∧
    (section_bytes (built_container cfg env recs) e.entry_section).length
      = round_up e.entry_size ∧
    (section_bytes (built_container cfg env recs) e.entry_section).take e.entry_size
      = e.entry_data.take e.entry_size := by
  have hv : ∀ x ∈ recs, valid_section x.entry_section := by
    intro x hx
    rcases hcls x hx with h | h | h
    · exact Or.inl h
    · exact Or.inr (Or.inr (Or.inr (Or.inl h)))
    · exact Or.inr (Or.inr (Or.inr (Or.inr h)))
  have hz : Counters.zero.get e.entry_section = 0 := by
    unfold Counters.get Counters.zero
    split_ifs <;> rfl
  have hget : (count_sizes cfg recs Counters.zero).get e.entry_section
      = round_up e.entry_size := by
    rw [count_sizes_unique cfg recs Counters.zero e he hd hv, hz, Nat.zero_add,
      needed_of_eq cfg _ hsize]
    exact wrap_of_lt cfg _ (lt_of_le_of_lt (round_up_le _) hsize)
  have hov := fun b => overlay_unique recs b e he hd
  have hle := le_round_up e.entry_size
  have htk : (e.entry_data.take e.entry_size).length = e.entry_size := by
    rw [List.length_take]; omega
  have key : ∀ (a : Nat) (fr : Nat → Byte) (n : Nat), n = round_up e.entry_size →
      (overlay e.entry_section recs ((List.range n).map fr)).length = round_up e.entry_size ∧
      (overlay e.entry_section recs ((List.range n).map fr)).take e.entry_size
        = e.entry_data.take e.entry_size := by
    intro a fr n hn
    rw [hov]
    constructor
    · rw [List.length_append, htk, List.length_drop, List.length_map, List.length_range]
      omega
    · exact List.take_left' htk
  refine ⟨hget, ?_⟩
  obtain ⟨a1, h1⟩ := Option.isSome_iff_exists.mp
    (halloc 1 (count_sizes cfg recs Counters.zero).rodata)
  obtain ⟨a2, h2⟩ := Option.isSome_iff_exists.mp
    (halloc 2 (count_sizes cfg recs Counters.zero).idata)
  obtain ⟨a3, h3⟩ := Option.isSome_iff_exists.mp
    (halloc 3 (count_sizes cfg recs Counters.zero).execd)
  rcases hcls e he with h | h | h
  · rw [h] at hget key ⊢
    have hg : (count_sizes cfg recs Counters.zero).rodata = round_up e.entry_size := hget
    have k := key a1 (env.fresh 1) _ hg
    simp only [section_size, section_bytes, built_container, CELF_RODATA, h1, Option.map_some',
      ptr_bytes, if_true]
    exact ⟨hg, k⟩
  · rw [h] at hget key ⊢
    have hg : (count_sizes cfg recs Counters.zero).idata = round_up e.entry_size := hget
    have k := key a2 (env.fresh 2) _ hg
    simp only [section_size, section_bytes, built_container, CELF_RODATA, CELF_UDATA, CELF_ZDATA,
      CELF_IDATA, h2, Option.map_some', ptr_bytes]
    exact ⟨hg, k⟩
  · rw [h] at hget key ⊢
    have hg : (count_sizes cfg recs Counters.zero).execd = round_up e.entry_size := hget
    have k := key a3 (env.fresh 3) _ hg
    simp only [section_size, section_bytes, built_container, CELF_RODATA, CELF_UDATA, CELF_ZDATA,
      CELF_IDATA, CELF_EXECD, h3, Option.map_some', ptr_bytes]
    exact ⟨hg, k⟩

theorem reloaded_section (f g : celf_file) (hr : reloaded f g)
    (h1 : g.rodata_size = f.rodata_size) (h2 : g.idata_size = f.idata_size)
    (h3 : g.execd_size = f.execd_size) (s : Byte) (hs : stored_section s) :
    section_size g s = section_size f s ∧ section_bytes g s = section_bytes f s := by
  obtain ⟨-, -, r1, r2, r3⟩ := hr
  rcases hs with h | h | h <;> subst h <;>
    simp only [section_size, section_bytes, CELF_RODATA, CELF_UDATA, CELF_ZDATA, CELF_IDATA,
      CELF_EXECD, h1, h2, h3, r1, r2, r3] <;> exact ⟨rfl, rfl⟩

theorem section_base_stored (g : celf_file) (s : Byte) (hs : stored_section s) :
    ∃ base, section_base g s = some base := by
  rcases hs with h | h | h <;> subst h <;>
    simp [section_base, CELF_RODATA, CELF_UDATA, CELF_ZDATA, CELF_IDATA, CELF_EXECD]

/-- Resolution of the name of a record in a table that holds one entry per
record, in order, when the names are pairwise different. -/
theorem resolve_record (g : celf_file) (recs : List celf_entry_in) (e : celf_entry_in)
    (he : e ∈ recs) (hn : g.nentries = recs.length)
    (hcells : ptr_cells g.entries = recs.map (fun e =>
      ({ entry_section := e.entry_section, entry_offset := 0, entry_name := e.entry_name }
        : celf_entry)))
    (hnames : recs.Pairwise (fun a b =>
      (celf_streq_256 a.entry_name.val b.entry_name.val).out = .ok false)) :
    celf_resolve_symbol g e.entry_name.val = ⟨[], .ok (switch_value g
      { entry_section := e.entry_section, entry_offset := 0, entry_name := e.entry_name })⟩ := by
  obtain ⟨m, hm, hem⟩ := List.getElem_of_mem he
  unfold celf_resolve_symbol
  refine resolve_loop_hit g e.entry_name.val g.nentries 0 m _ (Nat.zero_le _) (by omega) ?_ ?_ ?_
  · rw [hcells, List.get?_eq_getElem?, List.getElem?_map, List.getElem?_eq_getElem hm, hem]
    rfl
  · show (streq_loop 256 e.entry_name.val e.entry_name.val).out = .ok true
    rw [streq_loop_refl 256 _ (le_of_eq e.entry_name.2.symm)]
  · intro j _ hjm
    have hj : j < recs.length := by omega
    refine ⟨⟨recs[j].entry_section, 0, recs[j].entry_name⟩, ?_, ?_⟩
    · rw [hcells, List.get?_eq_getElem?, List.getElem?_map, List.getElem?_eq_getElem hj]
      rfl
    · have := List.pairwise_iff_getElem.mp hnames j m hj hm hjm
      rw [hem] at this
      show (celf_streq_256 _ _).out = _
      unfold celf_streq_256 at this ⊢
      rw [streq_loop_symm]
      exact this

theorem stored_valid (s : Byte) (h : stored_section s) : valid_section s := by
  rcases h with h | h | h
  · exact Or.inl h
  · exact Or.inr (Or.inr (Or.inr (Or.inl h)))
  · exact Or.inr (Or.inr (Or.inr (Or.inr h)))

theorem zero_get (s : Byte) : Counters.zero.get s = 0 := by
  unfold Counters.get Counters.zero
  split_ifs <;> rfl

/-- Facts about the container built from records of pairwise distinct stored
classes. -/
theorem built_distinct (cfg : Config) (hcfg : cfg.ok) (env : Env) (recs : List celf_entry_in)
    (hcls : ∀ e ∈ recs, stored_section e.entry_section)
    (hdist : recs.Pairwise (fun a b => a.entry_section ≠ b.entry_section))
    (hread : ∀ e ∈ recs, e.entry_size ≤ e.entry_data.length)
    (hsize : ∀ e ∈ recs, round_up e.entry_size < 256 ^ CELF_UINT_SIZE cfg)
    (hcap : cfg.sizeof_entry * recs.length < 2 ^ cfg.size_bits)
    (halloc : ∀ k sz, (env.malloc k sz).isSome) :
    (celf_build_filestruct cfg env recs).out = .ok (built_container cfg env recs) ∧
    (built_container cfg env recs).sized ∧
    ptr_cells (built_container cfg env recs).entries = recs.map (fun e =>
      ({ entry_section := e.entry_section, entry_offset := 0, entry_name := e.entry_name }
        : celf_entry)) ∧
    (∀ cls, (count_sizes cfg recs Counters.zero).get cls < 256 ^ CELF_UINT_SIZE cfg) := by
  have hv : ∀ x ∈ recs, valid_section x.entry_section := fun x hx => stored_valid _ (hcls x hx)
  have hfits : ∀ e ∈ recs, e.entry_size + 127 < 2 ^ cfg.size_bits :=
    fun e he => round_up_size_fits cfg hcfg _ (hsize e he)
  have hsec := fun e he => built_section cfg env recs e he hcls hdist halloc (hfits e he)
    (hread e he)
  have hz : (count_sizes cfg recs Counters.zero).zdata = 0 := by
    have := count_sizes_absent cfg recs Counters.zero 2 (fun x hx h => by
      rcases hcls x hx with h' | h' | h' <;> rw [h'] at h <;> exact absurd h (by decide))
    simpa [Counters.get, Counters.zero] using this
  have hR : ∀ e ∈ recs, e.entry_section = 0 →
      e.entry_size ≤ (count_sizes cfg recs Counters.zero).rodata := by
    intro e he h
    have h1 := (hsec e he).1
    rw [h] at h1
    have h2 : (count_sizes cfg recs Counters.zero).rodata = round_up e.entry_size := h1
    rw [h2]
    exact le_round_up _
  have hI : ∀ e ∈ recs, e.entry_section = 3 →
      e.entry_size ≤ (count_sizes cfg recs Counters.zero).idata := by
    intro e he h
    have h1 := (hsec e he).1
    rw [h] at h1
    have h2 : (count_sizes cfg recs Counters.zero).idata = round_up e.entry_size := h1
    rw [h2]
    exact le_round_up _
  have hX : ∀ e ∈ recs, e.entry_section = 4 →
      e.entry_size ≤ (count_sizes cfg recs Counters.zero).execd := by
    intro e he h
    have h1 := (hsec e he).1
    rw [h] at h1
    have h2 : (count_sizes cfg recs Counters.zero).execd = round_up e.entry_size := h1
    rw [h2]
    exact le_round_up _
  have hbuild := build_ok cfg env recs hcfg.2 hcap hv hz halloc (fun e he _ => hread e he)
    hR hI hX
  have hcells : ptr_cells (built_container cfg env recs).entries = recs.map (fun e =>
      ({ entry_section := e.entry_section, entry_offset := 0, entry_name := e.entry_name }
        : celf_entry)) := by
    obtain ⟨a0, h0⟩ := Option.isSome_iff_exists.mp
      (halloc 0 (cfg.wrap (cfg.sizeof_entry * recs.length)))
    simp only [built_container, h0, Option.map_some', ptr_cells]
    exact built_cells_distinct cfg recs Counters.zero hdist (fun x _ => zero_get _)
  refine ⟨hbuild, ?_, hcells, ?_⟩
  · obtain ⟨a1, h1⟩ := Option.isSome_iff_exists.mp
      (halloc 1 (count_sizes cfg recs Counters.zero).rodata)
    obtain ⟨a2, h2⟩ := Option.isSome_iff_exists.mp
      (halloc 2 (count_sizes cfg recs Counters.zero).idata)
    obtain ⟨a3, h3⟩ := Option.isSome_iff_exists.mp
      (halloc 3 (count_sizes cfg recs Counters.zero).execd)
    refine ⟨?_, ?_, ?_, ?_⟩
    · rw [hcells, List.length_map]
      exact le_refl _
    · simp only [built_container, h1, Option.map_some', ptr_bytes]
      rw [overlay_length 0 recs _ (fun e he _ => hread e he) (by simpa using hR)]
      simp
    · simp only [built_container, h2, Option.map_some', ptr_bytes]
      rw [overlay_length 3 recs _ (fun e he _ => hread e he) (by simpa using hI)]
      simp
    · simp only [built_container, h3, Option.map_some', ptr_bytes]
      rw [overlay_length 4 recs _ (fun e he _ => hread e he) (by simpa using hX)]
      simp
  · intro cls
    by_cases h : ∃ e ∈ recs, e.entry_section = cls
    · obtain ⟨e, he, rfl⟩ := h
      rw [(hsec e he).1]
      exact hsize e he
    · rw [count_sizes_absent cfg recs Counters.zero cls (fun x hx hc => h ⟨x, hx, hc⟩),
        zero_get]
      exact Nat.pos_pow_of_pos _ (by decide)


/-! ## Outcomes of the deserializer -/

theorem err_mem_errs {α : Type} (r : Run α) (msg msg' : String) (h : Event.err msg ∈ r.log)
    (he : r.errs = [.err msg']) : msg = msg' := by
  have hm : Event.err msg ∈ r.errs := by
    unfold Run.errs
    exact List.mem_filter.mpr ⟨h, rfl⟩
  rw [he] at hm
  simpa using hm

theorem err_not_mem {α : Type} (r : Run α) (msg : String) (h : Event.err msg ∈ r.log)
    (he : r.errs = []) : False := by
  have hm : Event.err msg ∈ r.errs := by
    unfold Run.errs
    exact List.mem_filter.mpr ⟨h, rfl⟩
  rw [he] at hm
  simp at hm

theorem err_msgs_ne : deserialize_malloc_fail_err_msg ≠ fail_err_msg := by decide

theorem deserialize_populated (cfg : Config) (env : Env) (bufin : List Byte) (bufsz : Nat)
    (f : celf_file)
    (hret : (celf_deserialize cfg env bufin bufsz).out = .ok f)
    (hnoerr : (celf_deserialize cfg env bufin bufsz).errs = [])
    (hcount : header_field cfg bufin 0 ≠ 0) :
    (celf_deserialize cfg env bufin bufsz).calls =
      [.link (loaded_container cfg env bufin),
       .make_exec (ptr_addr f.execd) (header_field cfg bufin 5),
       .make_ro (ptr_addr f.rodata) (header_field cfg bufin 1)] ∧
    f = env.link (loaded_container cfg env bufin) ∧
    deserialize_allocs_ok cfg env bufin := by
  rcases deserialize_run_aux cfg env bufin bufsz _ rfl with
    ⟨e, he, -⟩ | ⟨-, he, -⟩ | ⟨-, h0, -⟩ | ⟨-, -, -, he, -⟩ | ⟨-, -, -, -, hc, ho, ha, -⟩
  · rw [he] at hret; cases hret
  · rw [he] at hnoerr; cases hnoerr
  · exact absurd h0 hcount
  · rw [he] at hnoerr; cases hnoerr
  · rw [ho] at hret
    cases hret
    exact ⟨hc, rfl, ha⟩

/-! ## Big-endian values -/

theorem be_value_lt (b : List Byte) : be_value b < 256 ^ b.length := by
  induction b with
  | nil => simp [be_value]
  | cons x xs ih =>
    simp only [be_value, List.length_cons, pow_succ]
    have := x.isLt
    nlinarith

theorem be_bytes_mod (w v : Nat) : be_bytes w v = be_bytes w (v % 256 ^ w) := by
  induction w generalizing v with
  | zero => rfl
  | succ w ih =>
    simp only [be_bytes]
    have h1 : to_byte (v % 256 ^ (w + 1) / 256 ^ w) = to_byte (v / 256 ^ w) := by
      apply Fin.ext
      show v % 256 ^ (w + 1) / 256 ^ w % 256 = v / 256 ^ w % 256
      rw [pow_succ, Nat.mod_mul_right_div_self, Nat.mod_mod]
    have h2 : be_bytes w (v % 256 ^ (w + 1)) = be_bytes w v := by
      rw [ih (v % 256 ^ (w + 1)), ih v, Nat.mod_mod_of_dvd _ (Dvd.intro _ (pow_succ 256 w).symm)]
    rw [h1, h2]

theorem be_bytes_be_value (b : List Byte) : be_bytes b.length (be_value b) = b := by
  induction b with
  | nil => rfl
  | cons x xs ih =>
    have hlt := be_value_lt xs
    have hpos : 0 < 256 ^ xs.length := Nat.pos_pow_of_pos _ (by decide)
    simp only [be_value, List.length_cons, be_bytes]
    have h1 : to_byte ((x.val * 256 ^ xs.length + be_value xs) / 256 ^ xs.length) = x := by
      apply Fin.ext
      show (x.val * 256 ^ xs.length + be_value xs) / 256 ^ xs.length % 256 = x.val
      rw [Nat.add_comm, Nat.add_mul_div_right _ _ hpos, Nat.div_eq_of_lt hlt, Nat.zero_add]
      exact Nat.mod_eq_of_lt x.isLt
    have h2 : be_bytes xs.length (x.val * 256 ^ xs.length + be_value xs) = xs := by
      rw [be_bytes_mod, Nat.add_comm, Nat.add_mul_mod_self_right, Nat.mod_eq_of_lt hlt]
      exact ih
    rw [h1, h2]

theorem be_value_be_bytes (w v : Nat) : be_value (be_bytes w v) = v % 256 ^ w := by
  induction w with
  | zero => simp [be_bytes, be_value, Nat.mod_one]
  | succ w ih =>
    simp only [be_bytes, be_value, be_bytes_length, ih]
    show v / 256 ^ w % 256 * 256 ^ w + v % 256 ^ w = v % 256 ^ (w + 1)
    rw [Nat.mod_pow_succ]
    ring

theorem parse_be_value (cfg : Config) (hcfg : cfg.ok) (b : List Byte)
    (hlen : b.length = CELF_UINT_SIZE cfg) : celf_parse_uint cfg b = be_value b := by
  have h := parse_be_bytes cfg hcfg (be_value b)
  rw [← hlen, be_bytes_be_value] at h
  rw [h]
  exact Nat.mod_eq_of_lt (be_value_lt b)

theorem write_parse (cfg : Config) (hcfg : cfg.ok) (b : List Byte)
    (hlen : b.length = CELF_UINT_SIZE cfg) :
    be_bytes (CELF_UINT_SIZE cfg) (celf_parse_uint cfg b) = b := by
  rw [parse_be_value cfg hcfg b hlen, ← hlen]
  exact be_bytes_be_value b

theorem pow_codec (cfg : Config) : 2 ^ (8 * CELF_UINT_SIZE cfg) = 256 ^ CELF_UINT_SIZE cfg := by
  rw [Nat.pow_mul]

/-! ## Names and their comparison -/

theorem streq_loop_denoted (n : Nat) (a b : List Byte) (ha : n ≤ a.length) (hb : n ≤ b.length) :
    streq_loop n a b
      = ⟨[], .ok (decide (denoted_name (a.take n) = denoted_name (b.take n)))⟩ := by
  induction n generalizing a b with
  | zero => simp [streq_loop, denoted_name]
  | succ n ih =>
    cases a with
    | nil => simp at ha
    | cons x a =>
      cases b with
      | nil => simp at hb
      | cons y b =>
        have ha2 : n ≤ a.length := by simpa using ha
        have hb2 : n ≤ b.length := by simpa using hb
        simp only [streq_loop, List.take_succ_cons, denoted_name]
        by_cases hxy : x = y
        · subst hxy
          by_cases hx : x = 0
          · simp [hx, List.takeWhile]
          · have := ih a b ha2 hb2
            simp only [denoted_name] at this
            simp [hx, List.takeWhile, this]
        · by_cases hx : x = 0
          · have hy : y ≠ 0 := fun h => hxy (hx.trans h.symm)
            have hy2 : ¬ 0 = y := fun h => hy h.symm
            subst hx
            simp [hy, hy2, List.takeWhile]
          · by_cases hy : y = 0
            · simp [hxy, hx, hy, List.takeWhile]
            · simp [hxy, hx, hy, List.takeWhile]

theorem streq_denoted (a b : Name256) :
    celf_streq_256 a.val b.val
      = ⟨[], .ok (decide (denoted_name a.val = denoted_name b.val))⟩ := by
  have h := streq_loop_denoted 256 a.val b.val (le_of_eq a.2.symm) (le_of_eq b.2.symm)
  rw [List.take_of_length_le (le_of_eq a.2), List.take_of_length_le (le_of_eq b.2)] at h
  exact h

/-! ## Every execution of the builder -/

theorem store_entry_inv (arr arr2 : Option EntArr) (i : Nat) (g : celf_entry → celf_entry)
    (pre post : List celf_entry) (c : celf_entry) (hi : i = pre.length)
    (hc : ptr_cells arr = pre ++ c :: post)
    (h : (store_entry arr i g).out = .ok arr2) : ptr_cells arr2 = pre ++ g c :: post := by
  cases arr with
  | none => simp [store_entry, fault] at h
  | some a =>
    obtain ⟨addr, cells⟩ := a
    simp only [ptr_cells] at hc
    subst hc
    subst hi
    rw [store_entry_at] at h
    simp only [Outcome.ok.injEq] at h
    rw [← h]
    rfl

theorem build_entries_cells (cfg : Config) (es : List celf_entry_in) (prog : Counters)
    (retval f : celf_file) (pre mid post : List celf_entry)
    (hmid : mid.length = es.length)
    (hcells : ptr_cells retval.entries = pre ++ mid ++ post)
    (hv : ∀ e ∈ es, valid_section e.entry_section)
    (h : (build_entries cfg es pre.length prog retval).out = .ok f) :
    ptr_cells f.entries = pre ++ built_cells cfg es prog ++ post := by
  induction es generalizing prog retval pre mid with
  | nil =>
    have : mid = [] := List.length_eq_zero.mp hmid
    subst this
    simp only [build_entries, pure_run, Outcome.ok.injEq] at h
    subst h
    simpa [built_cells] using hcells
  | cons e es ih =>
    obtain ⟨c, mid2, rfl⟩ : ∃ c mid2, mid = c :: mid2 := by
      cases mid with
      | nil => simp at hmid
      | cons c m => exact ⟨c, m, rfl⟩
    have hmid2 : mid2.length = es.length := by simpa using hmid
    have hv2 : ∀ x ∈ es, valid_section x.entry_section :=
      fun x hx => hv x (List.mem_cons_of_mem _ hx)
    have hcells2 : ptr_cells retval.entries = pre ++ c :: (mid2 ++ post) := by
      rw [hcells]; simp
    simp only [build_entries] at h
    obtain ⟨e1, h1, h⟩ := bind_out_inv _ _ _ h
    obtain ⟨e2, h2, h⟩ := bind_out_inv _ _ _ h
    have c1 := store_entry_inv _ _ _ _ pre (mid2 ++ post) c rfl hcells2 h1
    have c2 := store_entry_inv _ _ _ _ pre (mid2 ++ post) _ rfl c1 h2
    have step : ∀ (retval3 : celf_file) (prog3 : Counters) (off : Nat),
        ptr_cells retval3.entries
          = pre ++ (⟨e.entry_section, off, e.entry_name⟩ : celf_entry) :: (mid2 ++ post) →
        (build_entries cfg es (pre.length + 1) prog3 retval3).out = .ok f →
        off = prog.get e.entry_section →
        prog3 = prog.add cfg e.entry_section (needed_of cfg e.entry_size) →
        ptr_cells f.entries = pre ++ built_cells cfg (e :: es) prog ++ post := by
      intro retval3 prog3 off hc3 hb hoff hprog
      have := ih prog3 retval3 (pre ++ [⟨e.entry_section, off, e.entry_name⟩]) mid2 hmid2
        (by rw [hc3]; simp) hv2 (by simpa using hb)
      rw [this, hoff, hprog]
      simp [built_cells]
    rcases hv e (List.mem_cons_self _ _) with hs | hs | hs | hs | hs
    · simp only [hs, Fin.reduceEq, if_true, if_false] at h
      obtain ⟨e3, h3, h⟩ := bind_out_inv _ _ _ h
      obtain ⟨b, -, h⟩ := bind_out_inv _ _ _ h
      have c3 := store_entry_inv _ _ _ _ pre (mid2 ++ post) _ rfl c2 h3
      refine step _ _ _ (by simpa [hs] using c3) h ?_ ?_ <;>
        simp [hs, Counters.get, Counters.add]
    · simp only [hs, Fin.reduceEq, if_true, if_false] at h
      obtain ⟨e3, h3, h⟩ := bind_out_inv _ _ _ h
      have c3 := store_entry_inv _ _ _ _ pre (mid2 ++ post) _ rfl c2 h3
      refine step _ _ _ (by simpa [hs] using c3) h ?_ ?_ <;>
        simp [hs, Counters.get, Counters.add]
    · simp only [hs, Fin.reduceEq, if_true, if_false] at h
      obtain ⟨e3, h3, h⟩ := bind_out_inv _ _ _ h
      have c3 := store_entry_inv _ _ _ _ pre (mid2 ++ post) _ rfl c2 h3
      refine step _ _ _ (by simpa [hs] using c3) h ?_ ?_ <;>
        simp [hs, Counters.get, Counters.add]
    · simp only [hs, Fin.reduceEq, if_true, if_false] at h
      obtain ⟨e3, h3, h⟩ := bind_out_inv _ _ _ h
      obtain ⟨b, -, h⟩ := bind_out_inv _ _ _ h
      have c3 := store_entry_inv _ _ _ _ pre (mid2 ++ post) _ rfl c2 h3
      refine step _ _ _ (by simpa [hs] using c3) h ?_ ?_ <;>
        simp [hs, Counters.get, Counters.add]
    · simp only [hs, Fin.reduceEq, if_true, if_false] at h
      obtain ⟨e3, h3, h⟩ := bind_out_inv _ _ _ h
      obtain ⟨b, -, h⟩ := bind_out_inv _ _ _ h
      have c3 := store_entry_inv _ _ _ _ pre (mid2 ++ post) _ rfl c2 h3
      refine step _ _ _ (by simpa [hs] using c3) h ?_ ?_ <;>
        simp [hs, Counters.get, Counters.add]

theorem mem_write_log (dst : Option Block) (off : Nat) (data : List Byte) :
    ∀ e ∈ (mem_write dst off data).log, e.is_access = true := by
  unfold mem_write
  split_ifs with h0
  · simp
  · cases dst with
    | none => simp [fault]
    | some b =>
      simp only
      split_ifs
      · intro e he
        simp only [List.mem_singleton] at he
        subst he
        rfl
      · simp [fault]

theorem memcpy_log (dst : Option Block) (doff : Nat) (src : List Byte) (soff n : Nat) :
    ∀ e ∈ (celf_memcpy dst doff src soff n).log, e.is_access = true := by
  unfold celf_memcpy
  refine bind_log_forall _ _ _ ?_ (fun _ => mem_write_log _ _ _)
  unfold load
  split_ifs <;> simp [fault]

theorem build_entries_log (cfg : Config) (es : List celf_entry_in) (i : Nat) (prog : Counters)
    (retval : celf_file) :
    ∀ e ∈ (build_entries cfg es i prog retval).log, e.is_access = true := by
  induction es generalizing i prog retval with
  | nil => simp [build_entries]
  | cons e es ih =>
    simp only [build_entries]
    refine bind_log_forall _ _ _ (by simp [store_entry_log]) (fun _ => ?_)
    refine bind_log_forall _ _ _ (by simp [store_entry_log]) (fun _ => ?_)
    split_ifs
    · refine bind_log_forall _ _ _ (by simp [store_entry_log]) (fun _ => ?_)
      refine bind_log_forall _ _ _ (memcpy_log _ _ _ _ _) (fun _ => ?_)
      exact ih _ _ _
    · refine bind_log_forall _ _ _ (by simp [store_entry_log]) (fun _ => ?_)
      exact ih _ _ _
    · refine bind_log_forall _ _ _ (by simp [store_entry_log]) (fun _ => ?_)
      exact ih _ _ _
    · refine bind_log_forall _ _ _ (by simp [store_entry_log]) (fun _ => ?_)
      refine bind_log_forall _ _ _ (memcpy_log _ _ _ _ _) (fun _ => ?_)
      exact ih _ _ _
    · refine bind_log_forall _ _ _ (by simp [store_entry_log]) (fun _ => ?_)
      refine bind_log_forall _ _ _ (memcpy_log _ _ _ _ _) (fun _ => ?_)
      exact ih _ _ _
    · exact ih _ _ _

theorem build_sizes_invalid (cfg : Config) (es : List celf_entry_in) (c : Counters)
    (h : ∃ x ∈ es, ¬ valid_section x.entry_section) : build_sizes cfg es c = none := by
  induction es generalizing c with
  | nil => obtain ⟨x, hx, -⟩ := h; cases hx
  | cons e es ih =>
    simp only [build_sizes]
    by_cases hv : valid_section e.entry_section
    · have hrest : ∃ x ∈ es, ¬ valid_section x.entry_section := by
        obtain ⟨x, hx, hn⟩ := h
        rcases List.mem_cons.mp hx with rfl | hx
        · exact (hn hv).elim
        · exact ⟨x, hx, hn⟩
      split_ifs
      · exact ih _ hrest
      · exact ih _ hrest
      · exact ih _ hrest
      · exact ih _ hrest
      · exact ih _ hrest
      · rfl
    · unfold valid_section at hv
      simp only [not_or] at hv
      obtain ⟨h0, h1, h2, h3, h4⟩ := hv
      simp only [h0, h1, h2, h3, h4, if_false]

/-- Every execution of the builder on records of valid classes: an allocation
fails, or the zero-fill of the absent ZDATA buffer faults, or the second loop
runs on the freshly allocated container. -/
theorem build_run_aux (cfg : Config) (env : Env) (recs : List celf_entry_in)
    (hv : ∀ x ∈ recs, valid_section x.entry_section)
    (r : Run celf_file) (hr : r = celf_build_filestruct cfg env recs) :
    (¬ build_allocs_ok cfg env recs ∧ r.errs = [.err build_malloc_fail_err_msg] ∧
      ∃ f, r.out = .ok f ∧ f.no_sizes) ∨
    (build_allocs_ok cfg env recs ∧ (count_sizes cfg recs Counters.zero).zdata ≠ 0 ∧
      r.errs = [] ∧ r.out = .fault .null_pointer) ∨
    (build_allocs_ok cfg env recs ∧ (count_sizes cfg recs Counters.zero).zdata = 0 ∧
      r.errs = [] ∧
      r.out = (build_entries cfg recs 0 Counters.zero (build_start cfg env recs)).out) := by
  unfold celf_build_filestruct at hr
  simp only [build_sizes_valid cfg recs Counters.zero hv] at hr
  rcases option_cases (env.malloc 0 (cfg.wrap (cfg.sizeof_entry * recs.length))) with h0 | ⟨a0, h0⟩
  · left
    simp only [malloc_entries_none cfg env 0 _ h0, bind_ok, Option.isNone_none, if_true,
      celf_err, emit, pure_run, List.append_nil] at hr
    subst hr
    exact ⟨fun h => by have hh := h.1; rw [h0] at hh; exact absurd hh (by simp), rfl, _, rfl, by decide⟩
  simp only [malloc_entries_some cfg env 0 _ a0 h0, bind_ok, Option.isNone_some,
    Bool.false_eq_true, if_false] at hr
  rcases option_cases (env.malloc 1 (count_sizes cfg recs Counters.zero).rodata) with
    h1 | ⟨a1, h1⟩
  · left
    simp only [malloc_none env 1 _ h1, bind_ok, Option.isNone_none, if_true,
      celf_err, emit, pure_run, List.append_nil] at hr
    subst hr
    exact ⟨fun h => by have hh := h.2.1; rw [h1] at hh; exact absurd hh (by simp), rfl, _, rfl,
      ⟨rfl, rfl, rfl, rfl, rfl, rfl⟩⟩
  simp only [malloc_some env 1 _ a1 h1, bind_ok, Option.isNone_some,
    Bool.false_eq_true, if_false] at hr
  rcases option_cases (env.malloc 2 (count_sizes cfg recs Counters.zero).idata) with
    h2 | ⟨a2, h2⟩
  · left
    simp only [malloc_none env 2 _ h2, bind_ok, Option.isNone_none, if_true,
      celf_err, emit, pure_run, List.append_nil] at hr
    subst hr
    exact ⟨fun h => by have hh := h.2.2.1; rw [h2] at hh; exact absurd hh (by simp), rfl, _, rfl,
      ⟨rfl, rfl, rfl, rfl, rfl, rfl⟩⟩
  simp only [malloc_some env 2 _ a2 h2, bind_ok, Option.isNone_some,
    Bool.false_eq_true, if_false] at hr
  rcases option_cases (env.malloc 3 (count_sizes cfg recs Counters.zero).execd) with
    h3 | ⟨a3, h3⟩
  · left
    simp only [malloc_none env 3 _ h3, bind_ok, Option.isNone_none, if_true,
      celf_err, emit, pure_run, List.append_nil] at hr
    subst hr
    exact ⟨fun h => by have hh := h.2.2.2; rw [h3] at hh; exact absurd hh (by simp), rfl, _, rfl,
      ⟨rfl, rfl, rfl, rfl, rfl, rfl⟩⟩
  simp only [malloc_some env 3 _ a3 h3, bind_ok, Option.isNone_some,
    Bool.false_eq_true, if_false] at hr
  have hallocs : build_allocs_ok cfg env recs := by
    unfold build_allocs_ok
    rw [h0, h1, h2, h3]
    exact ⟨rfl, rfl, rfl, rfl⟩
  right
  by_cases hz : (count_sizes cfg recs Counters.zero).zdata = 0
  · right
    have hms : celf_memset (celf_file.zero).zdata 0 (count_sizes cfg recs Counters.zero).zdata
        = ⟨[], .ok none⟩ := by
      simp [celf_memset, mem_write, hz, celf_file.zero]
    simp only [celf_file.zero] at hms hr
    simp only [hms, bind_ok, List.nil_append] at hr
    subst hr
    refine ⟨hallocs, hz, ?_, ?_⟩
    · unfold Run.errs
      simp only [List.filter_append, List.filter_cons, List.filter_nil, Event.is_err,
        Bool.false_eq_true, if_false, List.nil_append]
      exact filter_err_of_access _ (build_entries_log _ _ _ _ _)
    · simp only [build_start, h0, h1, h2, h3, Option.map_some']
  · left
    have hms : celf_memset (celf_file.zero).zdata 0 (count_sizes cfg recs Counters.zero).zdata
        = ⟨[], .fault .null_pointer⟩ := by
      simp [celf_memset, mem_write, hz, celf_file.zero, fault]
    simp only [celf_file.zero] at hms hr
    simp only [hms, bind_fault, List.append_nil] at hr
    subst hr
    exact ⟨hallocs, hz, rfl, rfl⟩

/-! ## The container the builder returns -/

theorem built_cells_length (cfg : Config) (es : List celf_entry_in) (prog : Counters) :
    (built_cells cfg es prog).length = es.length := by
  induction es generalizing prog with
  | nil => rfl
  | cons e es ih => simp [built_cells, ih]

/-- The container the builder returns for records of valid classes: either an
allocation failed and the entry count and all sizes are 0, or every allocation
succeeded, no ZDATA was requested, and the entry count, the sizes and the
entries are those of the two loops. -/
theorem build_returned (cfg : Config) (env : Env) (recs : List celf_entry_in) (f : celf_file)
    (hv : ∀ x ∈ recs, valid_section x.entry_section)
    (h : (celf_build_filestruct cfg env recs).out = .ok f) :
    (¬ build_allocs_ok cfg env recs ∧ f.no_sizes) ∨
    (build_allocs_ok cfg env recs ∧ (count_sizes cfg recs Counters.zero).zdata = 0 ∧
      f.nentries = recs.length ∧
      f.rodata_size = (count_sizes cfg recs Counters.zero).rodata ∧
      f.udata_size = (count_sizes cfg recs Counters.zero).udata ∧
      f.zdata_size = (count_sizes cfg recs Counters.zero).zdata ∧
      f.idata_size = (count_sizes cfg recs Counters.zero).idata ∧
      f.execd_size = (count_sizes cfg recs Counters.zero).execd ∧
      (ptr_cells f.entries).take recs.length = built_cells cfg recs Counters.zero) := by
  rcases build_run_aux cfg env recs hv _ rfl with
    ⟨hna, -, g, hg, hns⟩ | ⟨-, -, -, hf⟩ | ⟨ha, hz, -, ho⟩
  · rw [hg] at h
    cases h
    exact Or.inl ⟨hna, hns⟩
  · rw [hf] at h
    cases h
  · rw [ho] at h
    right
    obtain ⟨⟨s1, s2, s3, s4, s5, s6, -⟩, hcap⟩ := build_entries_shape _ _ _ _ _ _ h
    have hlen : recs.length ≤ (ptr_cells (build_start cfg env recs).entries).length := by
      by_cases hr : recs = []
      · rw [hr]; exact Nat.zero_le _
      · have := hcap hr
        omega
    have hc := build_entries_cells cfg recs Counters.zero (build_start cfg env recs) f []
      ((ptr_cells (build_start cfg env recs).entries).take recs.length)
      ((ptr_cells (build_start cfg env recs).entries).drop recs.length)
      (by rw [List.length_take]; omega)
      (by rw [List.nil_append, List.take_append_drop]) hv h
    refine ⟨ha, hz, s1, s2, s3, s4, s5, s6, ?_⟩
    rw [hc, List.nil_append]
    exact List.take_left' (built_cells_length _ _ _)

theorem wrap_dvd (cfg : Config) (hb : 7 ≤ cfg.size_bits) (n : Nat) (h : CELF_ALIGNMENT ∣ n) :
    CELF_ALIGNMENT ∣ cfg.wrap n := by
  have h128 : CELF_ALIGNMENT ∣ 2 ^ cfg.size_bits := by
    have : CELF_ALIGNMENT = 2 ^ 7 := rfl
    rw [this]
    exact pow_dvd_pow 2 hb
  exact (Nat.dvd_mod_iff h128).mpr h

theorem needed_dvd (cfg : Config) (hb : 7 ≤ cfg.size_bits) (n : Nat) :
    CELF_ALIGNMENT ∣ needed_of cfg n := by
  unfold needed_of
  exact wrap_dvd cfg hb _ (Dvd.intro_left _ rfl)

theorem add_invalid (cfg : Config) (c : Counters) (s : Byte) (k : Nat)
    (h : ¬ valid_section s) : c.add cfg s k = c := by
  unfold valid_section at h
  simp only [not_or] at h
  obtain ⟨h0, h1, h2, h3, h4⟩ := h
  simp only [Counters.add, h0, h1, h2, h3, h4, if_false]

theorem add_aligned (cfg : Config) (hb : 7 ≤ cfg.size_bits) (c : Counters) (s : Byte) (k : Nat)
    (hc : ∀ cls, CELF_ALIGNMENT ∣ c.get cls) (hk : CELF_ALIGNMENT ∣ k) :
    ∀ cls, CELF_ALIGNMENT ∣ (c.add cfg s k).get cls := by
  intro cls
  by_cases hvs : valid_section s
  · by_cases hs : s = cls
    · subst hs
      rw [add_get_eq cfg c s k hvs]
      exact wrap_dvd cfg hb _ (Nat.dvd_add (hc s) hk)
    · rw [add_get_ne cfg c s cls k hs]
      exact hc cls
  · rw [add_invalid cfg c s k hvs]
    exact hc cls

theorem count_sizes_aligned (cfg : Config) (hb : 7 ≤ cfg.size_bits) (es : List celf_entry_in)
    (c : Counters) (hc : ∀ cls, CELF_ALIGNMENT ∣ c.get cls) :
    ∀ cls, CELF_ALIGNMENT ∣ (count_sizes cfg es c).get cls := by
  induction es generalizing c with
  | nil => exact hc
  | cons e es ih =>
    exact ih _ (add_aligned cfg hb c _ _ hc (needed_dvd cfg hb _))

theorem built_cells_aligned (cfg : Config) (hb : 7 ≤ cfg.size_bits) (es : List celf_entry_in)
    (prog : Counters) (hc : ∀ cls, CELF_ALIGNMENT ∣ prog.get cls) :
    ∀ c ∈ built_cells cfg es prog, CELF_ALIGNMENT ∣ c.entry_offset := by
  induction es generalizing prog with
  | nil => intro c hcm; cases hcm
  | cons e es ih =>
    intro c hcm
    simp only [built_cells, List.mem_cons] at hcm
    rcases hcm with rfl | hcm
    · exact hc _
    · exact ih _ (add_aligned cfg hb prog _ _ hc (needed_dvd cfg hb _)) c hcm

theorem ok_bits (cfg : Config) (hcfg : cfg.ok) : 7 ≤ cfg.size_bits := by
  have := hcfg.1
  have := uint_size_cases cfg
  omega

/-! ## Extents of the entries the builder lays out -/

theorem class_total_cons (cls : Byte) (e : celf_entry_in) (es : List celf_entry_in) :
    class_total cls (e :: es)
      = (if e.entry_section = cls then round_up e.entry_size else 0) + class_total cls es := by
  unfold class_total
  by_cases h : e.entry_section = cls
  · simp [h, List.filter_cons]
  · simp [h, List.filter_cons]

theorem class_total_append (cls : Byte) (l1 l2 : List celf_entry_in) :
    class_total cls (l1 ++ l2) = class_total cls l1 + class_total cls l2 := by
  unfold class_total
  simp [List.filter_append]

theorem round_up_fits (cfg : Config) (hb : 7 ≤ cfg.size_bits) (n : Nat)
    (h : round_up n < 2 ^ cfg.size_bits) : n + 127 < 2 ^ cfg.size_bits := by
  obtain ⟨k, hk⟩ : ∃ k, 2 ^ cfg.size_bits = 128 * k := by
    refine ⟨2 ^ (cfg.size_bits - 7), ?_⟩
    have : (128 : Nat) = 2 ^ 7 := by norm_num
    rw [this, ← pow_add]
    congr 1
    omega
  have hr : round_up n = (n + 127) / 128 * 128 := rfl
  have := Nat.div_add_mod (n + 127) 128
  have := Nat.mod_lt (n + 127) (show 128 > 0 by decide)
  omega

theorem add_get_exact (cfg : Config) (hb : 7 ≤ cfg.size_bits) (c : Counters) (s cls : Byte)
    (n : Nat) (hs : valid_section s) (hfit : c.get s + round_up n < 2 ^ cfg.size_bits) :
    (c.add cfg s (needed_of cfg n)).get cls
      = c.get cls + (if s = cls then round_up n else 0) := by
  have hn : n + 127 < 2 ^ cfg.size_bits := round_up_fits cfg hb n (by omega)
  by_cases h : s = cls
  · subst h
    rw [add_get_eq cfg c s _ hs, needed_of_eq cfg n hn, if_pos rfl]
    exact wrap_of_lt cfg _ hfit
  · rw [add_get_ne cfg c s cls _ h, if_neg h, Nat.add_zero]

theorem count_sizes_exact (cfg : Config) (hb : 7 ≤ cfg.size_bits) (es : List celf_entry_in)
    (c : Counters) (hv : ∀ x ∈ es, valid_section x.entry_section)
    (hfit : ∀ cls, c.get cls + class_total cls es < 2 ^ cfg.size_bits) :
    ∀ cls, (count_sizes cfg es c).get cls = c.get cls + class_total cls es := by
  induction es generalizing c with
  | nil => intro cls; simp [count_sizes, class_total]
  | cons e es ih =>
    have hve := hv e (List.mem_cons_self _ _)
    have hfe := hfit e.entry_section
    rw [class_total_cons, if_pos rfl] at hfe
    have hstep := fun cls => add_get_exact cfg hb c e.entry_section cls e.entry_size hve
      (by omega)
    intro cls
    simp only [count_sizes]
    rw [ih _ (fun x hx => hv x (List.mem_cons_of_mem _ hx)) (fun k => by
      rw [hstep k]
      have := hfit k
      rw [class_total_cons] at this
      omega), hstep cls, class_total_cons]
    omega

theorem built_cells_exact (cfg : Config) (hb : 7 ≤ cfg.size_bits) (es : List celf_entry_in)
    (prog : Counters) (hv : ∀ x ∈ es, valid_section x.entry_section)
    (hfit : ∀ cls, prog.get cls + class_total cls es < 2 ^ cfg.size_bits)
    (i : Nat) (hi : i < es.length) :
    (built_cells cfg es prog).get? i
      = some ⟨es[i].entry_section,
          prog.get es[i].entry_section + class_total es[i].entry_section (es.take i),
          es[i].entry_name⟩ := by
  induction es generalizing prog i with
  | nil => simp at hi
  | cons e es ih =>
    have hve := hv e (List.mem_cons_self _ _)
    have hfe := hfit e.entry_section
    rw [class_total_cons, if_pos rfl] at hfe
    have hstep := fun cls => add_get_exact cfg hb prog e.entry_section cls e.entry_size hve
      (by omega)
    cases i with
    | zero => simp [built_cells, class_total]
    | succ i =>
      have hi2 : i < es.length := by simpa using hi
      have := ih (prog.add cfg e.entry_section (needed_of cfg e.entry_size))
        (fun x hx => hv x (List.mem_cons_of_mem _ hx)) (fun k => by
          rw [hstep k]
          have := hfit k
          rw [class_total_cons] at this
          omega) i hi2
      simp only [built_cells, List.get?_cons_succ, List.getElem_cons_succ, List.take_succ_cons]
      rw [this, hstep, class_total_cons, Nat.add_assoc]

theorem class_total_take_succ (cls : Byte) (es : List celf_entry_in) (i : Nat)
    (hi : i < es.length) :
    class_total cls (es.take (i + 1))
      = class_total cls (es.take i)
        + (if es[i].entry_section = cls then round_up es[i].entry_size else 0) := by
  rw [List.take_succ, class_total_append, List.getElem?_eq_getElem hi]
  congr 1
  show class_total cls [es[i]] = _
  rw [class_total_cons]
  simp [class_total]

theorem class_total_take_mono (cls : Byte) (es : List celf_entry_in) (i j : Nat) (hij : i ≤ j) :
    class_total cls (es.take i) ≤ class_total cls (es.take j) := by
  have : es.take j = es.take i ++ (es.drop i).take (j - i) := by
    rw [← List.take_append_drop i (es.take j), List.take_take, Nat.min_eq_left hij,
      List.drop_take]
  rw [this, class_total_append]
  exact Nat.le_add_right _ _

theorem class_total_take_le (cls : Byte) (es : List celf_entry_in) (i : Nat) :
    class_total cls (es.take i) ≤ class_total cls es := by
  have h := class_total_append cls (es.take i) (es.drop i)
  rw [List.take_append_drop] at h
  omega

theorem section_size_counters (f : celf_file) (c : Counters)
    (h1 : f.rodata_size = c.rodata) (h2 : f.udata_size = c.udata) (h3 : f.zdata_size = c.zdata)
    (h4 : f.idata_size = c.idata) (h5 : f.execd_size = c.execd) (cls : Byte) :
    section_size f cls = c.get cls := by
  unfold section_size Counters.get CELF_RODATA CELF_UDATA CELF_ZDATA CELF_IDATA CELF_EXECD
  rw [h1, h2, h3, h4, h5]

/-! ## The bytes the serializer stores -/

theorem bytes_written_append (l1 l2 : List Event) :
    bytes_written (l1 ++ l2) = bytes_written l1 + bytes_written l2 := by
  simp [bytes_written]

theorem bind_written {α β : Type} (x : Run α) (f : α → Run β) (b : β)
    (h : (x >>= f).out = .ok b) :
    ∃ a, x.out = .ok a ∧ (f a).out = .ok b ∧
      bytes_written (x >>= f).log = bytes_written x.log + bytes_written (f a).log := by
  obtain ⟨l, o⟩ := x
  cases o with
  | ok a => exact ⟨a, rfl, h, bytes_written_append _ _⟩
  | fault e => simp only [bind_fault] at h; cases h

theorem mem_write_written (dst dst2 : Option Block) (off : Nat) (data : List Byte)
    (h : (mem_write dst off data).out = .ok dst2) :
    bytes_written (mem_write dst off data).log = data.length := by
  unfold mem_write at h ⊢
  split_ifs at h ⊢ with h0
  · rw [h0]; rfl
  · cases dst with
    | none => simp [fault] at h
    | some b =>
      simp only at h ⊢
      split_ifs at h ⊢ with hle
      · simp [bytes_written, Event.written]
      · simp [fault] at h

theorem load_inv (src : List Byte) (off n : Nat) (data : List Byte)
    (h : (load src off n).out = .ok data) : data.length = n ∧ (load src off n).log = [] := by
  unfold load at h ⊢
  split_ifs at h ⊢ with h0 hle
  · simp only [pure_run, Outcome.ok.injEq] at h
    subst h
    exact ⟨h0.symm, rfl⟩
  · simp only [pure_run, Outcome.ok.injEq] at h
    subst h
    refine ⟨?_, rfl⟩
    rw [List.length_take, List.length_drop]
    omega
  · simp [fault] at h

theorem memcpy_written (dst dst2 : Option Block) (doff : Nat) (src : List Byte) (soff n : Nat)
    (h : (celf_memcpy dst doff src soff n).out = .ok dst2) :
    bytes_written (celf_memcpy dst doff src soff n).log = n := by
  unfold celf_memcpy at h ⊢
  obtain ⟨data, h1, h2, hw⟩ := bind_written _ _ _ h
  obtain ⟨hl, hlog⟩ := load_inv _ _ _ _ h1
  rw [hw, hlog, mem_write_written _ _ _ _ h2, hl]
  simp [bytes_written]

theorem load_entry_log (arr : Option EntArr) (i : Nat) : (load_entry arr i).log = [] := by
  unfold load_entry
  cases arr with
  | none => rfl
  | some a =>
    simp only
    split_ifs <;> rfl

theorem write_uint_length (cfg : Config) (v : Nat) :
    (celf_write_uint cfg v).length = CELF_UINT_SIZE cfg := by
  rw [write_uint_eq, be_bytes_length]

theorem serialize_entries_written (cfg : Config) (d : celf_file) (k i r : Nat)
    (retval : Option Block) (p : Nat × Option Block)
    (h : (serialize_entries cfg d k i r retval).out = .ok p) :
    bytes_written (serialize_entries cfg d k i r retval).log
      = k * (1 + CELF_UINT_SIZE cfg + 256) := by
  induction k generalizing i r retval with
  | zero => simp [serialize_entries, bytes_written]
  | succ k ih =>
    simp only [serialize_entries] at h ⊢
    obtain ⟨e, -, h, w0⟩ := bind_written _ _ _ h
    obtain ⟨b1, h1, h, w1⟩ := bind_written _ _ _ h
    obtain ⟨b2, h2, h, w2⟩ := bind_written _ _ _ h
    obtain ⟨b3, h3, h, w3⟩ := bind_written _ _ _ h
    rw [w0, w1, w2, w3, load_entry_log, mem_write_written _ _ _ _ h1,
      mem_write_written _ _ _ _ h2, memcpy_written _ _ _ _ _ _ h3, ih _ _ _ h,
      write_uint_length]
    simp only [bytes_written, List.map_nil, List.sum_nil, List.length_singleton]
    ring

theorem serialize_section_written (sec : Option Block) (size r : Nat) (retval : Option Block)
    (p : Nat × Option Block) (h : (serialize_section sec size r retval).out = .ok p) :
    bytes_written (serialize_section sec size r retval).log = section_copied sec size := by
  unfold serialize_section at h ⊢
  unfold section_copied
  split_ifs at h ⊢ with hc
  · obtain ⟨b, h1, -, w⟩ := bind_written _ _ _ h
    rw [w, memcpy_written _ _ _ _ _ _ h1]
    rfl
  · rfl

/-- The bytes `celf_serialize` stores when it returns a buffer: the six size
fields, the entry table, and the guarded section copies. -/
theorem serialize_written (cfg : Config) (env : Env) (d : celf_file) (buf : Block) (len : Nat)
    (h : (celf_serialize cfg env d).out = .ok (some buf, len)) :
    bytes_written (celf_serialize cfg env d).log
      = 6 * CELF_UINT_SIZE cfg + d.nentries * (1 + CELF_UINT_SIZE cfg + 256)
        + section_copied d.rodata d.rodata_size + section_copied d.idata d.idata_size
        + section_copied d.execd d.execd_size := by
  unfold celf_serialize at h ⊢
  obtain ⟨m, hm, h, w0⟩ := bind_written _ _ _ h
  rw [w0]
  have hmlog : bytes_written (celf_malloc env 0 (cfg.wrap (d.rodata_size + d.idata_size
      + d.execd_size + d.nentries * (256 + 1 + CELF_UINT_SIZE cfg)
      + 6 * CELF_UINT_SIZE cfg))).log = 0 := by
    unfold celf_malloc
    split <;> rfl
  rw [hmlog]
  cases m with
  | none =>
    simp only [Option.isNone_none, if_true, celf_err, emit, bind_ok, pure_run,
      Outcome.ok.injEq, Prod.mk.injEq] at h
    exact absurd h.1 (by simp)
  | some b =>
    simp only [Option.isNone_some, Bool.false_eq_true, if_false] at h ⊢
    obtain ⟨b1, h1, h, w1⟩ := bind_written _ _ _ h
    obtain ⟨b2, h2, h, w2⟩ := bind_written _ _ _ h
    obtain ⟨b3, h3, h, w3⟩ := bind_written _ _ _ h
    obtain ⟨b4, h4, h, w4⟩ := bind_written _ _ _ h
    obtain ⟨b5, h5, h, w5⟩ := bind_written _ _ _ h
    obtain ⟨b6, h6, h, w6⟩ := bind_written _ _ _ h
    obtain ⟨p1, h7, h, w7⟩ := bind_written _ _ _ h
    obtain ⟨p2, h8, h, w8⟩ := bind_written _ _ _ h
    obtain ⟨p3, h9, h, w9⟩ := bind_written _ _ _ h
    obtain ⟨p4, h10, h, w10⟩ := bind_written _ _ _ h
    rw [w1, w2, w3, w4, w5, w6, w7, w8, w9, w10, mem_write_written _ _ _ _ h1,
      mem_write_written _ _ _ _ h2, mem_write_written _ _ _ _ h3, mem_write_written _ _ _ _ h4,
      mem_write_written _ _ _ _ h5, mem_write_written _ _ _ _ h6,
      serialize_entries_written _ _ _ _ _ _ _ h7, serialize_section_written _ _ _ _ _ h8,
      serialize_section_written _ _ _ _ _ h9, serialize_section_written _ _ _ _ _ h10,
      write_uint_length]
    simp only [write_uint_length, pure_run, bytes_written, List.map_nil, List.sum_nil]
    ring

theorem section_copied_sized (sec : Option Block) (size : Nat)
    (h : (ptr_bytes sec).length = size) : section_copied sec size = size := by
  unfold section_copied
  split_ifs with hc
  · rfl
  · by_contra hne
    apply hc
    refine ⟨?_, fun h0 => hne (by rw [h0])⟩
    cases sec with
    | none =>
      simp only [ptr_bytes, List.length_nil] at h
      exact absurd h.symm (fun h0 => hne (by rw [h0]))
    | some b => rfl

/-! ## Deserialize, then serialize -/

theorem take_slice {α : Type} (l : List α) (a b : Nat) :
    l.take a ++ (l.drop a).take b = l.take (a + b) := (List.take_add l a b).symm

theorem slice_slice {α : Type} (l : List α) (p a b : Nat) :
    (l.drop p).take a ++ (l.drop (p + a)).take b = (l.drop p).take (a + b) := by
  rw [List.take_add, List.drop_drop]

theorem name_ofList_full (l : List Byte) (h : l.length = 256) : (Name256.ofList l).val = l := by
  show (l ++ List.replicate 256 0).take 256 = l
  exact List.take_left' h

theorem head_slice (l : List Byte) (p : Nat) (h : p < l.length) :
    [((l.drop p).take 1).headD 0] = (l.drop p).take 1 := by
  rw [List.drop_eq_getElem_cons h]
  rfl

theorem wire_entry_at (cfg : Config) (hcfg : cfg.ok) (bufin : List Byte) (p : Nat)
    (h : p + (1 + CELF_UINT_SIZE cfg + 256) ≤ bufin.length) :
    wire_entry cfg (entry_at cfg bufin p)
      = (bufin.drop p).take (1 + CELF_UINT_SIZE cfg + 256) := by
  have hW := uint_size_pos cfg
  unfold wire_entry entry_at
  simp only
  rw [head_slice bufin p (by omega),
    write_parse cfg hcfg _ (by rw [List.length_take, List.length_drop]; omega),
    name_ofList_full _ (by rw [List.length_take, List.length_drop]; omega),
    slice_slice, show p + 1 + CELF_UINT_SIZE cfg = p + (1 + CELF_UINT_SIZE cfg) by omega,
    slice_slice]

theorem wire_table_at (cfg : Config) (hcfg : cfg.ok) (bufin : List Byte) (base n : Nat)
    (h : base + n * (1 + CELF_UINT_SIZE cfg + 256) ≤ bufin.length) :
    (((List.range n).map fun j =>
        entry_at cfg bufin (base + j * (1 + CELF_UINT_SIZE cfg + 256))).map
      (wire_entry cfg)).flatten
      = (bufin.drop base).take (n * (1 + CELF_UINT_SIZE cfg + 256)) := by
  induction n with
  | zero => simp
  | succ n ih =>
    have hmul : (n + 1) * (1 + CELF_UINT_SIZE cfg + 256)
        = n * (1 + CELF_UINT_SIZE cfg + 256) + (1 + CELF_UINT_SIZE cfg + 256) := by ring
    rw [hmul] at h ⊢
    rw [List.range_succ, List.map_append, List.map_append, List.flatten_append, ih (by omega)]
    simp only [List.map_cons, List.map_nil, List.flatten_cons, List.flatten_nil,
      List.append_nil]
    rw [wire_entry_at cfg hcfg bufin _ (by omega), slice_slice]

/-- The wire layout of the container loaded from `bufin` is the part of
`bufin` its header announces. -/
theorem layout_loaded (cfg : Config) (hcfg : cfg.ok) (env : Env) (bufin : List Byte)
    (ha : deserialize_allocs_ok cfg env bufin)
    (hlen : 6 * CELF_UINT_SIZE cfg
      + header_field cfg bufin 0 * (1 + CELF_UINT_SIZE cfg + 256)
      + header_field cfg bufin 1 + header_field cfg bufin 4 + header_field cfg bufin 5
        ≤ bufin.length) :
    wire_layout cfg (loaded_container cfg env bufin)
      = bufin.take (6 * CELF_UINT_SIZE cfg
        + header_field cfg bufin 0 * (1 + CELF_UINT_SIZE cfg + 256)
        + header_field cfg bufin 1 + header_field cfg bufin 4 + header_field cfg bufin 5) := by
  have hW := uint_size_pos cfg
  obtain ⟨a0, h0⟩ := Option.isSome_iff_exists.mp ha.1
  obtain ⟨a1, h1⟩ := Option.isSome_iff_exists.mp ha.2.1
  obtain ⟨a3, h3⟩ := Option.isSome_iff_exists.mp ha.2.2.2.1
  obtain ⟨a5, h5⟩ := Option.isSome_iff_exists.mp ha.2.2.2.2.2
  have hfield : ∀ k, k < 6 → be_bytes (CELF_UINT_SIZE cfg) (header_field cfg bufin k)
      = (bufin.drop (k * CELF_UINT_SIZE cfg)).take (CELF_UINT_SIZE cfg) := by
    intro k hk
    have hk2 : (k + 1) * CELF_UINT_SIZE cfg ≤ 6 * CELF_UINT_SIZE cfg :=
      Nat.mul_le_mul_right _ hk
    have hk3 : (k + 1) * CELF_UINT_SIZE cfg = k * CELF_UINT_SIZE cfg + CELF_UINT_SIZE cfg := by
      ring
    exact write_parse cfg hcfg _ (by rw [List.length_take, List.length_drop]; omega)
  have hheader : wire_header cfg (loaded_container cfg env bufin)
      = bufin.take (6 * CELF_UINT_SIZE cfg) := by
    unfold wire_header
    simp only [loaded_container]
    rw [hfield 0 (by omega), hfield 1 (by omega), hfield 2 (by omega), hfield 3 (by omega),
      hfield 4 (by omega), hfield 5 (by omega)]
    have e : ∀ k, (k + 1) * CELF_UINT_SIZE cfg = k * CELF_UINT_SIZE cfg + CELF_UINT_SIZE cfg :=
      fun k => by ring
    have s := fun k (m : Nat) => slice_slice bufin (0 * CELF_UINT_SIZE cfg)
      (k * CELF_UINT_SIZE cfg) m
    simp only [Nat.zero_mul, Nat.zero_add, List.drop_zero] at s ⊢
    have t1 := s 1 (CELF_UINT_SIZE cfg)
    have t2 := s 2 (CELF_UINT_SIZE cfg)
    have t3 := s 3 (CELF_UINT_SIZE cfg)
    have t4 := s 4 (CELF_UINT_SIZE cfg)
    have t5 := s 5 (CELF_UINT_SIZE cfg)
    rw [← e] at t1 t2 t3 t4 t5
    simp only [Nat.one_mul] at t1 ⊢
    rw [t1, t2, t3, t4, t5]
  have htable : wire_table cfg (loaded_container cfg env bufin)
      = (bufin.drop (6 * CELF_UINT_SIZE cfg)).take
          (header_field cfg bufin 0 * (1 + CELF_UINT_SIZE cfg + 256)) := by
    unfold wire_table
    simp only [loaded_container, h0, Option.map_some', ptr_cells]
    rw [List.take_of_length_le (by simp)]
    exact wire_table_at cfg hcfg bufin _ _ (by omega)
  unfold wire_layout
  rw [hheader, htable]
  simp only [loaded_container, h1, h3, h5, Option.map_some', ptr_bytes, payload_offset]
  rw [take_slice, take_slice, take_slice, take_slice]

/-! ## Properties stated by the specification -/

set_option maxRecDepth 100000

/-- C1. Round trip: for a container `f` returned by `celf_build_filestruct`
(all allocations succeeding, entry count, section sizes and offsets
representable in the codec width, wire length fitting `size_t`, link hook a
no-op), `celf_serialize` returns a buffer and its length, and `celf_deserialize`
on that buffer and length reports no error and returns a container with the
same entry count, the same entries (name, section class, offset) in the same
order, and the same RODATA, IDATA and EXECD bytes. -/
theorem build_serialize_deserialize_roundtrip (cfg : Config) (envB envS envD : Env)
    (recs : List celf_entry_in) (f : celf_file)
    (hcfg : cfg.ok)
    (hbuild : (celf_build_filestruct cfg envB recs).out = .ok f)
    (hallocB : ∀ k sz, (envB.malloc k sz).isSome)
    (hallocS : ∀ k sz, (envS.malloc k sz).isSome)
    (hallocD : ∀ k sz, (envD.malloc k sz).isSome)
    (hlink : ∀ c, envD.link c = c)
    (hrep : f.nentries < 256 ^ CELF_UINT_SIZE cfg ∧ f.rodata_size < 256 ^ CELF_UINT_SIZE cfg ∧
      f.idata_size < 256 ^ CELF_UINT_SIZE cfg ∧ f.execd_size < 256 ^ CELF_UINT_SIZE cfg)
    (hoff : ∀ e ∈ ptr_cells f.entries, e.entry_offset < 256 ^ CELF_UINT_SIZE cfg)
    (hfit : wire_length cfg f < 2 ^ cfg.size_bits) :
    ∃ buf g,
      (celf_serialize cfg envS f).out = .ok (some buf, buf.bytes.length) ∧
      (celf_deserialize cfg envD buf.bytes buf.bytes.length).out = .ok g ∧
      (celf_deserialize cfg envD buf.bytes buf.bytes.length).errs = [] ∧
      g.nentries = f.nentries ∧
      ptr_cells g.entries = ptr_cells f.entries ∧
      ptr_bytes g.rodata = ptr_bytes f.rodata ∧
      ptr_bytes g.idata = ptr_bytes f.idata ∧
      ptr_bytes g.execd = ptr_bytes f.execd := by
  have hzero : ∀ d : celf_file, d.sized → d.nentries = 0 → ptr_cells d.entries = [] →
      d.rodata_size = 0 → d.idata_size = 0 → d.execd_size = 0 →
      wire_length cfg d < 2 ^ cfg.size_bits →
      ∃ buf g,
        (celf_serialize cfg envS d).out = .ok (some buf, buf.bytes.length) ∧
        (celf_deserialize cfg envD buf.bytes buf.bytes.length).out = .ok g ∧
        (celf_deserialize cfg envD buf.bytes buf.bytes.length).errs = [] ∧
        g.nentries = d.nentries ∧ ptr_cells g.entries = ptr_cells d.entries ∧
        ptr_bytes g.rodata = ptr_bytes d.rodata ∧ ptr_bytes g.idata = ptr_bytes d.idata ∧
        ptr_bytes g.execd = ptr_bytes d.execd := by
    intro d hd h0 hc h1 h2 h3 hf
    obtain ⟨a, hs, hl, ho, he, r1, r2, r3, r4, r5⟩ :=
      roundtrip_empty cfg hcfg envS envD d hd h0 hc h1 h2 h3 hf hallocS
    refine ⟨⟨a, wire_layout cfg d⟩, celf_file.zero, ?_, ?_, ?_, r1, r2, r3, r4, r5⟩
    · rw [hs]; simp only [hl]
    · simp only [hl]; exact ho
    · simp only [hl]; exact he
  rcases build_shape cfg envB recs f hbuild hallocB with hz | ⟨hn, hcl, hcap, h1, h2, h3, hnil⟩
  · subst hz
    exact hzero celf_file.zero (by decide) rfl rfl rfl rfl rfl hfit
  · by_cases hrecs : recs = []
    · obtain ⟨z1, z2, z3⟩ := hnil hrecs
      have hn0 : f.nentries = 0 := by rw [hn, hrecs]; rfl
      have hc0 : ptr_cells f.entries = [] := by
        apply List.length_eq_zero.mp
        have := cap_le cfg recs.length
        rw [hrecs] at this
        rw [hcl, hrecs]
        simpa using this
      exact hzero f ⟨by rw [hn0]; exact Nat.zero_le _, h1, h2, h3⟩ hn0 hc0 z1 z2 z3 hfit
    · have hle := hcap hrecs
      have hge := cap_le cfg recs.length
      have hcells : (ptr_cells f.entries).length = f.nentries := by omega
      have hn0 : f.nentries ≠ 0 := by
        rw [hn]
        intro h0
        exact hrecs (List.length_eq_zero.mp h0)
      obtain ⟨a, hs, hl, ho, he, ⟨r1, r2, r3, r4, r5⟩, -⟩ :=
        roundtrip_nonempty cfg hcfg envS envD f ⟨by omega, h1, h2, h3⟩ hcells hn0
          (by rw [hn]; omega) hrep hoff hfit hallocS hallocD
      refine ⟨⟨a, wire_layout cfg f⟩, loaded_container cfg envD (wire_layout cfg f),
        ?_, ?_, ?_, r1, r2, r3, r4, r5⟩
      · rw [hs]; simp only [hl]
      · simp only [hl]; rw [ho, hlink]
      · simp only [hl]; exact he

theorem build_serialize_deserialize_roundtrip_witness :
    ∃ buf g,
      (celf_serialize cfg32 env_ok (built_container cfg32 env_ok scenario_records)).out
        = .ok (some buf, buf.bytes.length) ∧
      (celf_deserialize cfg32 env_ok buf.bytes buf.bytes.length).out = .ok g ∧
      (celf_deserialize cfg32 env_ok buf.bytes buf.bytes.length).errs = [] ∧
      g.nentries = (built_container cfg32 env_ok scenario_records).nentries ∧
      ptr_cells g.entries = ptr_cells (built_container cfg32 env_ok scenario_records).entries ∧
      ptr_bytes g.rodata = ptr_bytes (built_container cfg32 env_ok scenario_records).rodata ∧
      ptr_bytes g.idata = ptr_bytes (built_container cfg32 env_ok scenario_records).idata ∧
      ptr_bytes g.execd = ptr_bytes (built_container cfg32 env_ok scenario_records).execd :=
  build_serialize_deserialize_roundtrip cfg32 env_ok env_ok env_ok scenario_records
    (built_container cfg32 env_ok scenario_records) (by decide) (by decide)
    (fun _ _ => rfl) (fun _ _ => rfl) (fun _ _ => rfl) (fun _ => rfl)
    (by decide) (by decide) (by decide)

/-- C2. Insufficient-length rejection fails: the one-entry image needs 285
bytes by its header; with the supplied length 24 (at least six size fields,
less than the 285 needed) `celf_deserialize` reports no error and returns the
populated container of one entry, while with the supplied length 286 (more
than needed) it reports the "Buffer was too small" error. -/
theorem deserialize_accepts_insufficient_length :
    6 * CELF_UINT_SIZE cfg32 ≤ 24 ∧
    header_field cfg32 one_entry_image 0 = 1 ∧
    24 < 6 * CELF_UINT_SIZE cfg32 + header_field cfg32 one_entry_image 0 * (257 + CELF_UINT_SIZE cfg32)
      + header_field cfg32 one_entry_image 1 + header_field cfg32 one_entry_image 4
      + header_field cfg32 one_entry_image 5 ∧
    (celf_deserialize cfg32 env_ok one_entry_image 24).errs = [] ∧
    (celf_deserialize cfg32 env_ok one_entry_image 24).out
      = .ok (loaded_container cfg32 env_ok one_entry_image) ∧
    (loaded_container cfg32 env_ok one_entry_image).nentries = 1 ∧
    (celf_deserialize cfg32 env_ok one_entry_image 286).errs = [.err fail_err_msg] := by
  decide

/-- C3. Bounds safety fails: with the supplied length 24 on the one-entry
image `celf_deserialize` reads the byte at index 24 and the 256 bytes from
index 29, all at or beyond the supplied length, without reporting an error;
on a buffer that really holds only those 24 bytes the read is outside the
buffer. -/
theorem deserialize_reads_past_supplied_length :
    Event.read 24 1 ∈ (celf_deserialize cfg32 env_ok one_entry_image 24).log ∧
    Event.read 29 256 ∈ (celf_deserialize cfg32 env_ok one_entry_image 24).log ∧
    (celf_deserialize cfg32 env_ok one_entry_image 24).errs = [] ∧
    (celf_deserialize cfg32 env_ok (one_entry_image.take 24) 24).out
      = .fault .read_out_of_bounds := by
  decide

/-- C4. Builder content placement fails when two records share a class: for the
records `"a"` and `"b"` of class RODATA with contents `[1]` and `[2]`,
`celf_build_filestruct` returns a container whose entries have offsets 0 and
128, whose RODATA byte 0 is `2` (the content of `"b"`, copied over the content
of `"a"`) and whose RODATA byte 128 is the unwritten allocator byte `0xAA`:
neither record has its content at its offset. -/
theorem build_copies_to_section_base :
    (celf_build_filestruct cfg32 env_ok two_rodata_records).out
      = .ok (built_container cfg32 env_ok two_rodata_records) ∧
    (celf_build_filestruct cfg32 env_ok two_rodata_records).errs = [] ∧
    (ptr_cells (built_container cfg32 env_ok two_rodata_records).entries).map
      (fun c => c.entry_offset) = [0, 128] ∧
    (ptr_bytes (built_container cfg32 env_ok two_rodata_records).rodata).length = 256 ∧
    (ptr_bytes (built_container cfg32 env_ok two_rodata_records).rodata).take 1 = [2] ∧
    ((ptr_bytes (built_container cfg32 env_ok two_rodata_records).rodata).drop 128).take 1
      = [0xAA] ∧
    ¬ content_at_cursor (built_container cfg32 env_ok two_rodata_records)
      two_rodata_records := by
  decide

/-- C5. Wire layout: for a container whose section buffers hold their declared
sizes and whose table holds `nentries` entries, when the length of the layout
fits `size_t` and the allocation succeeds, `celf_serialize` returns a buffer
whose content is exactly `wire_layout`: the six big-endian sizes, the entries
in table order (section id, big-endian offset, 256-byte name), then the
RODATA, IDATA and EXECD bytes; its length is the returned length, and the
UDATA and ZDATA buffers contribute nothing. -/
theorem serialize_wire_layout (cfg : Config) (env : Env) (d : celf_file) (a : Nat)
    (hd : d.sized) (hfit : wire_length cfg d < 2 ^ cfg.size_bits)
    (hm : env.malloc 0 (wire_length cfg d) = some a) :
    (celf_serialize cfg env d).out = .ok (some ⟨a, wire_layout cfg d⟩, wire_length cfg d) ∧
    (wire_layout cfg d).length = wire_length cfg d ∧
    wire_layout cfg d =
      be_bytes (CELF_UINT_SIZE cfg) d.nentries ++ be_bytes (CELF_UINT_SIZE cfg) d.rodata_size
        ++ be_bytes (CELF_UINT_SIZE cfg) d.udata_size
        ++ be_bytes (CELF_UINT_SIZE cfg) d.zdata_size
        ++ be_bytes (CELF_UINT_SIZE cfg) d.idata_size
        ++ be_bytes (CELF_UINT_SIZE cfg) d.execd_size
        ++ (((ptr_cells d.entries).take d.nentries).map fun e =>
            [e.entry_section] ++ be_bytes (CELF_UINT_SIZE cfg) e.entry_offset
              ++ e.entry_name.val).flatten
        ++ ptr_bytes d.rodata ++ ptr_bytes d.idata ++ ptr_bytes d.execd ∧
    ∀ u z, wire_layout cfg { d with udata := u, zdata := z } = wire_layout cfg d :=
  ⟨serialize_out cfg env d a hd hfit hm, wire_layout_length cfg d hd, rfl, fun _ _ => rfl⟩

theorem serialize_wire_layout_witness :
    (celf_serialize cfg32 env_ok resolve_example).out
      = .ok (some ⟨4096, wire_layout cfg32 resolve_example⟩, wire_length cfg32 resolve_example) ∧
    (wire_layout cfg32 resolve_example).length = wire_length cfg32 resolve_example ∧
    wire_length cfg32 resolve_example = 1447 :=
  ⟨(serialize_wire_layout cfg32 env_ok resolve_example 4096 (by decide) (by decide) rfl).1,
   (serialize_wire_layout cfg32 env_ok resolve_example 4096 (by decide) (by decide) rfl).2.1,
   by decide⟩

/-- C6. Symbol resolution. When the table holds `nentries` entries and the name
of none of them matches `sym` under `celf_streq_256`, `celf_resolve_symbol`
returns `CELF_MAGIC_INVALID_PTR` (NULL). When entry `k` is the first whose name
matches, it returns the base of the section of entry `k` plus the offset of
entry `k` if the section id of entry `k` is one of the five classes, and NULL
if it is not, whatever the entries after `k` are. -/
theorem resolve_symbol_first_match (f : celf_file) (sym : List Byte) :
    (f.nentries ≤ (ptr_cells f.entries).length →
      (∀ e ∈ (ptr_cells f.entries).take f.nentries,
        (celf_streq_256 sym e.entry_name.val).out = .ok false) →
      celf_resolve_symbol f sym = ⟨[], .ok CELF_MAGIC_INVALID_PTR⟩) ∧
    (∀ k e, k < f.nentries → (ptr_cells f.entries).get? k = some e →
      (celf_streq_256 sym e.entry_name.val).out = .ok true →
      (∀ e' ∈ (ptr_cells f.entries).take k,
        (celf_streq_256 sym e'.entry_name.val).out = .ok false) →
      (∀ base, section_base f e.entry_section = some base →
        celf_resolve_symbol f sym = ⟨[], .ok (base + e.entry_offset)⟩) ∧
      (section_base f e.entry_section = none →
        celf_resolve_symbol f sym = ⟨[], .ok CELF_MAGIC_INVALID_PTR⟩)) := by
  constructor
  · intro hlen hmiss
    unfold celf_resolve_symbol
    apply resolve_loop_miss
    intro j _ hj
    exact take_get _ _ _ hlen hmiss j (by omega)
  · intro k e hk he hs hbefore
    have hkl : k ≤ (ptr_cells f.entries).length :=
      le_of_lt (List.get?_eq_some.mp he).1
    have hrun : celf_resolve_symbol f sym = ⟨[], .ok (switch_value f e)⟩ := by
      unfold celf_resolve_symbol
      exact resolve_loop_hit f sym f.nentries 0 k e (Nat.zero_le _) (by omega) he hs
        (fun j _ hj => take_get _ _ _ hkl hbefore j hj)
    obtain ⟨h1, h2⟩ := switch_value_base f e
    constructor
    · intro base hb
      rw [hrun, h1 base hb]
    · intro hb
      rw [hrun, h2 hb]

theorem resolve_symbol_first_match_witness :
    celf_resolve_symbol resolve_example (ascii "y" ++ [0]) = ⟨[], .ok CELF_MAGIC_INVALID_PTR⟩ ∧
    celf_resolve_symbol resolve_example (ascii "x" ++ [0]) = ⟨[], .ok (4096 + 128)⟩ ∧
    celf_resolve_symbol resolve_example (ascii "bad" ++ [0])
      = ⟨[], .ok CELF_MAGIC_INVALID_PTR⟩ :=
  ⟨(resolve_symbol_first_match resolve_example (ascii "y" ++ [0])).1 (by decide) (by decide),
   ((resolve_symbol_first_match resolve_example (ascii "x" ++ [0])).2 0
      ⟨CELF_RODATA, 128, Name256.ofList (ascii "x")⟩ (by decide) (by decide) (by decide)
      (by decide)).1 4096 (by decide),
   ((resolve_symbol_first_match resolve_example (ascii "bad" ++ [0])).2 1
      ⟨7, 0, Name256.ofList (ascii "bad")⟩ (by decide) (by decide) (by decide)
      (by decide)).2 (by decide)⟩

/-- C7. End-to-end scenario: for a non-empty list of records whose names are
pairwise different under `celf_streq_256`, no two of which share a section
class, every class being RODATA, IDATA or EXECD (allocations succeeding, sizes
representable, no-op link hook), `celf_build_filestruct`, `celf_serialize` and
`celf_deserialize` all return; in the loaded container every entry has offset
0, and for every record the size of its section is the record's length rounded
up to a multiple of 128, the section buffer has that many bytes,
`celf_resolve_symbol` on the record's name returns the base of that section,
and the first `entry_size` bytes of the section are the record's content. -/
theorem build_load_resolve_scenario (cfg : Config) (envB envS envD : Env)
    (recs : List celf_entry_in)
    (hcfg : cfg.ok) (hne : recs ≠ [])
    (hcls : ∀ e ∈ recs, stored_section e.entry_section)
    (hdist : recs.Pairwise (fun a b => a.entry_section ≠ b.entry_section))
    (hnames : recs.Pairwise (fun a b =>
      (celf_streq_256 a.entry_name.val b.entry_name.val).out = .ok false))
    (hread : ∀ e ∈ recs, e.entry_size ≤ e.entry_data.length)
    (hsize : ∀ e ∈ recs, round_up e.entry_size < 256 ^ CELF_UINT_SIZE cfg)
    (hcap : cfg.sizeof_entry * recs.length < 2 ^ cfg.size_bits)
    (hfit : (recs.map (fun e => round_up e.entry_size)).sum
      + recs.length * (256 + 1 + CELF_UINT_SIZE cfg) + 6 * CELF_UINT_SIZE cfg
        < 2 ^ cfg.size_bits)
    (hallocB : ∀ k sz, (envB.malloc k sz).isSome)
    (hallocS : ∀ k sz, (envS.malloc k sz).isSome)
    (hallocD : ∀ k sz, (envD.malloc k sz).isSome)
    (hlink : ∀ c, envD.link c = c) :
    ∃ f buf g,
      (celf_build_filestruct cfg envB recs).out = .ok f ∧
      (celf_serialize cfg envS f).out = .ok (some buf, buf.bytes.length) ∧
      (celf_deserialize cfg envD buf.bytes buf.bytes.length).out = .ok g ∧
      (celf_deserialize cfg envD buf.bytes buf.bytes.length).errs = [] ∧
      g.nentries = recs.length ∧
      (∀ c ∈ ptr_cells g.entries, c.entry_offset = 0) ∧
      ∀ e ∈ recs,
        section_size g e.entry_section = round_up e.entry_size ∧
        (section_bytes g e.entry_section).length = round_up e.entry_size ∧
        (∃ base, section_base g e.entry_section = some base ∧
          (celf_resolve_symbol g e.entry_name.val).out = .ok base) ∧
        (section_bytes g e.entry_section).take e.entry_size
          = e.entry_data.take e.entry_size := by
  obtain ⟨hbuild, hsized, hcells, hbound⟩ :=
    built_distinct cfg hcfg envB recs hcls hdist hread hsize hcap hallocB
  have hlen3 := stored_length_le recs hcls hdist
  have hW := uint_size_cases cfg
  have hn : (built_container cfg envB recs).nentries = recs.length := rfl
  have hn0 : (built_container cfg envB recs).nentries ≠ 0 := by
    rw [hn]
    exact fun h => hne (List.length_eq_zero.mp h)
  have hro : (built_container cfg envB recs).rodata_size
      = (count_sizes cfg recs Counters.zero).rodata := rfl
  have hid : (built_container cfg envB recs).idata_size
      = (count_sizes cfg recs Counters.zero).idata := rfl
  have hex : (built_container cfg envB recs).execd_size
      = (count_sizes cfg recs Counters.zero).execd := rfl
  have hrep : (built_container cfg envB recs).nentries < 256 ^ CELF_UINT_SIZE cfg ∧
      (built_container cfg envB recs).rodata_size < 256 ^ CELF_UINT_SIZE cfg ∧
      (built_container cfg envB recs).idata_size < 256 ^ CELF_UINT_SIZE cfg ∧
      (built_container cfg envB recs).execd_size < 256 ^ CELF_UINT_SIZE cfg := by
    refine ⟨?_, hbound 0, hbound 3, hbound 4⟩
    rw [hn]
    have : 256 ^ 4 ≤ 256 ^ CELF_UINT_SIZE cfg :=
      Nat.pow_le_pow_right (by decide) (by omega)
    have h4 : (256 : Nat) ^ 4 = 4294967296 := by norm_num
    omega
  have hwl : wire_length cfg (built_container cfg envB recs) < 2 ^ cfg.size_bits := by
    have ht := count_sizes_total cfg recs Counters.zero
    rw [show Counters.zero.total = 0 from rfl, Nat.zero_add] at ht
    unfold wire_length
    rw [hn, hro, hid, hex]
    unfold Counters.total at ht
    omega
  have hcap2 : (built_container cfg envB recs).nentries
      ≤ cfg.wrap (cfg.sizeof_entry * (built_container cfg envB recs).nentries)
        / cfg.sizeof_entry := by
    rw [hn, wrap_of_lt cfg _ hcap, Nat.mul_div_cancel_left _ hcfg.2]
  have hoff : ∀ c ∈ ptr_cells (built_container cfg envB recs).entries,
      c.entry_offset < 256 ^ CELF_UINT_SIZE cfg := by
    intro c hc
    rw [hcells] at hc
    obtain ⟨e, -, rfl⟩ := List.mem_map.mp hc
    exact Nat.pos_pow_of_pos _ (by decide)
  obtain ⟨a, hs, hl, ho, he, hrel, s1, s2, s3⟩ :=
    roundtrip_nonempty cfg hcfg envS envD (built_container cfg envB recs) hsized
      (by rw [hcells, List.length_map]; rfl) hn0 hcap2 hrep hoff hwl hallocS hallocD
  have hgc : ptr_cells (loaded_container cfg envD
      (wire_layout cfg (built_container cfg envB recs))).entries = recs.map (fun e =>
      ({ entry_section := e.entry_section, entry_offset := 0, entry_name := e.entry_name }
        : celf_entry)) := by
    rw [hrel.2.1, hcells]
  refine ⟨built_container cfg envB recs, ⟨a, wire_layout cfg (built_container cfg envB recs)⟩,
    loaded_container cfg envD (wire_layout cfg (built_container cfg envB recs)),
    hbuild, ?_, ?_, ?_, hrel.1.trans hn, ?_, ?_⟩
  · rw [hs]; simp only [hl]
  · simp only [hl]; rw [ho, hlink]
  · simp only [hl]; exact he
  · intro c hc
    rw [hgc] at hc
    obtain ⟨e, -, rfl⟩ := List.mem_map.mp hc
    rfl
  · intro e hemem
    obtain ⟨-, b1, b2, b3⟩ := built_section cfg envB recs e hemem hcls hdist hallocB
      (round_up_size_fits cfg hcfg _ (hsize e hemem)) (hread e hemem)
    obtain ⟨q1, q2⟩ := reloaded_section _ _ hrel s1 s2 s3 e.entry_section (hcls e hemem)
    obtain ⟨base, hbase⟩ := section_base_stored (loaded_container cfg envD
      (wire_layout cfg (built_container cfg envB recs))) e.entry_section (hcls e hemem)
    refine ⟨by rw [q1, b1], by rw [q2, b2], ⟨base, hbase, ?_⟩, by rw [q2, b3]⟩
    rw [resolve_record _ recs e hemem (hrel.1.trans hn) hgc hnames]
    have := (switch_value_base (loaded_container cfg envD
      (wire_layout cfg (built_container cfg envB recs)))
      ⟨e.entry_section, 0, e.entry_name⟩).1 base hbase
    rw [this]
    rfl

theorem build_load_resolve_scenario_witness :
    ∃ f buf g,
      (celf_build_filestruct cfg32 env_ok scenario_records).out = .ok f ∧
      (celf_serialize cfg32 env_ok f).out = .ok (some buf, buf.bytes.length) ∧
      (celf_deserialize cfg32 env_ok buf.bytes buf.bytes.length).out = .ok g ∧
      (celf_deserialize cfg32 env_ok buf.bytes buf.bytes.length).errs = [] ∧
      g.nentries = scenario_records.length ∧
      (∀ c ∈ ptr_cells g.entries, c.entry_offset = 0) ∧
      ∀ e ∈ scenario_records,
        section_size g e.entry_section = round_up e.entry_size ∧
        (section_bytes g e.entry_section).length = round_up e.entry_size ∧
        (∃ base, section_base g e.entry_section = some base ∧
          (celf_resolve_symbol g e.entry_name.val).out = .ok base) ∧
        (section_bytes g e.entry_section).take e.entry_size
          = e.entry_data.take e.entry_size :=
  build_load_resolve_scenario cfg32 env_ok env_ok env_ok scenario_records
    (by decide) (by decide) (by decide) (by decide) (by decide) (by decide) (by decide)
    (by decide) (by decide) (fun _ _ => rfl) (fun _ _ => rfl) (fun _ _ => rfl) (fun _ => rfl)

/-- C8. Load ordering: when `celf_deserialize` returns a container without
reporting an error on a buffer whose entry count is not zero, its collaborator
calls are exactly `celf_link` on the fully populated container, then
`celf_make_exec` on the EXECD buffer with `execd_size`, then `celf_make_ro` on
the RODATA buffer with `rodata_size`; the result is what the link hook left,
and all six allocations had succeeded. -/
theorem deserialize_load_order (cfg : Config) (env : Env) (bufin : List Byte) (bufsz : Nat)
    (f : celf_file)
    (hret : (celf_deserialize cfg env bufin bufsz).out = .ok f)
    (hnoerr : (celf_deserialize cfg env bufin bufsz).errs = [])
    (hcount : header_field cfg bufin 0 ≠ 0) :
    (celf_deserialize cfg env bufin bufsz).calls =
      [.link (loaded_container cfg env bufin),
       .make_exec (ptr_addr f.execd) (header_field cfg bufin 5),
       .make_ro (ptr_addr f.rodata) (header_field cfg bufin 1)] ∧
    f = env.link (loaded_container cfg env bufin) ∧
    deserialize_allocs_ok cfg env bufin :=
  deserialize_populated cfg env bufin bufsz f hret hnoerr hcount

theorem deserialize_load_order_witness :
    (celf_deserialize cfg32 env_ok one_entry_image 285).calls =
      [.link (loaded_container cfg32 env_ok one_entry_image),
       .make_exec (ptr_addr (loaded_container cfg32 env_ok one_entry_image).execd)
         (header_field cfg32 one_entry_image 5),
       .make_ro (ptr_addr (loaded_container cfg32 env_ok one_entry_image).rodata)
         (header_field cfg32 one_entry_image 1)] ∧
    loaded_container cfg32 env_ok one_entry_image
      = env_ok.link (loaded_container cfg32 env_ok one_entry_image) ∧
    deserialize_allocs_ok cfg32 env_ok one_entry_image :=
  deserialize_load_order cfg32 env_ok one_entry_image 285
    (loaded_container cfg32 env_ok one_entry_image) (by decide) (by decide) (by decide)

/-- C9, counterexample: on a well-formed one-entry image, when the RODATA
allocation fails `celf_deserialize` reports the allocation failure and returns
a container that still holds the entry array and the entry count 1, so the
result is not zero-valued. -/
theorem deserialize_failure_not_zero :
    (celf_deserialize cfg32 env_rodata_fails one_entry_image 285).errs
      = [.err deserialize_malloc_fail_err_msg] ∧
    ∃ f, (celf_deserialize cfg32 env_rodata_fails one_entry_image 285).out = .ok f ∧
      f.nentries = 1 ∧ f.entries.isSome = true ∧ f ≠ celf_file.zero := by
  refine ⟨by decide, _, rfl, by decide, by decide, by decide⟩

/-- C9, amended: when `celf_deserialize` reports an error and the reporter
returns, that error is the only one, no collaborator is called, and the result
is zero-valued if the buffer was rejected as malformed or the allocation of the
entry array failed; if a later allocation failed, the result keeps the entry
array and the entry count, has no EXECD buffer, and is not zero-valued. -/
theorem deserialize_failure_result (cfg : Config) (env : Env) (bufin : List Byte) (bufsz : Nat)
    (msg : String) (hfail : Event.err msg ∈ (celf_deserialize cfg env bufin bufsz).log) :
    ∃ f, (celf_deserialize cfg env bufin bufsz).out = .ok f ∧
      (celf_deserialize cfg env bufin bufsz).errs = [.err msg] ∧
      (celf_deserialize cfg env bufin bufsz).calls = [] ∧
      ((msg = fail_err_msg ∨ env.malloc 0 (header_entries_size cfg bufin) = none) →
        f = celf_file.zero) ∧
      (¬ (msg = fail_err_msg ∨ env.malloc 0 (header_entries_size cfg bufin) = none) →
        f.entries.isSome = true ∧ f.nentries = header_field cfg bufin 0 ∧ f.nentries ≠ 0 ∧
        f.execd = none ∧ f ≠ celf_file.zero) := by
  rcases deserialize_run_aux cfg env bufin bufsz _ rfl with
    ⟨e, -, he, -⟩ | ⟨ho, he, hc, -⟩ | ⟨-, -, hr⟩ | ⟨-, hn, -, he, hc, -, f, ho, hf⟩ |
    ⟨-, -, -, he, -⟩
  · exact (err_not_mem _ msg hfail he).elim
  · have hm := err_mem_errs _ _ _ hfail he
    subst hm
    exact ⟨_, ho, he, hc, fun _ => rfl, fun h => (h (Or.inl rfl)).elim⟩
  · rw [hr] at hfail
    simp at hfail
  · have hm := err_mem_errs _ _ _ hfail he
    subst hm
    refine ⟨f, ho, he, hc, ?_, ?_⟩
    · rintro (h | h)
      · exact (err_msgs_ne h).elim
      · rcases hf with ⟨-, hz⟩ | ⟨hs, -⟩
        · exact hz
        · rw [h] at hs; cases hs
    · intro h
      rcases hf with ⟨h0, -⟩ | ⟨-, h1, h2, h3⟩
      · exact (h (Or.inr h0)).elim
      · refine ⟨h1, h2, by rw [h2]; exact hn, h3, ?_⟩
        intro hz
        rw [hz] at h1
        cases h1
  · exact (err_not_mem _ msg hfail he).elim

theorem deserialize_failure_result_witness :
    Event.err deserialize_malloc_fail_err_msg
      ∈ (celf_deserialize cfg32 env_rodata_fails one_entry_image 285).log ∧
    ∃ f, (celf_deserialize cfg32 env_rodata_fails one_entry_image 285).out = .ok f ∧
      (celf_deserialize cfg32 env_rodata_fails one_entry_image 285).errs
        = [.err deserialize_malloc_fail_err_msg] ∧
      (celf_deserialize cfg32 env_rodata_fails one_entry_image 285).calls = [] ∧
      ((deserialize_malloc_fail_err_msg = fail_err_msg ∨
          env_rodata_fails.malloc 0 (header_entries_size cfg32 one_entry_image) = none) →
        f = celf_file.zero) ∧
      (¬ (deserialize_malloc_fail_err_msg = fail_err_msg ∨
          env_rodata_fails.malloc 0 (header_entries_size cfg32 one_entry_image) = none) →
        f.entries.isSome = true ∧ f.nentries = header_field cfg32 one_entry_image 0 ∧
        f.nentries ≠ 0 ∧ f.execd = none ∧ f ≠ celf_file.zero) :=
  ⟨by decide, deserialize_failure_result cfg32 env_rodata_fails one_entry_image 285
    deserialize_malloc_fail_err_msg (by decide)⟩

/-- C10, counterexample: with a link hook that writes 1 to every byte of
ZDATA, `celf_deserialize` succeeds on an image with one entry and a declared
ZDATA size of 2 and returns the ZDATA content `[1, 1]`. -/
theorem deserialize_zdata_not_zero :
    header_field cfg32 zdata_image 0 ≠ 0 ∧ header_field cfg32 zdata_image 3 = 2 ∧
    (celf_deserialize cfg32 env_link_patches_zdata zdata_image 285).errs = [] ∧
    ∃ f, (celf_deserialize cfg32 env_link_patches_zdata zdata_image 285).out = .ok f ∧
      ptr_bytes f.zdata = [1, 1] := by
  refine ⟨by decide, by decide, by decide, _, rfl, by decide⟩

/-- C10, amended: when `celf_deserialize` returns a container without
reporting an error on a buffer whose entry count is not zero, and the link hook
leaves the ZDATA buffer as it finds it, the returned ZDATA buffer holds exactly
the declared `zdata_size` bytes, all 0, whatever the rest of the input is. -/
theorem deserialize_zero_fill (cfg : Config) (env : Env) (bufin : List Byte) (bufsz : Nat)
    (f : celf_file)
    (hret : (celf_deserialize cfg env bufin bufsz).out = .ok f)
    (hnoerr : (celf_deserialize cfg env bufin bufsz).errs = [])
    (hcount : header_field cfg bufin 0 ≠ 0)
    (hlink : ∀ c, (env.link c).zdata = c.zdata) :
    ∃ a, f.zdata = some ⟨a, List.replicate (header_field cfg bufin 3) 0⟩ := by
  obtain ⟨-, hf, ha⟩ := deserialize_populated cfg env bufin bufsz f hret hnoerr hcount
  obtain ⟨a, h4⟩ := Option.isSome_iff_exists.mp ha.2.2.2.2.1
  refine ⟨a, ?_⟩
  rw [hf, hlink]
  simp [loaded_container, h4]

theorem deserialize_zero_fill_witness :
    ∃ a, (loaded_container cfg32 env_ok zdata_image).zdata
      = some ⟨a, List.replicate (header_field cfg32 zdata_image 3) 0⟩ :=
  deserialize_zero_fill cfg32 env_ok zdata_image 285 (loaded_container cfg32 env_ok zdata_image)
    (by decide) (by decide) (by decide) (fun _ => rfl)


/-! ## Further properties stated by the specification -/

/-- C11. Alignment: on a build whose `size_t` holds a codec integer, for every
list of records with valid section classes, in the container
`celf_build_filestruct` returns every one of the `nentries` entries has an
offset that is a multiple of `CELF_ALIGNMENT` (128), and each of the five
section sizes is a multiple of 128. -/
theorem build_alignment (cfg : Config) (hcfg : cfg.ok) (env : Env) (recs : List celf_entry_in)
    (f : celf_file)
    (hv : ∀ x ∈ recs, valid_section x.entry_section)
    (h : (celf_build_filestruct cfg env recs).out = .ok f) :
    (∀ c ∈ (ptr_cells f.entries).take f.nentries, CELF_ALIGNMENT ∣ c.entry_offset) ∧
    CELF_ALIGNMENT ∣ f.rodata_size ∧ CELF_ALIGNMENT ∣ f.udata_size ∧
    CELF_ALIGNMENT ∣ f.zdata_size ∧ CELF_ALIGNMENT ∣ f.idata_size ∧
    CELF_ALIGNMENT ∣ f.execd_size := by
  have hb := ok_bits cfg hcfg
  have hz : ∀ cls, CELF_ALIGNMENT ∣ Counters.zero.get cls := by
    intro cls
    rw [zero_get]
    exact Nat.dvd_zero _
  rcases build_returned cfg env recs f hv h with
    ⟨-, h0, h1, h2, h3, h4, h5⟩ | ⟨-, -, hn, s1, s2, s3, s4, s5, hc⟩
  · rw [h0, h1, h2, h3, h4, h5]
    exact ⟨fun c hcm => by simp at hcm, Nat.dvd_zero _, Nat.dvd_zero _, Nat.dvd_zero _,
      Nat.dvd_zero _, Nat.dvd_zero _⟩
  · have hs := count_sizes_aligned cfg hb recs Counters.zero hz
    rw [hn, hc, s1, s2, s3, s4, s5]
    exact ⟨built_cells_aligned cfg hb recs Counters.zero hz, hs 0, hs 1, hs 2, hs 3, hs 4⟩

theorem build_alignment_witness :
    (∀ c ∈ (ptr_cells (built_container cfg32 env_ok two_rodata_records).entries).take
        (built_container cfg32 env_ok two_rodata_records).nentries,
      CELF_ALIGNMENT ∣ c.entry_offset) ∧
    CELF_ALIGNMENT ∣ (built_container cfg32 env_ok two_rodata_records).rodata_size ∧
    CELF_ALIGNMENT ∣ (built_container cfg32 env_ok two_rodata_records).udata_size ∧
    CELF_ALIGNMENT ∣ (built_container cfg32 env_ok two_rodata_records).zdata_size ∧
    CELF_ALIGNMENT ∣ (built_container cfg32 env_ok two_rodata_records).idata_size ∧
    CELF_ALIGNMENT ∣ (built_container cfg32 env_ok two_rodata_records).execd_size :=
  build_alignment cfg32 (by decide) env_ok two_rodata_records
    (built_container cfg32 env_ok two_rodata_records) (by decide) (by decide)

/-- C12, counterexample: when the RODATA allocation fails, `celf_deserialize`
returns for a well-formed 290-byte image a container of one entry with
`rodata_size = 5` and no RODATA buffer; for that container `celf_serialize`
reports the length 290 and returns a buffer of 290 bytes, but stores only 285
bytes into it: the guarded RODATA copy is skipped. -/
theorem serialize_reports_unwritten_bytes :
    ∃ g buf, (celf_deserialize cfg32 env_rodata_fails rodata_image 290).out = .ok g ∧
      g.nentries = 1 ∧ g.rodata = none ∧ g.rodata_size = 5 ∧
      (celf_serialize cfg32 env_ok g).out = .ok (some buf, 290) ∧
      buf.bytes.length = 290 ∧
      bytes_written (celf_serialize cfg32 env_ok g).log = 285 := by
  refine ⟨_, _, rfl, by decide, by decide, by decide, rfl, by decide, by decide⟩

/-- C12, amended: on a build whose `size_t` holds a codec integer, for a
container whose section buffers hold their declared sizes and whose table
holds `nentries` entries, with the entry count and the three stored sizes
representable in the codec width, the wire length fitting `size_t` and the
allocation succeeding: the length `celf_serialize` reports is the number of
bytes it stores into the returned buffer, is the length of that buffer, and is
`6W + n*(257+W) + rodata_size + idata_size + execd_size` for the values
decoded from the header fields of the buffer. -/
theorem serialize_size_consistent (cfg : Config) (hcfg : cfg.ok) (env : Env) (d : celf_file)
    (a : Nat) (hd : d.sized) (hfit : wire_length cfg d < 2 ^ cfg.size_bits)
    (hm : env.malloc 0 (wire_length cfg d) = some a)
    (hrep : d.nentries < 256 ^ CELF_UINT_SIZE cfg ∧ d.rodata_size < 256 ^ CELF_UINT_SIZE cfg ∧
      d.idata_size < 256 ^ CELF_UINT_SIZE cfg ∧ d.execd_size < 256 ^ CELF_UINT_SIZE cfg) :
    ∃ buf len, (celf_serialize cfg env d).out = .ok (some buf, len) ∧
      bytes_written (celf_serialize cfg env d).log = len ∧
      buf.bytes.length = len ∧
      len = 6 * CELF_UINT_SIZE cfg
        + header_field cfg buf.bytes 0 * (257 + CELF_UINT_SIZE cfg)
        + header_field cfg buf.bytes 1 + header_field cfg buf.bytes 4
        + header_field cfg buf.bytes 5 := by
  have hout := serialize_out cfg env d a hd hfit hm
  have hw := serialize_written cfg env d _ _ hout
  obtain ⟨hn, hro, hid, hex⟩ := hd
  obtain ⟨r0, r1, r4, r5⟩ := hrep
  obtain ⟨f0, f1, -, -, f4, f5⟩ := header_field_layout cfg hcfg d
  rw [Nat.mod_eq_of_lt r0] at f0
  rw [Nat.mod_eq_of_lt r1] at f1
  rw [Nat.mod_eq_of_lt r4] at f4
  rw [Nat.mod_eq_of_lt r5] at f5
  refine ⟨⟨a, wire_layout cfg d⟩, wire_length cfg d, hout, ?_,
    wire_layout_length cfg d ⟨hn, hro, hid, hex⟩, ?_⟩
  · rw [hw, section_copied_sized _ _ hro, section_copied_sized _ _ hid,
      section_copied_sized _ _ hex]
    unfold wire_length
    ring
  · show wire_length cfg d = _
    rw [f0, f1, f4, f5]
    unfold wire_length
    ring

theorem serialize_size_consistent_witness :
    ∃ buf len, (celf_serialize cfg32 env_ok resolve_example).out = .ok (some buf, len) ∧
      bytes_written (celf_serialize cfg32 env_ok resolve_example).log = len ∧
      buf.bytes.length = len ∧
      len = 6 * CELF_UINT_SIZE cfg32
        + header_field cfg32 buf.bytes 0 * (257 + CELF_UINT_SIZE cfg32)
        + header_field cfg32 buf.bytes 1 + header_field cfg32 buf.bytes 4
        + header_field cfg32 buf.bytes 5 :=
  serialize_size_consistent cfg32 (by decide) env_ok resolve_example 4096 (by decide)
    (by decide) rfl (by decide)

/-- C13. Degenerate case: when the supplied length is at least six size fields
and the first `W` bytes of the input decode to the entry count 0,
`celf_deserialize` reads those `W` bytes and nothing else, returns the
zero-valued container, reports no error, allocates nothing and calls neither
the link hook nor the protection adapter; any other input with the same first
`W` bytes and a supplied length of at least six size fields gives the same
execution, whatever the collaborators are. -/
theorem deserialize_zero_count (cfg : Config) (env : Env) (bufin : List Byte) (bufsz : Nat)
    (hsz : 6 * CELF_UINT_SIZE cfg ≤ bufsz) (hmem : CELF_UINT_SIZE cfg ≤ bufin.length)
    (h0 : celf_parse_uint cfg (bufin.take (CELF_UINT_SIZE cfg)) = 0) :
    celf_deserialize cfg env bufin bufsz
      = ⟨[.read 0 (CELF_UINT_SIZE cfg)], .ok celf_file.zero⟩ ∧
    (celf_deserialize cfg env bufin bufsz).errs = [] ∧
    (celf_deserialize cfg env bufin bufsz).mallocs = [] ∧
    (celf_deserialize cfg env bufin bufsz).calls = [] ∧
    ∀ (env2 : Env) (bufin2 : List Byte) (bufsz2 : Nat), 6 * CELF_UINT_SIZE cfg ≤ bufsz2 →
      bufin2.take (CELF_UINT_SIZE cfg) = bufin.take (CELF_UINT_SIZE cfg) →
      celf_deserialize cfg env2 bufin2 bufsz2 = celf_deserialize cfg env bufin bufsz := by
  have hW := uint_size_pos cfg
  have key : ∀ (env2 : Env) (bufin2 : List Byte) (bufsz2 : Nat), 6 * CELF_UINT_SIZE cfg ≤ bufsz2 →
      bufin2.take (CELF_UINT_SIZE cfg) = bufin.take (CELF_UINT_SIZE cfg) →
      celf_deserialize cfg env2 bufin2 bufsz2
        = ⟨[.read 0 (CELF_UINT_SIZE cfg)], .ok celf_file.zero⟩ := by
    intro env2 bufin2 bufsz2 h6 htake
    have hlen : CELF_UINT_SIZE cfg ≤ bufin2.length := by
      have h1 := congrArg List.length htake
      rw [List.length_take, List.length_take] at h1
      omega
    have hr := read_input_ok bufin2 0 (CELF_UINT_SIZE cfg) (Or.inr (by omega))
    unfold celf_deserialize
    rw [if_neg (by omega), hr]
    simp only [read_log, if_neg (Nat.pos_iff_ne_zero.mp hW), List.drop_zero, bind_ok, htake, h0,
      if_true, pure_run, List.append_nil]
  have hmain := key env bufin bufsz hsz rfl
  refine ⟨hmain, ?_, ?_, ?_, ?_⟩
  · rw [hmain]; rfl
  · rw [hmain]; rfl
  · rw [hmain]; rfl
  · intro env2 bufin2 bufsz2 h6 ht
    rw [hmain]
    exact key env2 bufin2 bufsz2 h6 ht

theorem deserialize_zero_count_witness :
    celf_deserialize cfg32 env_ok (List.replicate 4 0 ++ List.replicate 20 7) 24
      = ⟨[.read 0 4], .ok celf_file.zero⟩ :=
  (deserialize_zero_count cfg32 env_ok (List.replicate 4 0 ++ List.replicate 20 7) 24
    (by decide) (by decide) (by decide)).1

/-- C14. Short-buffer rejection: when the supplied length is less than six
size fields, `celf_deserialize` reports the "Buffer was too small" error and
returns the zero-valued container; the error report is its only event, so it
reads no byte of the buffer and allocates nothing. -/
theorem deserialize_short_buffer (cfg : Config) (env : Env) (bufin : List Byte) (bufsz : Nat)
    (hsz : bufsz < 6 * CELF_UINT_SIZE cfg) :
    celf_deserialize cfg env bufin bufsz = ⟨[.err fail_err_msg], .ok celf_file.zero⟩ ∧
    (celf_deserialize cfg env bufin bufsz).errs = [.err fail_err_msg] ∧
    (celf_deserialize cfg env bufin bufsz).mallocs = [] ∧
    (celf_deserialize cfg env bufin bufsz).calls = [] ∧
    ∀ ev ∈ (celf_deserialize cfg env bufin bufsz).log, ev.is_access = false := by
  have hmain : celf_deserialize cfg env bufin bufsz
      = ⟨[.err fail_err_msg], .ok celf_file.zero⟩ := by
    unfold celf_deserialize
    rw [if_pos hsz]
    rfl
  refine ⟨hmain, ?_, ?_, ?_, ?_⟩
  · rw [hmain]; rfl
  · rw [hmain]; rfl
  · rw [hmain]; rfl
  · rw [hmain]
    intro ev hev
    simp only [List.mem_singleton] at hev
    rw [hev]
    rfl

theorem deserialize_short_buffer_witness :
    celf_deserialize cfg32 env_ok one_entry_image 23
      = ⟨[.err fail_err_msg], .ok celf_file.zero⟩ :=
  (deserialize_short_buffer cfg32 env_ok one_entry_image 23 (by decide)).1

/-- C15. Builder section-id validation: `celf_build_filestruct` reports the
"improper section ID." error exactly when some record has a section class
outside 0..4; in that case the error report is its only event, so nothing is
allocated or copied, and it returns the zero-valued container. -/
theorem build_section_id_validation (cfg : Config) (env : Env) (recs : List celf_entry_in) :
    (Event.err sectionid_fail_err_msg ∈ (celf_build_filestruct cfg env recs).log ↔
      ∃ e ∈ recs, ¬ valid_section e.entry_section) ∧
    ((∃ e ∈ recs, ¬ valid_section e.entry_section) →
      celf_build_filestruct cfg env recs
        = ⟨[.err sectionid_fail_err_msg], .ok celf_file.zero⟩) := by
  have hbad : (∃ e ∈ recs, ¬ valid_section e.entry_section) →
      celf_build_filestruct cfg env recs
        = ⟨[.err sectionid_fail_err_msg], .ok celf_file.zero⟩ := by
    intro hex
    unfold celf_build_filestruct
    simp only [build_sizes_invalid cfg recs Counters.zero hex]
    rfl
  refine ⟨⟨?_, ?_⟩, hbad⟩
  · intro hmem
    by_contra hno
    have hv : ∀ x ∈ recs, valid_section x.entry_section := by
      intro x hx
      by_contra hx2
      exact hno ⟨x, hx, hx2⟩
    rcases build_run_aux cfg env recs hv _ rfl with
      ⟨-, he, -⟩ | ⟨-, -, he, -⟩ | ⟨-, -, he, -⟩
    · have := err_mem_errs _ _ _ hmem he
      exact absurd this (by decide)
    · exact err_not_mem _ _ hmem he
    · exact err_not_mem _ _ hmem he
  · intro hex
    rw [hbad hex]
    exact List.mem_singleton.mpr rfl

theorem build_section_id_validation_witness :
    celf_build_filestruct cfg32 env_ok bad_class_records
      = ⟨[.err sectionid_fail_err_msg], .ok celf_file.zero⟩ :=
  (build_section_id_validation cfg32 env_ok bad_class_records).2
    ⟨⟨Name256.ofList (ascii "b"), 9, [2], 1⟩, by decide, by decide⟩

/-- C16. Integer codec: on a build whose `size_t` holds a codec integer, for
every value `v`, `celf_write_uint` produces exactly `W` bytes, they denote
`v mod 2^(8W)` when read most significant byte first, `celf_parse_uint` of them
returns `v mod 2^(8W)`, hence `v` itself when `v < 2^(8W)` and a wrapped value
otherwise; and `celf_parse_uint` of any `W` bytes is the number they denote
big-endian. -/
theorem codec_round_trip (cfg : Config) (hcfg : cfg.ok) (v : Nat) :
    (celf_write_uint cfg v).length = CELF_UINT_SIZE cfg ∧
    be_value (celf_write_uint cfg v) = v % 2 ^ (8 * CELF_UINT_SIZE cfg) ∧
    celf_parse_uint cfg (celf_write_uint cfg v) = v % 2 ^ (8 * CELF_UINT_SIZE cfg) ∧
    (v < 2 ^ (8 * CELF_UINT_SIZE cfg) → celf_parse_uint cfg (celf_write_uint cfg v) = v) ∧
    (∀ b : List Byte, b.length = CELF_UINT_SIZE cfg → celf_parse_uint cfg b = be_value b) := by
  rw [write_uint_eq, pow_codec]
  refine ⟨be_bytes_length _ _, be_value_be_bytes _ _, parse_be_bytes cfg hcfg v, ?_,
    fun b hb => parse_be_value cfg hcfg b hb⟩
  intro hv
  rw [parse_be_bytes cfg hcfg v]
  exact Nat.mod_eq_of_lt hv

theorem codec_round_trip_witness :
    celf_write_uint cfg32 0x1A2B3C4D5E = [0x2B, 0x3C, 0x4D, 0x5E] ∧
    celf_parse_uint cfg32 (celf_write_uint cfg32 0x1A2B3C4D5E) = 0x2B3C4D5E ∧
    celf_parse_uint cfg32 (celf_write_uint cfg32 0x1A2B3C4D5E)
      = 0x1A2B3C4D5E % 2 ^ (8 * CELF_UINT_SIZE cfg32) :=
  ⟨by decide, by decide, (codec_round_trip cfg32 (by decide) 0x1A2B3C4D5E).2.2.1⟩

/-- C17, counterexample: on the 32-bit build, for two UDATA records that each
reserve `2 ^ 31` bytes, `celf_build_filestruct` returns without an error
report a container whose UDATA size is 0 although the rounded lengths of its
UDATA records sum to `2 ^ 32`; its second entry has offset `2 ^ 31`, so offset
plus rounded length exceeds the section size. -/
theorem build_sizes_wrap_around :
    (∀ x ∈ wrap_records, valid_section x.entry_section) ∧
    build_allocs_ok cfg32 env_ok wrap_records ∧
    (celf_build_filestruct cfg32 env_ok wrap_records).out
      = .ok (built_container cfg32 env_ok wrap_records) ∧
    (celf_build_filestruct cfg32 env_ok wrap_records).errs = [] ∧
    class_total CELF_UDATA wrap_records = 4294967296 ∧
    (built_container cfg32 env_ok wrap_records).udata_size = 0 ∧
    (ptr_cells (built_container cfg32 env_ok wrap_records).entries).map
      (fun c => c.entry_offset) = [0, 2147483648] ∧
    ¬ (2147483648 + round_up 2147483648
      ≤ (built_container cfg32 env_ok wrap_records).udata_size) := by
  decide

/-- C17, amended: on a build whose `size_t` holds a codec integer, for every
list of records with valid section classes whose rounded lengths sum, in each
class, to less than `2 ^ size_bits`, when all allocations succeed and
`celf_build_filestruct` returns a container: each section size is the sum of
the rounded lengths of the records of that class; entry `i` carries the class
and the name of record `i` and its offset is the sum of the rounded lengths of
the earlier records of the same class; offset plus rounded length stays within
the size of the section; and the blocks of two entries of one class do not
overlap. -/
theorem build_extents (cfg : Config) (hcfg : cfg.ok) (env : Env) (recs : List celf_entry_in)
    (f : celf_file)
    (hv : ∀ x ∈ recs, valid_section x.entry_section)
    (hfit : ∀ cls, class_total cls recs < 2 ^ cfg.size_bits)
    (halloc : build_allocs_ok cfg env recs)
    (h : (celf_build_filestruct cfg env recs).out = .ok f) :
    f.nentries = recs.length ∧
    (∀ cls, section_size f cls = class_total cls recs) ∧
    (∀ i (hi : i < recs.length), (ptr_cells f.entries).get? i
      = some ⟨recs[i].entry_section, class_total recs[i].entry_section (recs.take i),
          recs[i].entry_name⟩) ∧
    (∀ i (hi : i < recs.length),
      class_total recs[i].entry_section (recs.take i) + round_up recs[i].entry_size
        ≤ section_size f recs[i].entry_section) ∧
    (∀ i j (hi : i < recs.length) (hj : j < recs.length), i < j →
      recs[i].entry_section = recs[j].entry_section →
      class_total recs[i].entry_section (recs.take i) + round_up recs[i].entry_size
        ≤ class_total recs[j].entry_section (recs.take j)) := by
  have hb := ok_bits cfg hcfg
  have hfit0 : ∀ cls, Counters.zero.get cls + class_total cls recs < 2 ^ cfg.size_bits := by
    intro cls
    rw [zero_get, Nat.zero_add]
    exact hfit cls
  rcases build_returned cfg env recs f hv h with
    ⟨hna, -⟩ | ⟨-, -, hn, s1, s2, s3, s4, s5, hc⟩
  · exact (hna halloc).elim
  have hsz : ∀ cls, section_size f cls = class_total cls recs := by
    intro cls
    rw [section_size_counters f _ s1 s2 s3 s4 s5 cls,
      count_sizes_exact cfg hb recs Counters.zero hv hfit0 cls, zero_get, Nat.zero_add]
  have hstep : ∀ i (hi : i < recs.length),
      class_total recs[i].entry_section (recs.take i) + round_up recs[i].entry_size
        = class_total recs[i].entry_section (recs.take (i + 1)) := by
    intro i hi
    rw [class_total_take_succ _ recs i hi, if_pos rfl]
  refine ⟨hn, hsz, ?_, ?_, ?_⟩
  · intro i hi
    have hcell := built_cells_exact cfg hb recs Counters.zero hv hfit0 i hi
    rw [zero_get, Nat.zero_add] at hcell
    rw [← hcell, ← hc, List.get?_eq_getElem?, List.get?_eq_getElem?, List.getElem?_take_of_lt hi]
  · intro i hi
    rw [hstep i hi, hsz]
    exact class_total_take_le _ _ _
  · intro i j hi hj hij hcls
    rw [hstep i hi, hcls]
    exact class_total_take_mono _ _ _ _ hij

theorem build_extents_witness :
    (built_container cfg32 env_ok two_rodata_records).nentries = two_rodata_records.length ∧
    (∀ cls, section_size (built_container cfg32 env_ok two_rodata_records) cls
      = class_total cls two_rodata_records) ∧
    (built_container cfg32 env_ok two_rodata_records).rodata_size = 256 :=
  ⟨(build_extents cfg32 (by decide) env_ok two_rodata_records
      (built_container cfg32 env_ok two_rodata_records) (by decide) (by decide) (by decide)
      (by decide)).1,
   (build_extents cfg32 (by decide) env_ok two_rodata_records
      (built_container cfg32 env_ok two_rodata_records) (by decide) (by decide) (by decide)
      (by decide)).2.1,
   by decide⟩

/-- C18. Name comparison: for two 256-byte name fields, `celf_streq_256`
returns 1 exactly when the names they denote are equal, the name of a field
being its bytes before the first zero terminator, or all 256 bytes when there
is none; the result is the same for any other two fields denoting the same
names, so the bytes after a terminator have no influence; and the relation is
reflexive, symmetric and transitive. -/
theorem streq_compares_denoted_names (a b c : Name256) :
    celf_streq_256 a.val b.val
      = ⟨[], .ok (decide (denoted_name a.val = denoted_name b.val))⟩ ∧
    (∀ a2 b2 : Name256, denoted_name a2.val = denoted_name a.val →
      denoted_name b2.val = denoted_name b.val →
      celf_streq_256 a2.val b2.val = celf_streq_256 a.val b.val) ∧
    celf_streq_256 a.val a.val = ⟨[], .ok true⟩ ∧
    (celf_streq_256 a.val b.val = ⟨[], .ok true⟩ →
      celf_streq_256 b.val a.val = ⟨[], .ok true⟩) ∧
    (celf_streq_256 a.val b.val = ⟨[], .ok true⟩ →
      celf_streq_256 b.val c.val = ⟨[], .ok true⟩ →
      celf_streq_256 a.val c.val = ⟨[], .ok true⟩) := by
  have hiff : ∀ p q : Name256, celf_streq_256 p.val q.val = ⟨[], .ok true⟩ ↔
      denoted_name p.val = denoted_name q.val := by
    intro p q
    rw [streq_denoted]
    constructor
    · intro h
      have h2 : decide (denoted_name p.val = denoted_name q.val) = true := by
        injection h with _ h3
        injection h3
      exact of_decide_eq_true h2
    · intro h
      rw [decide_eq_true h]
  refine ⟨streq_denoted a b, ?_, (hiff a a).mpr rfl, ?_, ?_⟩
  · intro a2 b2 h1 h2
    rw [streq_denoted, streq_denoted, h1, h2]
  · intro h
    exact (hiff b a).mpr ((hiff a b).mp h).symm
  · intro h1 h2
    exact (hiff a c).mpr (((hiff a b).mp h1).trans ((hiff b c).mp h2))

theorem streq_compares_denoted_names_witness :
    celf_streq_256 (Name256.ofList (ascii "ab" ++ [0] ++ ascii "junk")).val
      (Name256.ofList (ascii "ab")).val = ⟨[], .ok true⟩ ∧
    celf_streq_256 (Name256.ofList (ascii "ab")).val
      (Name256.ofList (ascii "ab" ++ [0] ++ ascii "junk")).val = ⟨[], .ok true⟩ :=
  ⟨rfl,
   (streq_compares_denoted_names (Name256.ofList (ascii "ab" ++ [0] ++ ascii "junk"))
      (Name256.ofList (ascii "ab")) (Name256.ofList (ascii "abc"))).2.2.2.1 rfl⟩

/-- C19. Builder write safety fails: for the single ZDATA record of length 1,
all classes valid and all allocations succeeding, the first loop computes
`zdata_size = 128`, no ZDATA buffer is allocated, and the zero-fill
`celf_memset(retval.zdata, 0, zdata_size)` writes 128 bytes through the null
pointer: the execution stops on that fault after the three section
allocations, without an error report. -/
theorem build_zero_fill_through_null :
    (∀ x ∈ zdata_records, valid_section x.entry_section) ∧
    build_allocs_ok cfg32 env_ok zdata_records ∧
    (count_sizes cfg32 zdata_records Counters.zero).zdata = 128 ∧
    (build_start cfg32 env_ok zdata_records).zdata = none ∧
    (celf_build_filestruct cfg32 env_ok zdata_records).out = .fault .null_pointer ∧
    (celf_build_filestruct cfg32 env_ok zdata_records).errs = [] ∧
    (celf_build_filestruct cfg32 env_ok zdata_records).mallocs
      = [.malloc 264 4096, .malloc 0 8192, .malloc 0 12288, .malloc 0 16384] := by
  decide

/-- C20. Reverse round trip: on a build whose `size_t` holds a codec integer,
for an input with a non-zero entry count whose supplied length is the length
its header requires, `6W + n*(257+W) + rodata_size + idata_size + execd_size`,
and whose memory holds that many bytes (allocations succeeding, entry array
size not wrapping, link hook a no-op), `celf_deserialize` returns a container
without reporting an error, and `celf_serialize` of that container returns the
same length and a buffer whose content is exactly the supplied bytes. -/
theorem deserialize_serialize_round_trip (cfg : Config) (hcfg : cfg.ok) (envD envS : Env)
    (bufin : List Byte) (bufsz : Nat)
    (hn : header_field cfg bufin 0 ≠ 0)
    (hreq : bufsz = 6 * CELF_UINT_SIZE cfg
      + header_field cfg bufin 0 * (257 + CELF_UINT_SIZE cfg)
      + header_field cfg bufin 1 + header_field cfg bufin 4 + header_field cfg bufin 5)
    (hmem : bufsz ≤ bufin.length)
    (hsz : bufsz < 2 ^ cfg.size_bits)
    (hcap : cfg.sizeof_entry * header_field cfg bufin 0 < 2 ^ cfg.size_bits)
    (hallocD : ∀ k sz, (envD.malloc k sz).isSome)
    (hallocS : ∀ k sz, (envS.malloc k sz).isSome)
    (hlink : ∀ c, envD.link c = c) :
    ∃ g a, (celf_deserialize cfg envD bufin bufsz).out = .ok g ∧
      (celf_deserialize cfg envD bufin bufsz).errs = [] ∧
      (celf_serialize cfg envS g).out = .ok (some ⟨a, bufin.take bufsz⟩, bufsz) := by
  have hW := uint_size_pos cfg
  have hallocs : deserialize_allocs_ok cfg envD bufin :=
    ⟨hallocD _ _, hallocD _ _, hallocD _ _, hallocD _ _, hallocD _ _, hallocD _ _⟩
  have hreq2 : bufsz = 6 * CELF_UINT_SIZE cfg
      + header_field cfg bufin 0 * (1 + CELF_UINT_SIZE cfg + 256)
      + header_field cfg bufin 1 + header_field cfg bufin 4 + header_field cfg bufin 5 := by
    rw [hreq]; ring
  have hneed : header_size_needed cfg bufin = bufsz := by
    unfold header_size_needed
    rw [wrap_of_lt cfg _ (by rw [hreq] at hsz; linarith), hreq]
    ring
  have hbounds : deserialize_in_bounds cfg bufin := by
    refine ⟨?_, ?_⟩
    · unfold header_entries_size
      rw [wrap_of_lt cfg _ hcap, Nat.mul_div_cancel_left _ hcfg.2]
    · unfold payload_offset
      omega
  obtain ⟨ho, he, -⟩ := deserialize_ok cfg envD bufin bufsz (by rw [hreq2]; omega) hn
    (by rw [hneed]; omega) hbounds hallocs
  rw [hlink] at ho
  obtain ⟨a0, h0⟩ := Option.isSome_iff_exists.mp hallocs.1
  obtain ⟨a1, h1⟩ := Option.isSome_iff_exists.mp hallocs.2.1
  obtain ⟨a3, h3⟩ := Option.isSome_iff_exists.mp hallocs.2.2.2.1
  obtain ⟨a5, h5⟩ := Option.isSome_iff_exists.mp hallocs.2.2.2.2.2
  have hsized : (loaded_container cfg envD bufin).sized := by
    unfold celf_file.sized
    simp only [loaded_container, h0, h1, h3, h5, Option.map_some', ptr_cells, ptr_bytes,
      List.length_map, List.length_range, List.length_take, List.length_drop, payload_offset]
    refine ⟨le_refl _, ?_, ?_, ?_⟩ <;> omega
  have hwl : wire_length cfg (loaded_container cfg envD bufin) = bufsz := by
    unfold wire_length
    simp only [loaded_container]
    rw [hreq]
    ring
  obtain ⟨a, ha⟩ := Option.isSome_iff_exists.mp (hallocS 0 bufsz)
  have hser := serialize_out cfg envS (loaded_container cfg envD bufin) a hsized
    (by rw [hwl]; exact hsz) (by rw [hwl]; exact ha)
  rw [hwl, layout_loaded cfg hcfg envD bufin hallocs (by omega), ← hreq2] at hser
  exact ⟨_, a, ho, he, hser⟩

theorem deserialize_serialize_round_trip_witness :
    ∃ g a, (celf_deserialize cfg32 env_ok odd_image 290).out = .ok g ∧
      (celf_deserialize cfg32 env_ok odd_image 290).errs = [] ∧
      (celf_serialize cfg32 env_ok g).out = .ok (some ⟨a, odd_image.take 290⟩, 290) :=
  deserialize_serialize_round_trip cfg32 (by decide) env_ok env_ok odd_image 290
    (by decide) (by decide) (by decide) (by decide) (by decide)
    (fun _ _ => rfl) (fun _ _ => rfl) (fun _ => rfl)


end Celf
